import Mathlib

/-!
Verification of the UK-Trains departure-board pipeline.

This file is a shallow embedding, in Lean 4, of the pure core of the
UKTrains Indigo plugin:

* `text_formatter.py` — `delayCalc`, `formatSpecials`;
* `image_generator.py` — `compute_board_content_hash`,
  `_write_departure_board_text`, `_generate_departure_image`,
  `_append_train_to_image`, `_format_station_board`;
* `text2png.py` — the classic renderer's line-classification draw loop;
* `text2png_modern.py` — `parse_service_data`;
* `plugin.py` — the tail of `routeUpdate` (text write + render dispatch).

Python strings are modelled as `List Char` (wrapped in `String` at the
interfaces), Python `None` as `Option.none`, file contents as explicit
string arguments, and an uncaught Python exception as an `Option.none`
result.  Side effects (file writes, subprocess spawns, device-state
updates, log lines) are modelled as explicit data in the result.
-/

set_option maxHeartbeats 1000000
set_option maxRecDepth 8192

namespace UKTrains

/-! ## Python string primitives

Helpers mirroring the Python built-ins used by the plugin: `str.strip`,
the `in` substring test, `str.split(sep)`, `str.upper`, `int(...)`,
`str.find(sub, start)`, `str.replace(old, new)` and slicing. -/

/-- Characters Python `str.strip()` removes (ASCII whitespace). -/
def isPySpace (c : Char) : Bool :=
  c = ' ' || c = '\t' || c = '\n' || c = '\r' || c = '\x0b' || c = '\x0c'

/-- Python `s.lstrip()` on character lists. -/
def pyStripLeft (l : List Char) : List Char := l.dropWhile isPySpace

/-- Python `s.strip()` on character lists. -/
def pyStrip (l : List Char) : List Char :=
  ((l.dropWhile isPySpace).reverse.dropWhile isPySpace).reverse

/-- Does `hay` start with `pat`?  (Python `hay.startswith(pat)`.) -/
def listStartsWith : List Char → List Char → Bool
  | _, [] => true
  | [], _ :: _ => false
  | c :: cs, p :: ps => c = p && listStartsWith cs ps

/-- Python substring test `pat in hay`. -/
def containsSub (hay pat : List Char) : Bool :=
  match hay with
  | [] => pat.isEmpty
  | _ :: rest => listStartsWith hay pat || containsSub rest pat

/-- Python substring test on `String`s. -/
def pyContains (hay sub : String) : Bool := containsSub hay.data sub.data

/-- Python `s.split(sep)` for a one-character separator (keeps empty parts;
`"".split(sep) == ['']`). -/
def splitOnChar (sep : Char) : List Char → List (List Char)
  | [] => [[]]
  | c :: rest =>
    if c = sep then [] :: splitOnChar sep rest
    else
      match splitOnChar sep rest with
      | [] => [[c]]
      | g :: gs => (c :: g) :: gs

/-- Python `s.upper()` (ASCII; the tokens the plugin inspects are ASCII). -/
def upperAscii (l : List Char) : List Char := l.map Char.toUpper

/-- Value of a digit run with Python's single-underscore grouping
(`int("1_0") == 10`, `int("1__0")` raises).  `acc` is the value of the
digits already consumed. -/
def digitsValAux (acc : Nat) : List Char → Option Nat
  | [] => some acc
  | '_' :: c :: rest =>
      if c.isDigit then digitsValAux (acc * 10 + (c.toNat - 48)) rest else none
  | c :: rest =>
      if c.isDigit then digitsValAux (acc * 10 + (c.toNat - 48)) rest else none

/-- Value of a non-empty digit run (first character must be a digit). -/
def digitsVal : List Char → Option Nat
  | [] => none
  | c :: rest => if c.isDigit then digitsValAux (c.toNat - 48) rest else none

/-- Python `int(s)` on the ASCII fragment the plugin can receive:
surrounding whitespace, an optional sign, then digits (with optional
underscore grouping).  `none` models an uncaught `ValueError`. -/
def pyInt? (l : List Char) : Option Int :=
  match pyStrip l with
  | '+' :: rest => (digitsVal rest).map (fun n => (n : Int))
  | '-' :: rest => (digitsVal rest).map (fun n => -(n : Int))
  | rest => (digitsVal rest).map (fun n => (n : Int))

/-- Python `a, b = [int(i) for i in s.split(':')]`: succeeds only when the
split yields exactly two parts and both parse as integers; `none` models
the `ValueError` raised otherwise. -/
def pyTwoInts? (l : List Char) : Option (Int × Int) :=
  match (splitOnChar ':' l).map pyInt? with
  | [some a, some b] => some (a, b)
  | _ => none

/-! ## `text_formatter.delayCalc` -/

/-- Python truthiness of an optional string (`None` and `''` are falsy). -/
def pyTruthy : Option String → Bool
  | none => false
  | some s => !s.data.isEmpty

/-- The guard `scheduled_time[0] not in '012'` from `delayCalc`
(line 58 of `text_formatter.py`); `none` and `''` are sent to the status
branch before this is evaluated, so the defaults here are never reached
under the guard's short-circuiting. -/
def firstCharNotTime : Option String → Bool
  | none => true
  | some s =>
    match s.data with
    | [] => true
    | c :: _ => !(c = '0' || c = '1' || c = '2')

/-- The numeric arm of `delayCalc` (lines 77–98 of `text_formatter.py`):
sign analysis of `timeValEstimated - timeValScheduled` with the
singular/plural wording. -/
def delayMinutes (timeValScheduled timeValEstimated : Int) : Bool × String :=
  let delay := timeValEstimated - timeValScheduled
  if delay < 0 then
    (true, if delay.natAbs = 1 then "1 min early"
           else toString delay.natAbs ++ " mins early")
  else if delay > 0 then
    (true, if delay = 1 then "1 min late"
           else toString delay.natAbs ++ " mins late")
  else (false, "On Time")

/-- `text_formatter.delayCalc` (lines 39–100).  Inputs are optional because
the Python code guards against `None`; a `none` result models the uncaught
`ValueError` from the unguarded `int(...)` parse in the numeric branch. -/
def delayCalc (scheduled_time estimated_time : Option String) :
    Option (Bool × String) :=
  let s := (scheduled_time.getD "").data
  let e := (estimated_time.getD "").data
  if !pyTruthy scheduled_time || !pyTruthy estimated_time
      || firstCharNotTime scheduled_time || firstCharNotTime estimated_time then
    if (pyTruthy scheduled_time && containsSub s "On".data)
        || (pyTruthy estimated_time && containsSub e "On".data) then
      some (false, "On time")
    else if (pyTruthy scheduled_time && containsSub (upperAscii s) "CAN".data)
        || (pyTruthy estimated_time && containsSub (upperAscii e) "CAN".data) then
      some (true, "Cancelled")
    else
      some (true, "Delayed")
  else
    match pyTwoInts? s, pyTwoInts? e with
    | some (hs, ms), some (he, me) =>
        some (delayMinutes (hs * 60 + ms) (he * 60 + me))
    | _, _ => none

/-- The character `'0' + n`, for `n ≤ 9`. -/
def digitChar (n : Nat) : Char := Char.ofNat (48 + n)

/-- The canonical `HH:MM` string for hour `h` and minute `m`.  Every valid
`HH:MM` time string is `hhmm h m` for unique `h < 24`, `m < 60`. -/
def hhmm (h m : Nat) : String :=
  String.mk [digitChar (h / 10), digitChar (h % 10), ':',
             digitChar (m / 10), digitChar (m % 10)]

/-- Modelled from the spec (claim C3's wording): the expected numeric
classification as a function of `delta = estimatedMinutes - scheduledMinutes`,
to be compared with the source-translated `delayMinutes`. -/
def delaySpecResult (delta : Int) : Bool × String :=
  if delta = 0 then (false, "On Time")
  else if 0 < delta then
    (true, if delta = 1 then "1 min late"
           else toString delta.natAbs ++ " mins late")
  else
    (true, if delta = -1 then "1 min early"
           else toString delta.natAbs ++ " mins early")

/-- Modelled from the spec (claim C7's wording): the expected status-token
classification — `"On"` (case-sensitive) before `"CAN"` (case-insensitive)
before the `"Delayed"` default — to be compared with the status branch of
the source-translated `delayCalc`. -/
def statusSpecResult (s e : Option String) : Bool × String :=
  let sd := (s.getD "").data
  let ed := (e.getD "").data
  if containsSub sd "On".data || containsSub ed "On".data then (false, "On time")
  else if containsSub (upperAscii sd) "CAN".data
      || containsSub (upperAscii ed) "CAN".data then (true, "Cancelled")
  else (true, "Delayed")

/-! ## `text_formatter.formatSpecials` -/

/-- Worker for `stripTags`, structurally recursive on a fuel bound so that
it evaluates in the kernel.  Every step consumes at least one character
and exactly one unit of fuel, so with fuel `≥ l.length` the fuel is never
exhausted. -/
def stripTagsGo : Nat → List Char → List Char
  | _, [] => []
  | 0, l => l
  | fuel + 1, c :: rest =>
    if c = '<' then
      let mid := rest.takeWhile (fun d => d ≠ '>')
      match rest.drop mid.length with
      | '>' :: after =>
        if mid.isEmpty then c :: stripTagsGo fuel rest
        else stripTagsGo fuel after
      | _ => c :: stripTagsGo fuel rest
    else c :: stripTagsGo fuel rest

/-- Python `re.sub` of the tag pattern (`<`, one or more non-`>`
characters, `>`) with `''`: at each `'<'` followed by a non-empty run of
non-`'>'` characters and a `'>'`, the whole match is removed and scanning
resumes after it; otherwise the character is kept. -/
def stripTags (l : List Char) : List Char := stripTagsGo l.length l

/-- Lowercase ASCII letter test for the entity pattern. -/
def isLowerAlpha (c : Char) : Bool := 'a' ≤ c && c ≤ 'z'

/-- Worker for `stripEntities`, structurally recursive on a fuel bound
(never exhausted when fuel `≥ l.length`). -/
def stripEntitiesGo : Nat → List Char → List Char
  | _, [] => []
  | 0, l => l
  | fuel + 1, c :: rest =>
    if c = '&' then
      let mid := rest.takeWhile isLowerAlpha
      if mid.isEmpty then c :: stripEntitiesGo fuel rest
      else
        match rest.drop mid.length with
        | ';' :: after => ' ' :: stripEntitiesGo fuel after
        | rem => ' ' :: stripEntitiesGo fuel rem
    else c :: stripEntitiesGo fuel rest

/-- Python `re.sub` of the entity pattern (`&`, one or more lowercase
letters, optional `;`) with `' '`. -/
def stripEntities (l : List Char) : List Char := stripEntitiesGo l.length l

/-- Worker for `replaceAll`, structurally recursive on a fuel bound
(never exhausted when fuel `≥ l.length` and the pattern is non-empty). -/
def replaceAllGo (pat repl : List Char) : Nat → List Char → List Char
  | _, [] => []
  | 0, l => l
  | fuel + 1, c :: rest =>
    if listStartsWith (c :: rest) pat then
      repl ++ replaceAllGo pat repl fuel ((c :: rest).drop pat.length)
    else c :: replaceAllGo pat repl fuel rest

/-- Python `s.replace(pat, repl)`: left-to-right, non-overlapping, and
scanning resumes after each replacement.  (The plugin never calls
`replace` with an empty pattern; returning `l` there keeps the function
total.) -/
def replaceAll (l pat repl : List Char) : List Char :=
  if pat.isEmpty then l else replaceAllGo pat repl l.length l

/-- Python `s.find(c, start)` for a one-character needle: the lowest index
`≥ start` holding `c`, else `-1`. -/
def pyFindChar (l : List Char) (c : Char) (start : Nat) : Int :=
  match (l.drop start).findIdx? (fun d => d = c) with
  | some i => ((start + i : Nat) : Int)
  | none => -1

/-- Python `s[:i]`, including the negative-index convention
(`s[:-k]` keeps all but the last `k` characters). -/
def pySliceTo (l : List Char) (i : Int) : List Char :=
  if 0 ≤ i then l.take i.toNat
  else l.take (l.length - (-i).toNat)

/-- The cleaning pipeline of `formatSpecials`
(lines 124–143 of `text_formatter.py`), applied in source order. -/
def cleanSpecials (l : List Char) : List Char :=
  let l := stripTags l
  let l := stripEntities l
  let l := replaceAll l "\n".data "".data
  let l := replaceAll l "href=".data "".data
  let l := replaceAll l "http".data "".data
  let l := replaceAll l "://".data "www.".data
  let l := replaceAll l "\"".data "".data
  let l := replaceAll l "Travel News.".data "".data
  let l := replaceAll l "Latest".data "".data
  let l := replaceAll l "[".data "".data
  let l := replaceAll l "]".data "".data
  l

/-- The wrap loop of `formatSpecials` (lines 151–176 of
`text_formatter.py`) entered with the line counter at `totalLines`;
`maxLength = 130`, `maxLines = 2`.  The source's loop is only entered with
the counter at 0 and leaves through the `totalLines == maxLines` break, so
on reachable counter values (0 and 1 here) the `2 ≤ t` test below is
exactly the source's `totalLines == 2` test; stating it as `≤` makes the
recursion well-founded on all arguments. -/
def specialsLoopGo : Nat → List Char → Nat → List Char
  | 0, _, _ => []
  | fuel + 1, remainingMessage, totalLines =>
    let t := totalLines + 1
    if (pyStrip remainingMessage).length > 130 then
      let nextPartStart := pyFindChar remainingMessage ' ' 130
      let out := ('+' :: '+' :: '+' :: pySliceTo remainingMessage nextPartStart)
        ++ ['\n']
      if nextPartStart ≠ -1 then
        if 2 ≤ t then out
        else out ++ specialsLoopGo fuel
          (remainingMessage.drop (nextPartStart + 1).toNat) t
      else out
    else ('+' :: '+' :: '+' :: remainingMessage) ++ ['\n']

/-- Entry point matching the source: counter starts at 0; each iteration
increments the counter and the loop always stops by the time the counter
reaches `maxLines = 2`, so fuel 2 is never exhausted. -/
def specialsLoop (remainingMessage : List Char) (totalLines : Nat) :
    List Char :=
  specialsLoopGo (2 - totalLines) remainingMessage totalLines

/-- `text_formatter.formatSpecials` (lines 102–180): blank messages are
returned untouched, otherwise the cleaned message is wrapped into at most
two `'+++'`-prefixed, newline-terminated lines. -/
def formatSpecials (longMessage : String) : String :=
  if (pyStrip longMessage.data).length = 0 then longMessage
  else String.mk (specialsLoop (cleanSpecials longMessage.data) 0)

/-- Concrete input for the C10 counterexample: 130 spaces followed by
`"ab"` — its cleaned text is itself, longer than 130 characters with no
space at or after index 130, yet the stripped length (2) sends it down the
no-wrap branch. -/
def c10msg : String := String.mk (List.replicate 130 ' ' ++ ['a', 'b'])

/-- Concrete input for the C10 witness: 131 letters `'a'`. -/
def c10wit : String := String.mk (List.replicate 131 'a')

/-! ## The classic renderer's draw loop (`text2png.py`, lines 191–251)

The loop walks the word-wrapped lines, dispatching each through the
source's `if`/`elif` chain; `currentService` counts drawn plain service
rows, and once `currentService > maxServices` the flag `noMoreTrains` is
set, making the next plain service row execute `break`.  Colors and
fonts do not affect which lines are drawn, so the model records the
sequence of drawn lines with their classification. -/

/-- The classification a line receives from the draw loop's `if`/`elif`
chain, in source order. -/
inductive LineKind where
  | title
  | blank
  | noTrains
  | message
  | status
  | service
  | calling
deriving DecidableEq, BEq

/-- The source's `if`/`elif` chain over one line (lines 200–248 of
`text2png.py`), hoisted into a single classifier. -/
def classifyLine (line : String) : LineKind :=
  if pyContains line "Destination" then .title
  else if line.data.length = 0 then .blank
  else if pyContains line "**" then .noTrains
  else if pyContains line "++" then .message
  else if pyContains line "Status" then .status
  else if !pyContains line ">" then .service
  else .calling

/-- A line drawn by the classic renderer, tagged with its
classification. -/
inductive DrawnLine where
  | title (s : String)
  | blank
  | noTrains (s : String)
  | message (s : String)
  | status (s : String)
  | service (s : String)
  | callingPoints (s : String)
deriving DecidableEq

/-- `maxServices = 5` from `text2png.py` line 193. -/
def maxServices : Nat := 5

/-- The classic draw loop with its mutable state (`currentService`,
`noMoreTrains`) made explicit; the `[]` in the service arm models the
`break`. -/
def classicDrawGo : List String → Nat → Bool → List DrawnLine
  | [], _, _ => []
  | line :: rest, currentService, noMoreTrains =>
    match classifyLine line with
    | .title => .title line :: classicDrawGo rest currentService noMoreTrains
    | .blank => .blank :: classicDrawGo rest currentService noMoreTrains
    | .noTrains => .noTrains line :: classicDrawGo rest currentService noMoreTrains
    | .message => .message line :: classicDrawGo rest currentService noMoreTrains
    | .status => .status line :: classicDrawGo rest currentService noMoreTrains
    | .service =>
      if noMoreTrains then []
      else
        .service line :: classicDrawGo rest (currentService + 1)
          (if maxServices < currentService + 1 then true else noMoreTrains)
    | .calling =>
      .callingPoints line :: classicDrawGo rest currentService noMoreTrains

/-- The classic draw loop entered with `currentService = 0`,
`noMoreTrains = False` (lines 191–194). -/
def classicDraw (lines : List String) : List DrawnLine :=
  classicDrawGo lines 0 false

/-- Is this line a plain service row for the draw loop? -/
def isServiceRow (l : String) : Bool := decide (classifyLine l = .service)

/-- Is this line a calling-points row for the draw loop? -/
def isCallingRow (l : String) : Bool := decide (classifyLine l = .calling)

/-- Count of plain service rows in an input line sequence. -/
def countServiceRows (lines : List String) : Nat := lines.countP isServiceRow

/-- Count of calling-points rows in an input line sequence. -/
def countCallingRows (lines : List String) : Nat := lines.countP isCallingRow

/-- Does a drawn line record a plain service row? -/
def isDrawnService : DrawnLine → Bool
  | .service _ => true
  | _ => false

/-- Does a drawn line record a calling-points row? -/
def isDrawnCalling : DrawnLine → Bool
  | .callingPoints _ => true
  | _ => false

/-- Count of service rows actually drawn. -/
def countDrawnServices (out : List DrawnLine) : Nat := out.countP isDrawnService

/-- Count of calling-point rows actually drawn. -/
def countDrawnCalling (out : List DrawnLine) : Nat := out.countP isDrawnCalling

/-! ## `image_generator._generate_departure_image` (lines 191–285) -/

/-- Log level of the dispatcher's summary report. -/
inductive LogLevel where
  | debug
  | warning
  | error
deriving DecidableEq

/-- Observable outcome of `_generate_departure_image`: the styles invoked
(in order), the returned boolean, the device states written
(`imageGenerationStatus`, `imageGenerationError`), and the summary log
line's level and message. -/
structure DispatchResult where
  attempts : List String
  returnValue : Bool
  statusState : String
  errorState : String
  logLevel : LogLevel
  logMsg : String
deriving DecidableEq

/-- `image_generator._generate_departure_image`.  `generateClassic` /
`generateModern` are `plugin_prefs.get('generateClassicBoard', True)` and
`plugin_prefs.get('generateModernBoard', False)`; `singleImageResult s`
stands for the boolean result of `_generate_single_image` on style `s`
(an isolated subprocess run, modelled as an oracle).  Device-state writes
and the summary log line are returned as data. -/
def generateDepartureImage (generateClassic generateModern : Bool)
    (singleImageResult : String → Bool) : DispatchResult :=
  let classicSuccess := generateClassic && singleImageResult "classic"
  let modernSuccess := generateModern && singleImageResult "modern"
  let attempts := (if generateClassic then ["classic"] else [])
    ++ (if generateModern then ["modern"] else [])
  if classicSuccess || modernSuccess then
    { attempts := attempts, returnValue := true,
      statusState := "success", errorState := "",
      logLevel := .debug,
      logMsg := "Generated "
        ++ String.intercalate " and "
          ((if classicSuccess then ["classic"] else [])
            ++ (if modernSuccess then ["modern"] else []))
        ++ " image(s)" }
  else if !generateClassic && !generateModern then
    { attempts := attempts, returnValue := false,
      statusState := "failed", errorState := "No board styles enabled",
      logLevel := .warning, logMsg := "No board styles enabled" }
  else
    { attempts := attempts, returnValue := false,
      statusState := "failed",
      errorState := "All enabled board styles failed to generate",
      logLevel := .error,
      logMsg := "All enabled board styles failed to generate" }

/-! ## The tail of `plugin.routeUpdate` (plugin.py lines 1019–1041) -/

/-- One observable side effect of the tail of a `routeUpdate` poll
cycle. -/
inductive CycleEffect where
  | writeTextFile (path content : String)
  | renderDispatch (imagePath textPath parametersPath : String)
      (departuresAvailable : Bool)
deriving DecidableEq

/-- `_write_departure_board_text` (plugin.py lines 508–540): the file
content assembled in source order (the `if messages:` guard skips falsy
messages). -/
def writeDepartureBoardText (stationStart stationEnd titles statistics
    messages boardContent : String) : String :=
  stationStart ++ " to " ++ stationEnd ++ "\n" ++ titles ++ statistics
    ++ (if messages.data.isEmpty then "" else messages) ++ boardContent

/-- The tail of `plugin.routeUpdate` (lines 1019–1041): the board text
file is written via `_write_departure_board_text`, then
`_generate_departure_image` is invoked, unconditionally —  no digest is
computed or compared on this path (`compute_board_content_hash` has no
caller anywhere in the plugin). -/
def routeUpdateTail (imagePath textPath parametersPath : String)
    (stationStart stationEnd titles statistics messages boardContent : String)
    (departuresFound : Bool) : List CycleEffect :=
  [ .writeTextFile textPath (writeDepartureBoardText stationStart stationEnd
      titles statistics messages boardContent),
    .renderDispatch imagePath textPath parametersPath departuresFound ]

/-- Two consecutive poll cycles whose fetched data, board text and render
parameters are byte-identical (no upstream change): each cycle runs the
same `routeUpdate` tail. -/
def runTwoIdenticalCycles (imagePath textPath parametersPath : String)
    (stationStart stationEnd titles statistics messages boardContent : String)
    (departuresFound : Bool) : List CycleEffect :=
  routeUpdateTail imagePath textPath parametersPath stationStart stationEnd
      titles statistics messages boardContent departuresFound
    ++ routeUpdateTail imagePath textPath parametersPath stationStart
      stationEnd titles statistics messages boardContent departuresFound

/-- Is this effect an invocation of the render dispatcher? -/
def isRenderEffect : CycleEffect → Bool
  | .renderDispatch _ _ _ _ => true
  | _ => false

/-- Is this effect a write of the board text file? -/
def isTextWriteEffect : CycleEffect → Bool
  | .writeTextFile _ _ => true
  | _ => false

/-- Number of render-dispatcher invocations in an effect trace. -/
def countRenders (effs : List CycleEffect) : Nat := effs.countP isRenderEffect

/-- Number of board-text-file writes in an effect trace. -/
def countTextWrites (effs : List CycleEffect) : Nat :=
  effs.countP isTextWriteEffect

/-! ## `image_generator.compute_board_content_hash` (lines 24–54)

The source reads the two files and feeds `board_content.encode('utf-8')`
followed by `params_content.strip().encode('utf-8')` into
`hashlib.sha256`, returning the lowercase hex digest.  File reads are
modelled by passing the two file contents; SHA-256 is implemented below
(FIPS 180-4) over `Nat` bytes with explicit `% 2^32` reductions. -/

/-- UTF-8 encoding of one scalar value (as `str.encode('utf-8')` does). -/
def utf8EncodeChar (c : Char) : List Nat :=
  let n := c.toNat
  if n < 128 then [n]
  else if n < 2048 then [192 + n / 64, 128 + n % 64]
  else if n < 65536 then
    [224 + n / 4096, 128 + (n / 64) % 64, 128 + n % 64]
  else
    [240 + n / 262144, 128 + (n / 4096) % 64, 128 + (n / 64) % 64,
     128 + n % 64]

/-- UTF-8 encoding of a string as a byte list. -/
def utf8Encode (l : List Char) : List Nat := (l.map utf8EncodeChar).join

/-- Reduction to a 32-bit word. -/
def w32 (n : Nat) : Nat := n % 4294967296

/-- 32-bit right rotation. -/
def rotr (n x : Nat) : Nat := w32 ((x >>> n) ||| (x <<< (32 - n)))

/-- SHA-256 Σ0. -/
def bsig0 (x : Nat) : Nat := (rotr 2 x) ^^^ (rotr 13 x) ^^^ (rotr 22 x)

/-- SHA-256 Σ1. -/
def bsig1 (x : Nat) : Nat := (rotr 6 x) ^^^ (rotr 11 x) ^^^ (rotr 25 x)

/-- SHA-256 σ0. -/
def ssig0 (x : Nat) : Nat := (rotr 7 x) ^^^ (rotr 18 x) ^^^ (x >>> 3)

/-- SHA-256 σ1. -/
def ssig1 (x : Nat) : Nat := (rotr 17 x) ^^^ (rotr 19 x) ^^^ (x >>> 10)

/-- SHA-256 Ch (32-bit complement written as xor with `2^32 - 1`). -/
def chF (x y z : Nat) : Nat := (x &&& y) ^^^ ((x ^^^ 4294967295) &&& z)

/-- SHA-256 Maj. -/
def majF (x y z : Nat) : Nat := (x &&& y) ^^^ (x &&& z) ^^^ (y &&& z)

/-- The 64 SHA-256 round constants. -/
def sha256K : List Nat :=
  [1116352408, 1899447441, 3049323471, 3921009573,
   961987163, 1508970993, 2453635748, 2870763221,
   3624381080, 310598401, 607225278, 1426881987,
   1925078388, 2162078206, 2614888103, 3248222580,
   3835390401, 4022224774, 264347078, 604807628,
   770255983, 1249150122, 1555081692, 1996064986,
   2554220882, 2821834349, 2952996808, 3210313671,
   3336571891, 3584528711, 113926993, 338241895,
   666307205, 773529912, 1294757372, 1396182291,
   1695183700, 1986661051, 2177026350, 2456956037,
   2730485921, 2820302411, 3259730800, 3345764771,
   3516065817, 3600352804, 4094571909, 275423344,
   430227734, 506948616, 659060556, 883997877,
   958139571, 1322822218, 1537002063, 1747873779,
   1955562222, 2024104815, 2227730452, 2361852424,
   2428436474, 2756734187, 3204031479, 3329325298]

/-- Working state / hash value: eight 32-bit words. -/
structure Hash8 where
  h0 : Nat
  h1 : Nat
  h2 : Nat
  h3 : Nat
  h4 : Nat
  h5 : Nat
  h6 : Nat
  h7 : Nat
deriving DecidableEq

/-- The SHA-256 initial hash value. -/
def sha256H0 : Hash8 :=
  ⟨1779033703, 3144134277, 1013904242, 2773480762,
   1359893119, 2600822924, 528734635, 1541459225⟩

/-- `k` big-endian bytes of `n`. -/
def beBytes (k : Nat) (n : Nat) : List Nat :=
  (List.range k).map (fun i => (n >>> (8 * (k - 1 - i))) % 256)

/-- SHA-256 message padding: `0x80`, zeros to 56 mod 64, and the 64-bit
big-endian bit length. -/
def sha256Pad (msg : List Nat) : List Nat :=
  let r := (msg.length + 1) % 64
  let k := (120 - r) % 64
  msg ++ [128] ++ List.replicate k 0 ++ beBytes 8 (msg.length * 8)

/-- Split a byte list into 64-byte chunks (fuel-structural; fuel
`≥ length` is never exhausted). -/
def chunks64Go : Nat → List Nat → List (List Nat)
  | _, [] => []
  | 0, l => [l]
  | fuel + 1, l => l.take 64 :: chunks64Go fuel (l.drop 64)

/-- Combine bytes into big-endian 32-bit words. -/
def bytesToWords : List Nat → List Nat
  | b0 :: b1 :: b2 :: b3 :: rest =>
    (b0 * 16777216 + b1 * 65536 + b2 * 256 + b3) :: bytesToWords rest
  | _ => []

/-- Extend the 16 chunk words by `k` more schedule words. -/
def sha256ExtendGo : Nat → List Nat → List Nat
  | 0, acc => acc
  | k + 1, acc =>
    let i := acc.length
    let nw := w32 (ssig1 (acc.getD (i - 2) 0) + acc.getD (i - 7) 0
      + ssig0 (acc.getD (i - 15) 0) + acc.getD (i - 16) 0)
    sha256ExtendGo k (acc ++ [nw])

/-- One SHA-256 round: state update from one `(K, W)` pair. -/
def sha256Round (st : Hash8) (kw : Nat × Nat) : Hash8 :=
  let t1 := w32 (st.h7 + bsig1 st.h4 + chF st.h4 st.h5 st.h6 + kw.1 + kw.2)
  let t2 := w32 (bsig0 st.h0 + majF st.h0 st.h1 st.h2)
  ⟨w32 (t1 + t2), st.h0, st.h1, st.h2, w32 (st.h3 + t1), st.h4, st.h5, st.h6⟩

/-- Process one 64-byte chunk. -/
def sha256Block (hs : Hash8) (chunk : List Nat) : Hash8 :=
  let ws := sha256ExtendGo 48 (bytesToWords chunk)
  let r := (sha256K.zip ws).foldl sha256Round hs
  ⟨w32 (hs.h0 + r.h0), w32 (hs.h1 + r.h1), w32 (hs.h2 + r.h2),
   w32 (hs.h3 + r.h3), w32 (hs.h4 + r.h4), w32 (hs.h5 + r.h5),
   w32 (hs.h6 + r.h6), w32 (hs.h7 + r.h7)⟩

/-- The 32 digest bytes of a hash value. -/
def digestBytes (hs : Hash8) : List Nat :=
  beBytes 4 hs.h0 ++ beBytes 4 hs.h1 ++ beBytes 4 hs.h2 ++ beBytes 4 hs.h3
    ++ beBytes 4 hs.h4 ++ beBytes 4 hs.h5 ++ beBytes 4 hs.h6
    ++ beBytes 4 hs.h7

/-- SHA-256 digest (32 bytes) of a byte message. -/
def sha256Bytes (msg : List Nat) : List Nat :=
  let padded := sha256Pad msg
  digestBytes ((chunks64Go padded.length padded).foldl sha256Block sha256H0)

/-- Lowercase hex digit. -/
def hexDigitChar (n : Nat) : Char :=
  if n < 10 then Char.ofNat (48 + n) else Char.ofNat (87 + n)

/-- Two lowercase hex digits of a byte. -/
def byteToHex (b : Nat) : List Char := [hexDigitChar (b / 16), hexDigitChar (b % 16)]

/-- Lowercase hex encoding of a byte list (`hexdigest()`). -/
def bytesToHexString (bs : List Nat) : String := String.mk ((bs.map byteToHex).join)

/-- `image_generator.compute_board_content_hash` with the two file reads
modelled by passing the file contents: SHA-256 over the UTF-8 board text
followed by the UTF-8 of the stripped parameters line, as a lowercase hex
digest. -/
def compute_board_content_hash (boardContent paramsContent : String) : String :=
  bytesToHexString (sha256Bytes
    (utf8Encode boardContent.data ++ utf8Encode (pyStrip paramsContent.data)))

/-- Parameters-file content for the C8 counterexample: trailing space. -/
def c8p1 : String := "#FFF,#000,#F00,#0FF,#0F0,18,10,10,720 "

/-- Same parameters-file content with the trailing space replaced by a
tab: a single-character change that survives `strip()` unchanged. -/
def c8p2 : String := "#FFF,#000,#F00,#0FF,#0F0,18,10,10,720\t"

/-- Hex alphabet for the digest character check. -/
def hexAlphabet : List Char := "0123456789abcdef".data

/-! ## `text2png_modern.parse_service_data` (lines 336–453) -/

/-- A parsed service dictionary.  The source dict key `'operator'` is the
field `operatorName` here. -/
structure ParsedService where
  destination : String
  platform : String
  scheduled : String
  estimated : String
  operatorName : String
  status : String
  calling_points : String
deriving DecidableEq

/-- Python `re.split` on runs of three or more dashes: the pattern is
greedy, so each maximal dash run of length ≥ 3 is one separator, and
shorter runs stay inside their field.  Fuel-structural (fuel `≥ length`
is never exhausted). -/
def splitDashRunsGo : Nat → List Char → List (List Char)
  | _, [] => [[]]
  | 0, l => [l]
  | fuel + 1, c :: rest =>
    if c = '-' then
      let run := rest.takeWhile (fun d => d = '-')
      let n := run.length + 1
      let after := rest.drop run.length
      if 3 ≤ n then
        [] :: splitDashRunsGo fuel after
      else
        match splitDashRunsGo fuel after with
        | [] => [List.replicate n '-']
        | g :: gs => (List.replicate n '-' ++ g) :: gs
    else
      match splitDashRunsGo fuel rest with
      | [] => [[c]]
      | g :: gs => (c :: g) :: gs

/-- `re.split(r'-X3,X-', line)` for a maximal-run split — see
`splitDashRunsGo`. -/
def splitDashRuns (l : List Char) : List (List Char) :=
  splitDashRunsGo l.length l

/-- The source's `[p.strip() for p in parts if p.strip()]`. -/
def serviceParts (l : List Char) : List (List Char) :=
  ((splitDashRuns l).map pyStrip).filter (fun p => !p.isEmpty)

/-- One alternative of the source's status-word pattern: a case-insensitive
literal, greedy whitespace, a dash, greedy whitespace, then everything to
the end of the line as group 2.  Group 1 is the matched text in its
original case. -/
def matchStatusWord (s : List Char) (word : String) :
    Option (List Char × List Char) :=
  if listStartsWith (upperAscii s) (upperAscii word.data) then
    let rest := (s.drop word.data.length).dropWhile isPySpace
    match rest with
    | '-' :: r => some (s.take word.data.length, r.dropWhile isPySpace)
    | _ => none
  else none

/-- Python `re.match` of the anchored, case-insensitive alternation
`Cancelled | Delayed | On time | Bus` followed by `\s*-\s*(.*)`
(`text2png_modern.py` lines 401–404), alternatives tried in order. -/
def matchStatusPrefix (s : List Char) : Option (List Char × List Char) :=
  (matchStatusWord s "Cancelled").orElse (fun _ =>
    (matchStatusWord s "Delayed").orElse (fun _ =>
      (matchStatusWord s "On time").orElse (fun _ =>
        matchStatusWord s "Bus")))

/-- The parser's loop state: accepted services most-recent-first
(`current_service` is a live reference to the head when `hasCurrent`),
and the `skipped_lines` counter. -/
structure ParseState where
  services : List ParsedService
  hasCurrent : Bool
  skipped : Nat
deriving DecidableEq

/-- Mutate the most recently accepted service (the source mutates the
dict it appended; `hasCurrent` implies the list is non-empty). -/
def updateCurrent (st : ParseState) (f : ParsedService → ParsedService) :
    ParseState :=
  match st.services with
  | [] => st
  | s :: rest => { st with services := f s :: rest }

/-- Build the 5-field (new format) service dict. -/
def mkService5 (parts : List (List Char)) : ParsedService :=
  { destination := String.mk (parts.getD 0 []),
    platform := String.mk (parts.getD 1 []),
    scheduled := String.mk (parts.getD 2 []),
    estimated := String.mk (parts.getD 3 []),
    operatorName := String.mk (parts.getD 4 []),
    status := String.mk (parts.getD 3 []),
    calling_points := "" }

/-- Build the 4-field (legacy, no platform) service dict. -/
def mkService4 (parts : List (List Char)) : ParsedService :=
  { destination := String.mk (parts.getD 0 []),
    platform := "",
    scheduled := String.mk (parts.getD 1 []),
    estimated := String.mk (parts.getD 2 []),
    operatorName := String.mk (parts.getD 3 []),
    status := String.mk (parts.getD 2 []),
    calling_points := "" }

/-- Build the 3-field (compressed status+operator) service dict from the
status-pattern groups. -/
def mkService3 (parts : List (List Char)) (g1 g2 : List Char) :
    ParsedService :=
  { destination := String.mk (parts.getD 0 []),
    platform := "",
    scheduled := String.mk (parts.getD 1 []),
    estimated := String.mk g1,
    operatorName := if g2.isEmpty then "Unknown" else String.mk g2,
    status := String.mk g1,
    calling_points := "" }

/-- One iteration of the parser's `for line in lines` loop
(`text2png_modern.py` lines 358–447). -/
def parseStep (st : ParseState) (line : String) : ParseState :=
  let ls := pyStrip line.data
  if ls.isEmpty || containsSub ls "Destination".data then st
  else if containsSub ls "---".data && !containsSub ls "Status:".data
      && !containsSub ls ">>>".data then
    let parts := serviceParts ls
    if 5 ≤ parts.length then
      { services := mkService5 parts :: st.services, hasCurrent := true,
        skipped := st.skipped }
    else if 4 ≤ parts.length then
      { services := mkService4 parts :: st.services, hasCurrent := true,
        skipped := st.skipped }
    else if parts.length = 3 then
      match matchStatusPrefix (parts.getD 2 []) with
      | some (g1, g2) =>
        { services := mkService3 parts g1 g2 :: st.services,
          hasCurrent := true, skipped := st.skipped }
      | none =>
        { st with hasCurrent := false, skipped := st.skipped + 1 }
    else
      { st with hasCurrent := false, skipped := st.skipped + 1 }
  else if containsSub ls "Status:".data && st.hasCurrent then
    updateCurrent st (fun s =>
      { s with status := String.mk (pyStrip (replaceAll ls "Status:".data "".data)) })
  else if containsSub ls ">>>".data && st.hasCurrent then
    let cp := String.mk (pyStrip (replaceAll ls ">".data "".data))
    updateCurrent st (fun s =>
      { s with calling_points :=
          if s.calling_points.data.isEmpty then cp
          else s.calling_points ++ " " ++ cp })
  else if containsSub ls ">>>".data && !st.hasCurrent then
    { st with skipped := st.skipped + 1 }
  else st

/-- `text2png_modern.parse_service_data`: the parsed services in input
order, paired with the count of skipped (malformed or orphaned) lines —
total by construction, mirroring the source (which guards every index
behind a length check and never raises). -/
def parse_service_data (lines : List String) : List ParsedService × Nat :=
  let st := lines.foldl parseStep ⟨[], false, 0⟩
  (st.services.reverse, st.skipped)

/-! ## `image_generator._append_train_to_image` (lines 288–382) and
`image_generator._format_station_board` (lines 385–459)

`_append_train_to_image` receives a service item from the station board
and the `ServiceDetails` fetch; the record below carries the attributes it
reads, with `cp_string` standing for the string
`device_manager._build_calling_points_string` returns for the service
(modelled as an input; an absent detail fetch or empty calling-point list
is the empty string, which the source treats identically via its
`len(cp_string) > 0` guard).  A `platform` of `""` models both the empty
and the missing platform (the source maps `None` and `''` to `''`). -/

/-- The per-service data `_append_train_to_image` reads. -/
structure ServiceRecord where
  dest_text : String
  platform : String
  std : String
  etd : String
  operator_code : String
  operator_name : String
  cp_string : String
deriving DecidableEq

/-- The source's descending index search for a split point
(`for i in range(safe_word_length - 1, 0, -1)`), returning `cut_point`
(`index + 1`) or `-1`. -/
def findCutGo (rm : List Char) : Nat → Int
  | 0 => -1
  | i + 1 =>
    if rm.getD (i + 1) (Char.ofNat 0) = ')'
        && decide (i + 2 < rm.length)
        && rm.getD (i + 2) (Char.ofNat 0) = ' ' then ((i + 2 : Nat) : Int)
    else findCutGo rm i

/-- The `while len(remaining) > 0` splitting loop of
`_append_train_to_image` (lines 361–382); fuel-structural (each iteration
consumes at least one character, so fuel `≥ length` is never
exhausted). -/
def cpSplitGo (swl : Nat) : Nat → List Char → List String
  | 0, _ => []
  | fuel + 1, remaining =>
    if remaining.length = 0 then []
    else if remaining.length ≤ swl then
      [String.mk ('>' :: '>' :: '>' :: ' ' :: remaining)]
    else
      let cut := findCutGo remaining (swl - 1)
      if 0 < cut then
        String.mk ('>' :: '>' :: '>' :: ' ' :: pyStrip (remaining.take cut.toNat))
          :: cpSplitGo swl fuel (pyStripLeft (remaining.drop cut.toNat))
      else
        String.mk ('>' :: '>' :: '>' :: ' ' :: pyStrip (remaining.take swl))
          :: cpSplitGo swl fuel (pyStripLeft (remaining.drop swl))

/-- The calling-points elements appended for one service (lines 349–382):
one `'>>> '` line when the string fits in `safe_word_length`, otherwise
the boundary-splitting loop. -/
def cpElements (cp_string : String) (swl : Nat) : List String :=
  if cp_string.data.length ≤ swl then
    [String.mk ('>' :: '>' :: '>' :: ' ' :: pyStrip cp_string.data)]
  else cpSplitGo swl cp_string.data.length (pyStrip cp_string.data)

/-- `_append_train_to_image`: the elements appended to `image_content`
for one service, in order.  A `none` result models the uncaught exception
when `delayCalc` raises. -/
def appendTrainElements (r : ServiceRecord) (include_calling_points : Bool)
    (word_length : Nat) : Option (List String) :=
  (delayCalc (some r.std) (some r.etd)).map (fun dc =>
    let delay_msg := dc.2
    let mainEls :=
      if (pyStrip delay_msg.data).length = 0 then
        ["\n" ++ r.dest_text ++ "," ++ r.platform ++ "," ++ r.std ++ ","
          ++ r.etd ++ "," ++ r.operator_code ++ "\n"]
      else
        ["\n" ++ r.dest_text ++ "," ++ r.platform ++ "," ++ r.std ++ ","
          ++ r.etd ++ "," ++ r.operator_name,
         "Status:" ++ delay_msg ++ "\n"]
    let cpEls :=
      if include_calling_points && !r.cp_string.data.isEmpty then
        cpElements r.cp_string (max 20 word_length)
      else []
    mainEls ++ cpEls)

/-- The `image_content` array as `routeUpdate` builds it: the header
element (plugin.py line 989) followed by each service's elements
(`_process_train_services` calling `_append_train_to_image` per
service). -/
def buildImageContent (records : List ServiceRecord)
    (include_calling_points : Bool) (word_length : Nat) :
    Option (List String) :=
  (records.mapM (fun r => appendTrainElements r include_calling_points
      word_length)).map
    (fun els => "Destination,Sch,Est,By" :: els.join)

/-- One iteration of `_format_station_board`'s per-line formatting
(lines 419–450). -/
def processBoardLine (current_line : String) : String :=
  if pyContains current_line "Status" then current_line
  else if !pyContains current_line ">>>" then
    let parts := splitOnChar ',' current_line.data
    if 5 ≤ parts.length then
      String.mk ((parts.getD 0 [] ++ List.replicate 50 '-').take 25
        ++ (parts.getD 1 [] ++ List.replicate 10 '-').take 5
        ++ [' ']
        ++ (parts.getD 2 [] ++ List.replicate 10 '-').take 10
        ++ (parts.getD 3 [] ++ List.replicate 10 '-').take 10
        ++ parts.getD 4 [])
    else if 4 ≤ parts.length then
      String.mk ((parts.getD 0 [] ++ List.replicate 50 '-').take 35
        ++ [' ']
        ++ (parts.getD 1 [] ++ List.replicate 10 '-').take 10
        ++ (parts.getD 2 [] ++ List.replicate 10 '-').take 10
        ++ parts.getD 3 [])
    else current_line
  else current_line

/-- The `for line_index in range(len(image_content))` loop of
`_format_station_board` with its `tot_lines > max_lines` break: each
processed line gets a trailing newline, and the loop stops after
appending the `(max_lines + 1)`-th line. -/
def fsbGo (maxL : Nat) : List String → Nat → String
  | [], _ => ""
  | l :: rest, tot =>
    processBoardLine l ++ "\n"
      ++ (if maxL < tot + 1 then "" else fsbGo maxL rest (tot + 1))

/-- `_format_station_board`. -/
def formatStationBoard (image_content : List String)
    (departures_found : Bool) (via_station : String) (location_name : String)
    (base_via : String) (max_lines : Nat) : String :=
  if !departures_found then
    if via_station.data.length ≠ 0 then
      "** No departures found from " ++ location_name ++ " direct to "
        ++ base_via ++ " today **\n** Check Operators website for more information on current schedule and issues **"
    else
      "** No departures found from " ++ location_name
        ++ " today **\n** Check Operators website for more information on current schedule and issues **"
  else fsbGo max_lines image_content 0

/-- The lines of a text, as split on newlines (the board document handed
to the modern renderer, line by line). -/
def splitLines (s : String) : List String :=
  (splitOnChar '\n' s.data).map String.mk

/-- The full compile → format → re-parse pipeline of claim C2: build the
`image_content` elements from the service records, format the station
board (departures present, `max_lines = 30` as in `routeUpdate`), split
it into lines and hand those to the modern parser.  `none` models an
uncaught exception during the build. -/
def boardRoundTrip (records : List ServiceRecord) (via_station location_name
    base_via : String) : Option (List ParsedService × Nat) :=
  (buildImageContent records true 80).map (fun content =>
    parse_service_data (splitLines
      (formatStationBoard content true via_station location_name base_via 30)))

/-- Head-character test used by the well-formedness side conditions:
non-empty and not starting with whitespace. -/
def headNotSpace (l : List Char) : Bool :=
  match l with
  | [] => false
  | c :: _ => !isPySpace c

/-- Side conditions on a field under which the dash-padded column format
is parseable back: non-empty, no leading or trailing whitespace, free of
the column/parser metacharacters `-`, `,`, newline and `>`, and free of
the marker substrings `Status` and `Destination`. -/
def safeField (s : String) : Bool :=
  headNotSpace s.data && headNotSpace s.data.reverse
    && s.data.all (fun c => !(c = '-' || c = ',' || c = '\n' || c = '>'))
    && !containsSub s.data "Status".data
    && !containsSub s.data "Destination".data

/-- Side conditions on a calling-points string: no newline and free of
the marker substrings. -/
def cpOk (s : String) : Bool :=
  s.data.all (fun c => !(c = '\n'))
    && !containsSub s.data "Status".data
    && !containsSub s.data "Destination".data

/-- A service record the round trip provably recovers: safe destination
of at most 21 characters, safe operator name, `HH:MM` scheduled time,
safe calling points, and one of the three claim shapes — a 1–2 character
platform with `HH:MM` estimate (5-field row), no platform with `HH:MM`
estimate (legacy 4-field row), or no platform with a `"Cancelled"`
estimate (compressed 3-field row). -/
def goodRecord (r : ServiceRecord) : Prop :=
  safeField r.dest_text = true ∧ r.dest_text.data.length ≤ 21 ∧
  safeField r.operator_name = true ∧
  (∃ h m, h < 24 ∧ m < 60 ∧ r.std = hhmm h m) ∧
  cpOk r.cp_string = true ∧
  ((safeField r.platform = true ∧ r.platform.data.length ≤ 2 ∧
      (∃ h m, h < 24 ∧ m < 60 ∧ r.etd = hhmm h m)) ∨
   (r.platform = "" ∧ (∃ h m, h < 24 ∧ m < 60 ∧ r.etd = hhmm h m)) ∨
   (r.platform = "" ∧ r.etd = "Cancelled"))

/-- Element count contributed by one record to `image_content`. -/
def recordElements (r : ServiceRecord) : Nat :=
  ((appendTrainElements r true 80).getD []).length

/-- Concrete record for the C2 counterexample: platform `"13B"` (three
characters, so its column keeps only two padding dashes and merges with
the schedule column on re-parse). -/
def c2rec : ServiceRecord :=
  ⟨"Woking", "13B", "17:09", "17:12", "SW", "South Western Railway", ""⟩

/-- Concrete record exercising the 5-field round trip (with calling
points). -/
def c2recA : ServiceRecord :=
  ⟨"London Waterloo", "9", "17:09", "17:12", "SW", "South Western Railway",
   "Calling at: Clapham Junction, Vauxhall"⟩

/-- Concrete record exercising the legacy 4-field round trip (no
platform). -/
def c2recB : ServiceRecord :=
  ⟨"Epsom", "", "18:00", "18:00", "SN", "Southern", ""⟩

/-- Concrete record exercising the compressed 3-field round trip
(cancelled, no platform). -/
def c2recC : ServiceRecord :=
  ⟨"Guildford", "", "19:05", "Cancelled", "GW", "Great Western Railway", ""⟩

/-- Gluing of split results across an append boundary. -/
def glueSplit : List (List Char) → List (List Char) → List (List Char)
  | [a], b :: bs => (a ++ b) :: bs
  | a :: as, bs => a :: glueSplit as bs
  | [], bs => bs

/-- Prepend characters onto the first field of a split result. -/
def consListHead (xs : List Char) : List (List Char) → List (List Char)
  | [] => [xs]
  | g :: gs => (xs ++ g) :: gs

/-- Head-character test: empty or not starting with a dash. -/
def headNotDash (l : List Char) : Bool :=
  match l with
  | [] => true
  | c :: _ => !(c = '-')

/-- Newline-terminated concatenation of lines, as `_format_station_board`
emits them (each appended element is followed by `'\n'`). -/
def joinNl (ls : List (List Char)) : List Char :=
  (ls.map (fun l => l ++ ['\n'])).join

/-- The elements one record contributes to `image_content`
(`routeUpdate` passes `include_calling_points = True`, `word_length = 80`;
empty on the unreachable exception path). -/
def elemsOf (r : ServiceRecord) : List String :=
  (appendTrainElements r true 80).getD []

/-- The delay message `delayCalc` computes for a record (placeholder on
the unreachable exception path). -/
def msgOf (r : ServiceRecord) : String :=
  ((delayCalc (some r.std) (some r.etd)).getD (false, "")).2

/-- The characters of a record's formatted board row after
`_format_station_board`'s column padding, without the leading newline the
row element carries. -/
def rowLineData (r : ServiceRecord) : List Char :=
  (r.dest_text.data ++ List.replicate 50 '-').take 24
    ++ ((r.platform.data ++ List.replicate 10 '-').take 5
    ++ ' ' :: ((r.std.data ++ List.replicate 10 '-').take 10
    ++ ((r.etd.data ++ List.replicate 10 '-').take 10
    ++ r.operator_name.data)))

/-- The characters of a record's status line. -/
def statusLineData (r : ServiceRecord) : List Char :=
  "Status:".data ++ (msgOf r).data

/-- The characters of a record's calling-point lines. -/
def cpLinesData (r : ServiceRecord) : List (List Char) :=
  if r.cp_string.data.isEmpty then []
  else (cpElements r.cp_string 80).map String.data

/-- The board-document lines one record contributes: the empty line from
the row element's leading newline, the padded row, the status line, the
empty line from the status element's trailing newline, then the
calling-point lines. -/
def groupLines (r : ServiceRecord) : List (List Char) :=
  [[], rowLineData r, statusLineData r, []] ++ cpLinesData r

/-! ## Lemmas about `delayCalc` on canonical `HH:MM` strings -/

lemma digitChar_ne_colon (a : Nat) (ha : a ≤ 9) : digitChar a ≠ ':' := by
  interval_cases a <;> decide

lemma digitChar_inj (a b : Nat) (ha : a ≤ 9) (hb : b ≤ 9)
    (h : digitChar a = digitChar b) : a = b := by
  interval_cases a <;> interval_cases b <;> first | rfl | exact absurd h (by decide)

lemma pyInt?_two_digits (a b : Nat) (ha : a ≤ 9) (hb : b ≤ 9) :
    pyInt? [digitChar a, digitChar b] = some ((10 * a + b : Nat) : Int) := by
  interval_cases a <;> interval_cases b <;> decide

lemma splitOnChar_colon_hhmm (a b c d : Nat)
    (ha : a ≤ 9) (hb : b ≤ 9) (hc : c ≤ 9) (hd : d ≤ 9) :
    splitOnChar ':' [digitChar a, digitChar b, ':', digitChar c, digitChar d]
      = [[digitChar a, digitChar b], [digitChar c, digitChar d]] := by
  have h1 := digitChar_ne_colon a ha
  have h2 := digitChar_ne_colon b hb
  have h3 := digitChar_ne_colon c hc
  have h4 := digitChar_ne_colon d hd
  simp [splitOnChar, h1, h2, h3, h4]

lemma hhmm_digit_bounds (h m : Nat) (hh : h < 24) (hm : m < 60) :
    h / 10 ≤ 9 ∧ h % 10 ≤ 9 ∧ m / 10 ≤ 9 ∧ m % 10 ≤ 9 := by
  refine ⟨?_, ?_, ?_, ?_⟩ <;> omega

lemma pyTwoInts?_hhmm (h m : Nat) (hh : h < 24) (hm : m < 60) :
    pyTwoInts? (hhmm h m).data = some ((h : Int), (m : Int)) := by
  obtain ⟨b1, b2, b3, b4⟩ := hhmm_digit_bounds h m hh hm
  show pyTwoInts? [digitChar (h / 10), digitChar (h % 10), ':',
      digitChar (m / 10), digitChar (m % 10)] = some ((h : Int), (m : Int))
  unfold pyTwoInts?
  rw [splitOnChar_colon_hhmm _ _ _ _ b1 b2 b3 b4]
  simp only [List.map_cons, List.map_nil,
    pyInt?_two_digits _ _ b1 b2, pyInt?_two_digits _ _ b3 b4]
  rw [Nat.div_add_mod h 10, Nat.div_add_mod m 10]

lemma pyTruthy_hhmm (h m : Nat) : pyTruthy (some (hhmm h m)) = true := by
  simp [pyTruthy, hhmm, String.mk]

lemma firstCharNotTime_hhmm (h m : Nat) (hh : h < 24) :
    firstCharNotTime (some (hhmm h m)) = false := by
  have h3 : h / 10 = 0 ∨ h / 10 = 1 ∨ h / 10 = 2 := by omega
  rcases h3 with h3 | h3 | h3 <;> simp [firstCharNotTime, hhmm, h3] <;> decide

lemma delayCalc_hhmm_eq (h1 m1 h2 m2 : Nat)
    (hh1 : h1 < 24) (hm1 : m1 < 60) (hh2 : h2 < 24) (hm2 : m2 < 60) :
    delayCalc (some (hhmm h1 m1)) (some (hhmm h2 m2)) =
      some (delayMinutes ((h1 : Int) * 60 + m1) ((h2 : Int) * 60 + m2)) := by
  unfold delayCalc
  simp only [Option.getD_some, pyTruthy_hhmm, firstCharNotTime_hhmm _ _ hh1,
    firstCharNotTime_hhmm _ _ hh2, Bool.not_true, Bool.or_self, Bool.or_false,
    Bool.false_or, if_false, Bool.false_eq_true]
  rw [pyTwoInts?_hhmm _ _ hh1 hm1, pyTwoInts?_hhmm _ _ hh2 hm2]

lemma delayMinutes_eq_spec (s e : Int) :
    delayMinutes s e = delaySpecResult (e - s) := by
  simp only [delayMinutes, delaySpecResult]
  split_ifs <;> first | rfl | (exfalso; omega)

lemma delaySpecResult_fst (delta : Int) :
    (delaySpecResult delta).1 = true ↔ delta ≠ 0 := by
  unfold delaySpecResult
  split_ifs <;> simp_all

lemma hhmm_inj (h1 m1 h2 m2 : Nat)
    (hh1 : h1 < 24) (hm1 : m1 < 60) (hh2 : h2 < 24) (hm2 : m2 < 60) :
    hhmm h1 m1 = hhmm h2 m2 ↔ (h1 = h2 ∧ m1 = m2) := by
  obtain ⟨a1, a2, a3, a4⟩ := hhmm_digit_bounds h1 m1 hh1 hm1
  obtain ⟨b1, b2, b3, b4⟩ := hhmm_digit_bounds h2 m2 hh2 hm2
  constructor
  · intro hEq
    have hl : [digitChar (h1 / 10), digitChar (h1 % 10), ':',
        digitChar (m1 / 10), digitChar (m1 % 10)]
        = [digitChar (h2 / 10), digitChar (h2 % 10), ':',
        digitChar (m2 / 10), digitChar (m2 % 10)] := congrArg String.data hEq
    simp only [List.cons.injEq, and_true] at hl
    obtain ⟨e1, e2, _, e3, e4⟩ := hl
    have := digitChar_inj _ _ a1 b1 e1
    have := digitChar_inj _ _ a2 b2 e2
    have := digitChar_inj _ _ a3 b3 e3
    have := digitChar_inj _ _ a4 b4 e4
    omega
  · rintro ⟨rfl, rfl⟩
    rfl

/-! ## Claim theorems: `delayCalc` -/

/-- C3: for valid `HH:MM` pairs, `delayCalc` returns `isProblem` true iff
the two time strings differ, classifying `delta = estimated - scheduled`
minutes with no midnight-rollover correction: `delta = 0` gives
`(false, "On Time")`, `delta > 0` gives the "late" message (singular
exactly at 1), `delta < 0` the "early" message on `|delta|`. -/
theorem delayCalc_valid_hhmm_pairs (h1 m1 h2 m2 : Nat)
    (hh1 : h1 < 24) (hm1 : m1 < 60) (hh2 : h2 < 24) (hm2 : m2 < 60) :
    delayCalc (some (hhmm h1 m1)) (some (hhmm h2 m2)) =
      some (delaySpecResult (((h2 : Int) * 60 + m2) - ((h1 : Int) * 60 + m1))) ∧
    ((delaySpecResult (((h2 : Int) * 60 + m2) - ((h1 : Int) * 60 + m1))).1 = true ↔
      hhmm h1 m1 ≠ hhmm h2 m2) := by
  constructor
  · rw [delayCalc_hhmm_eq h1 m1 h2 m2 hh1 hm1 hh2 hm2,
      delayMinutes_eq_spec]
  · rw [delaySpecResult_fst]
    have hinj := hhmm_inj h1 m1 h2 m2 hh1 hm1 hh2 hm2
    constructor
    · intro hd heq
      rw [hinj] at heq
      omega
    · intro hne hzero
      exact hne (hinj.mpr (by constructor <;> omega))

/-- Witness for C3: the midnight-rollover example from the claim —
scheduled 23:55 with estimated 00:05 is classified as 1430 minutes early. -/
theorem delayCalc_valid_hhmm_pairs_witness :
    delayCalc (some "23:55") (some "00:05") = some (true, "1430 mins early") := by
  have h := (delayCalc_valid_hhmm_pairs 23 55 0 5
    (by decide) (by decide) (by decide) (by decide)).1
  have e1 : hhmm 23 55 = "23:55" := by decide
  have e2 : hhmm 0 5 = "00:05" := by decide
  rw [e1, e2] at h
  rw [h]
  decide

lemma getD_data_of_falsy (s : Option String) (h : pyTruthy s = false) :
    (s.getD "").data = [] := by
  cases s with
  | none => rfl
  | some v =>
    simp only [pyTruthy, Bool.not_eq_false', List.isEmpty_iff] at h
    simpa using h

lemma truthy_guard_and (s : Option String) (b : Bool)
    (hb : pyTruthy s = false → b = false) : (pyTruthy s && b) = b := by
  cases h : pyTruthy s with
  | false => simp [hb h]
  | true => simp

lemma containsSub_nil_on : containsSub [] "On".data = false := by decide

lemma containsSub_nil_can : containsSub (upperAscii []) "CAN".data = false := by
  decide

/-- C7 counterexample: the claim's "in particular estimated `\"Cancelled\"`
with any scheduled value yields `(true, \"Cancelled\")`" fails when the
scheduled token contains the substring `"On"` — the case-sensitive `"On"`
rule fires first.  Concretely, scheduled `"On time"` with estimated
`"Cancelled"` returns `(false, "On time")`. -/
theorem delayCalc_cancelled_counterexample :
    delayCalc (some "On time") (some "Cancelled") = some (false, "On time") ∧
    delayCalc (some "On time") (some "Cancelled") ≠ some (true, "Cancelled") := by
  constructor
  · decide
  · decide

/-- C7 (amended): whenever either token is null/empty or either token's
first character is outside `'012'`, `delayCalc` classifies by status
tokens in order — case-sensitive `"On"` containment gives
`(false, "On time")`, else case-insensitive `"CAN"` containment gives
`(true, "Cancelled")`, else `(true, "Delayed")`; in particular estimated
`"Cancelled"` yields `(true, "Cancelled")` for every scheduled value that
does not contain the substring `"On"`. -/
theorem delayCalc_status_tokens (s e : Option String)
    (hguard : (!pyTruthy s || !pyTruthy e
        || firstCharNotTime s || firstCharNotTime e) = true) :
    delayCalc s e = some (statusSpecResult s e) ∧
    (e = some "Cancelled" → containsSub (s.getD "").data "On".data = false →
      delayCalc s e = some (true, "Cancelled")) := by
  have hOn : (pyTruthy s && containsSub (s.getD "").data "On".data)
      = containsSub (s.getD "").data "On".data :=
    truthy_guard_and _ _ (fun h => by rw [getD_data_of_falsy s h]; decide)
  have hOn' : (pyTruthy e && containsSub (e.getD "").data "On".data)
      = containsSub (e.getD "").data "On".data :=
    truthy_guard_and _ _ (fun h => by rw [getD_data_of_falsy e h]; decide)
  have hCan : (pyTruthy s && containsSub (upperAscii (s.getD "").data) "CAN".data)
      = containsSub (upperAscii (s.getD "").data) "CAN".data :=
    truthy_guard_and _ _ (fun h => by rw [getD_data_of_falsy s h]; decide)
  have hCan' : (pyTruthy e && containsSub (upperAscii (e.getD "").data) "CAN".data)
      = containsSub (upperAscii (e.getD "").data) "CAN".data :=
    truthy_guard_and _ _ (fun h => by rw [getD_data_of_falsy e h]; decide)
  have hmain : delayCalc s e = some (statusSpecResult s e) := by
    unfold delayCalc statusSpecResult
    simp only [hguard, eq_self_iff_true, if_true, hOn, hOn', hCan, hCan']
    split_ifs <;> rfl
  refine ⟨hmain, fun hce hsOn => ?_⟩
  rw [hmain]
  subst hce
  have d1 : containsSub ((some "Cancelled").getD "").data "On".data = false := by
    decide
  have d2 : containsSub (upperAscii ((some "Cancelled").getD "").data) "CAN".data
      = true := by decide
  unfold statusSpecResult
  simp only [hsOn, d1, d2, Bool.or_self, Bool.or_true, Bool.false_eq_true,
    eq_self_iff_true, if_true, if_false]

/-- Witness for C7: scheduled `"10:00"` (no `"On"`) with estimated
`"Cancelled"` is classified as `(true, "Cancelled")`. -/
theorem delayCalc_status_tokens_witness :
    delayCalc (some "10:00") (some "Cancelled") = some (true, "Cancelled") :=
  (delayCalc_status_tokens (some "10:00") (some "Cancelled")
    (by decide)).2 rfl (by decide)

/-- C9: `delayCalc` is not total on status-token inputs that pass the
hour-prefix guard — whenever both tokens are non-empty with first character
in `'012'` but at least one is not of the form `<integer>:<integer>`
(modelled by `pyTwoInts?` returning `none`, mirroring
`int(i) for i in t.split(':')` with two-element unpacking), the unguarded
numeric branch raises `ValueError`, modelled as a `none` result. -/
theorem delayCalc_raises_on_unparseable (s e : String)
    (hs : pyTruthy (some s) = true) (he : pyTruthy (some e) = true)
    (hfs : firstCharNotTime (some s) = false)
    (hfe : firstCharNotTime (some e) = false)
    (hbad : pyTwoInts? s.data = none ∨ pyTwoInts? e.data = none) :
    delayCalc (some s) (some e) = none := by
  unfold delayCalc
  simp only [Option.getD_some, hs, hfs, hfe, he, Bool.not_true, Bool.or_self,
    Bool.or_false, Bool.false_or, Bool.false_eq_true, if_false]
  rcases hbad with h | h
  · rw [h]
  · cases hk : pyTwoInts? s.data <;> rw [h]

/-- Witness for C9: scheduled `"10:00"` with estimated `"2 Bus services"`
(first character `'2'`, not `<int>:<int>`) raises, modelled as `none`. -/
theorem delayCalc_raises_on_unparseable_witness :
    delayCalc (some "10:00") (some "2 Bus services") = none :=
  delayCalc_raises_on_unparseable "10:00" "2 Bus services"
    (by decide) (by decide) (by decide) (by decide) (Or.inr (by decide))

lemma pySliceTo_neg_one (l : List Char) : pySliceTo l (-1) = l.dropLast := by
  rw [List.dropLast_eq_take]
  rfl

/-- C10 counterexample: for the message of 130 spaces followed by `"ab"`,
the cleaned text exceeds 130 characters and has no space at or after index
130, yet `formatSpecials` returns the full text (the stripped length is
only 2, so the no-wrap branch runs) — the final character is not
omitted. -/
theorem formatSpecials_counterexample :
    130 < (cleanSpecials c10msg.data).length ∧
    pyFindChar (cleanSpecials c10msg.data) ' ' 130 = -1 ∧
    formatSpecials c10msg
      = String.mk (('+' :: '+' :: '+' :: cleanSpecials c10msg.data) ++ ['\n']) ∧
    formatSpecials c10msg
      ≠ String.mk (('+' :: '+' :: '+' :: (cleanSpecials c10msg.data).dropLast)
          ++ ['\n']) := by
  refine ⟨by decide, by decide, by decide, by decide⟩

/-- C10 (amended): for every message whose cleaned text has *stripped*
length over 130 and contains no space at or after index 130 (and whose raw
text is not whitespace-only), `formatSpecials` returns a single
`'+++'`-prefixed newline-terminated line holding the cleaned text with its
final character silently dropped (`find(' ', 130) = -1` used as a slice
end). -/
theorem formatSpecials_no_space_after_130 (m : String)
    (h0 : (pyStrip m.data).length ≠ 0)
    (h1 : 130 < (pyStrip (cleanSpecials m.data)).length)
    (h2 : pyFindChar (cleanSpecials m.data) ' ' 130 = -1) :
    formatSpecials m
      = String.mk (('+' :: '+' :: '+' :: (cleanSpecials m.data).dropLast)
          ++ ['\n']) := by
  unfold formatSpecials
  rw [if_neg h0]
  unfold specialsLoop
  have e2 : (2 : Nat) - 0 = 1 + 1 := rfl
  rw [e2]
  simp only [specialsLoopGo, h2]
  rw [if_pos h1]
  simp only [ne_eq, eq_self_iff_true, not_true, if_false, ite_false,
    pySliceTo_neg_one]

/-- Witness for C10: 131 letters `'a'` — the returned notice is one line
holding only the first 130 of them. -/
theorem formatSpecials_no_space_after_130_witness :
    formatSpecials c10wit
      = String.mk (('+' :: '+' :: '+' :: (cleanSpecials c10wit.data).dropLast)
          ++ ['\n']) :=
  formatSpecials_no_space_after_130 c10wit (by decide) (by decide) (by decide)

/-! ## Lemmas and theorems for the classic draw loop -/

lemma isServiceRow_iff (l : String) :
    isServiceRow l = true ↔ classifyLine l = .service := by
  simp [isServiceRow]

lemma countServiceRows_cons (x : String) (rest : List String) :
    countServiceRows (x :: rest)
      = countServiceRows rest + (if isServiceRow x then 1 else 0) :=
  List.countP_cons _ _ _

lemma countCallingRows_cons (x : String) (rest : List String) :
    countCallingRows (x :: rest)
      = countCallingRows rest + (if isCallingRow x then 1 else 0) :=
  List.countP_cons _ _ _

lemma countDrawnServices_cons (d : DrawnLine) (out : List DrawnLine) :
    countDrawnServices (d :: out)
      = countDrawnServices out + (if isDrawnService d then 1 else 0) :=
  List.countP_cons _ _ _

lemma countDrawnCalling_cons (d : DrawnLine) (out : List DrawnLine) :
    countDrawnCalling (d :: out)
      = countDrawnCalling out + (if isDrawnCalling d then 1 else 0) :=
  List.countP_cons _ _ _

lemma countDrawnServices_go_true (ls : List String) (cs : Nat) :
    countDrawnServices (classicDrawGo ls cs true) = 0 := by
  induction ls generalizing cs with
  | nil => rfl
  | cons x rest ih =>
    cases hk : classifyLine x <;>
      simp only [classicDrawGo, hk, countDrawnServices_cons, isDrawnService,
        ih, eq_self_iff_true, if_true, if_false] <;>
      simp [countDrawnServices]

lemma countDrawnServices_go_false (ls : List String) (cs : Nat)
    (hcs : cs ≤ maxServices) :
    countDrawnServices (classicDrawGo ls cs false)
      = min (countServiceRows ls) (maxServices + 1 - cs) := by
  induction ls generalizing cs with
  | nil => simp [classicDrawGo, countDrawnServices, countServiceRows]
  | cons x rest ih =>
    have hsr := countServiceRows_cons x rest
    cases hk : classifyLine x
    case service =>
      have hx : isServiceRow x = true := (isServiceRow_iff x).mpr hk
      rw [hx, if_pos rfl] at hsr
      by_cases hc : maxServices < cs + 1
      · simp only [classicDrawGo, hk, Bool.false_eq_true, if_false,
          if_pos hc, countDrawnServices_cons, isDrawnService,
          countDrawnServices_go_true, hsr, eq_self_iff_true, if_true]
        omega
      · simp only [classicDrawGo, hk, Bool.false_eq_true, if_false,
          if_neg hc, countDrawnServices_cons, isDrawnService,
          ih (cs + 1) (by omega), hsr, eq_self_iff_true, if_true]
        omega
    all_goals
    · have hx : isServiceRow x = false := by
        simp [isServiceRow, hk]
      rw [hx, if_neg (Bool.false_ne_true)] at hsr
      simp only [classicDrawGo, hk, countDrawnServices_cons, isDrawnService,
        ih cs hcs, hsr, Bool.false_eq_true, if_false]
      omega

lemma classicDrawGo_break_true (xs : List String) (s : String)
    (ys : List String) (cs : Nat) (h0 : countServiceRows xs = 0)
    (hs : isServiceRow s = true) :
    classicDrawGo (xs ++ s :: ys) cs true = classicDrawGo xs cs true := by
  induction xs generalizing cs with
  | nil =>
    have hks := (isServiceRow_iff s).mp hs
    simp [classicDrawGo, hks]
  | cons x rest ih =>
    have hsr := countServiceRows_cons x rest
    rw [h0] at hsr
    have hx : isServiceRow x = false := by
      by_contra hcon
      rw [Bool.not_eq_false] at hcon
      rw [hcon, if_pos rfl] at hsr
      omega
    have h0' : countServiceRows rest = 0 := by
      rw [hx, if_neg (Bool.false_ne_true)] at hsr
      omega
    have hkx : classifyLine x ≠ .service := by
      intro hkk
      rw [(isServiceRow_iff x).mpr hkk] at hx
      exact Bool.noConfusion hx
    cases hk : classifyLine x <;>
      first
      | exact absurd hk hkx
      | (simp only [List.cons_append, classicDrawGo, hk, List.append_eq]
         rw [ih _ h0'])

lemma classicDrawGo_break_false (xs : List String) (s : String)
    (ys : List String) (cs : Nat) (hcs : cs ≤ maxServices)
    (hcount : countServiceRows xs = maxServices + 1 - cs)
    (hs : isServiceRow s = true) :
    classicDrawGo (xs ++ s :: ys) cs false = classicDrawGo xs cs false := by
  induction xs generalizing cs with
  | nil =>
    exfalso
    simp [countServiceRows] at hcount
    omega
  | cons x rest ih =>
    have hsr := countServiceRows_cons x rest
    cases hk : classifyLine x
    case service =>
      have hx : isServiceRow x = true := (isServiceRow_iff x).mpr hk
      rw [hx, if_pos rfl, hcount] at hsr
      by_cases hc : maxServices < cs + 1
      · have hrest0 : countServiceRows rest = 0 := by omega
        simp only [List.cons_append, classicDrawGo, hk, Bool.false_eq_true,
          if_false, if_pos hc, List.append_eq]
        rw [classicDrawGo_break_true rest s ys _ hrest0 hs]
      · simp only [List.cons_append, classicDrawGo, hk, Bool.false_eq_true,
          if_false, if_neg hc, List.append_eq]
        rw [ih (cs + 1) (by omega) (by omega)]
    all_goals
    · have hx : isServiceRow x = false := by
        simp [isServiceRow, hk]
      rw [hx, if_neg (Bool.false_ne_true)] at hsr
      simp only [List.cons_append, classicDrawGo, hk, List.append_eq]
      rw [ih cs hcs (by omega)]

lemma countDrawnCalling_go_true (xs : List String) (cs : Nat)
    (h0 : countServiceRows xs = 0) :
    countDrawnCalling (classicDrawGo xs cs true) = countCallingRows xs := by
  induction xs generalizing cs with
  | nil => rfl
  | cons x rest ih =>
    have hsr := countServiceRows_cons x rest
    rw [h0] at hsr
    have hx : isServiceRow x = false := by
      by_contra hcon
      rw [Bool.not_eq_false] at hcon
      rw [hcon, if_pos rfl] at hsr
      omega
    have h0' : countServiceRows rest = 0 := by
      rw [hx, if_neg (Bool.false_ne_true)] at hsr
      omega
    have hkx : classifyLine x ≠ .service := by
      intro hkk
      rw [(isServiceRow_iff x).mpr hkk] at hx
      exact Bool.noConfusion hx
    cases hk : classifyLine x <;>
      first
      | exact absurd hk hkx
      | (simp only [classicDrawGo, hk, countDrawnCalling_cons, isDrawnCalling,
           countCallingRows_cons, isCallingRow, ih _ h0', Bool.false_eq_true,
           if_false, eq_self_iff_true, if_true, decide_eq_true_eq]
         try simp [hk])

lemma countDrawnCalling_go_false (xs : List String) (cs : Nat)
    (hcs : cs ≤ maxServices)
    (hcount : countServiceRows xs ≤ maxServices + 1 - cs) :
    countDrawnCalling (classicDrawGo xs cs false) = countCallingRows xs := by
  induction xs generalizing cs with
  | nil => rfl
  | cons x rest ih =>
    have hsr := countServiceRows_cons x rest
    cases hk : classifyLine x
    case service =>
      have hx : isServiceRow x = true := (isServiceRow_iff x).mpr hk
      rw [hx, if_pos rfl] at hsr
      by_cases hc : maxServices < cs + 1
      · have hrest0 : countServiceRows rest = 0 := by omega
        simp only [classicDrawGo, hk, Bool.false_eq_true, if_false,
          if_pos hc, countDrawnCalling_cons, isDrawnCalling]
        rw [countDrawnCalling_go_true rest _ hrest0]
        simp [countCallingRows_cons, isCallingRow, hk]
      · simp only [classicDrawGo, hk, Bool.false_eq_true, if_false,
          if_neg hc, countDrawnCalling_cons, isDrawnCalling]
        rw [ih (cs + 1) (by omega) (by omega)]
        simp [countCallingRows_cons, isCallingRow, hk]
    all_goals
    · have hx : isServiceRow x = false := by
        simp [isServiceRow, hk]
      rw [hx, if_neg (Bool.false_ne_true)] at hsr
      simp only [classicDrawGo, hk, countDrawnCalling_cons, isDrawnCalling,
        countCallingRows_cons, isCallingRow]
      rw [ih cs hcs (by omega)]
      simp [hk]

/-- C6 counterexample: seven plain service rows make the classic draw loop
draw six of them — the counter is incremented after drawing and only then
compared with `maxServices = 5`, so the cap the claim states (at most 5)
is exceeded. -/
theorem classicDraw_maxServices_counterexample :
    countDrawnServices (classicDraw
      ["Woking", "Surbiton", "Clapham", "Vauxhall", "Ashford", "Feltham",
       "Barnes"]) = maxServices + 1 ∧
    ¬ (countDrawnServices (classicDraw
      ["Woking", "Surbiton", "Clapham", "Vauxhall", "Ashford", "Feltham",
       "Barnes"]) ≤ maxServices) := by
  constructor
  · decide
  · decide

/-- C6 (amended): the classic draw loop draws
`min (number of plain service rows) (maxServices + 1)` service rows — six,
not five, because the explicit counter is compared only after drawing;
once six are drawn, the next plain service row breaks the loop (everything
from it on is skipped), while calling-point rows ahead of that break,
belonging to already-accepted rows, are still drawn. -/
theorem classicDraw_service_cap :
    (∀ ls : List String, countDrawnServices (classicDraw ls)
        = min (countServiceRows ls) (maxServices + 1)) ∧
    (∀ (xs : List String) (s : String) (ys : List String),
        countServiceRows xs = maxServices + 1 → isServiceRow s = true →
        classicDraw (xs ++ s :: ys) = classicDraw xs) ∧
    (∀ xs : List String, countServiceRows xs ≤ maxServices + 1 →
        countDrawnCalling (classicDraw xs) = countCallingRows xs) := by
  refine ⟨?_, ?_, ?_⟩
  · intro ls
    have h := countDrawnServices_go_false ls 0 (by omega)
    simpa [classicDraw] using h
  · intro xs s ys hcount hs
    exact classicDrawGo_break_false xs s ys 0 (by omega) (by omega) hs
  · intro xs hcount
    exact countDrawnCalling_go_false xs 0 (by omega) (by omega)

/-- Witness for C6 (amended): with six accepted service rows and an
interleaved calling-point row, a seventh service row cuts the output at
the break, and the calling-point count is preserved below the cap. -/
theorem classicDraw_service_cap_witness :
    classicDraw (["A1", "A2", "A3", "A4", "A5", "A6", ">>> Woking (10:15)"]
        ++ "A7" :: [">>> Surbiton (10:25)"])
      = classicDraw ["A1", "A2", "A3", "A4", "A5", "A6", ">>> Woking (10:15)"] ∧
    countDrawnCalling (classicDraw ["A1", ">>> Woking (10:15)"])
      = countCallingRows ["A1", ">>> Woking (10:15)"] := by
  constructor
  · exact classicDraw_service_cap.2.1 _ "A7" _ (by decide) (by decide)
  · exact classicDraw_service_cap.2.2 _ (by decide)

/-! ## Claim theorems: render dispatcher and render cache -/

/-- C5: for every configuration of enabled styles, the dispatcher returns
success iff at least one enabled style rendered successfully; the styles
attempted depend only on the configuration, never on the other style's
outcome (independence); and the no-styles-enabled case is reported at
warning level with its own distinct message, while the all-failed case is
reported at error level. -/
theorem generateDepartureImage_outcome (gc gm : Bool)
    (oracle : String → Bool) :
    ((generateDepartureImage gc gm oracle).returnValue = true ↔
      ((gc && oracle "classic") || (gm && oracle "modern")) = true) ∧
    (generateDepartureImage gc gm oracle).attempts
      = ((if gc then ["classic"] else []) ++ (if gm then ["modern"] else [])) ∧
    (gc = false → gm = false →
      (generateDepartureImage gc gm oracle).logLevel = LogLevel.warning ∧
      (generateDepartureImage gc gm oracle).errorState
        = "No board styles enabled") ∧
    ((gc || gm) = true → oracle "classic" = false → oracle "modern" = false →
      (generateDepartureImage gc gm oracle).logLevel = LogLevel.error ∧
      (generateDepartureImage gc gm oracle).errorState
        = "All enabled board styles failed to generate") ∧
    ("No board styles enabled" : String)
      ≠ "All enabled board styles failed to generate" := by
  cases gc <;> cases gm <;>
    cases h1 : oracle "classic" <;> cases h2 : oracle "modern" <;>
    simp [generateDepartureImage, h1, h2]

/-- Witness for C5: with neither style enabled the dispatcher reports the
distinct "No board styles enabled" message at warning level. -/
theorem generateDepartureImage_outcome_witness :
    (generateDepartureImage false false (fun _ => false)).logLevel
        = LogLevel.warning ∧
    (generateDepartureImage false false (fun _ => false)).errorState
        = "No board styles enabled" :=
  (generateDepartureImage_outcome false false (fun _ => false)).2.2.1 rfl rfl

/-- C1: across two poll cycles whose board text and render parameters are
byte-identical, the `routeUpdate` tail invokes the render dispatcher in
both cycles (count 2, not the claimed 1) while also rewriting the text
file in both — the content-digest comparison the claim describes does not
exist on this code path (`compute_board_content_hash` is never called), so
the second cycle's expensive render is not skipped. -/
theorem routeUpdate_renders_every_cycle (imagePath textPath parametersPath
    stationStart stationEnd titles statistics messages boardContent : String)
    (departuresFound : Bool) :
    countRenders (runTwoIdenticalCycles imagePath textPath parametersPath
        stationStart stationEnd titles statistics messages boardContent
        departuresFound) = 2 ∧
    countTextWrites (runTwoIdenticalCycles imagePath textPath parametersPath
        stationStart stationEnd titles statistics messages boardContent
        departuresFound) = 2 ∧
    ¬ (countRenders (runTwoIdenticalCycles imagePath textPath parametersPath
        stationStart stationEnd titles statistics messages boardContent
        departuresFound) = 1) := by
  refine ⟨rfl, rfl, by simp [runTwoIdenticalCycles, routeUpdateTail,
    countRenders, isRenderEffect, List.countP_cons]⟩

/-! ## Lemmas and theorems for the content hash -/

lemma beBytes_length (k n : Nat) : (beBytes k n).length = k := by
  simp [beBytes]

lemma digestBytes_length (hs : Hash8) : (digestBytes hs).length = 32 := by
  simp [digestBytes, beBytes_length]

lemma sha256Bytes_length (msg : List Nat) : (sha256Bytes msg).length = 32 :=
  digestBytes_length _

lemma hexJoin_length (bs : List Nat) :
    ((bs.map byteToHex).join).length = 2 * bs.length := by
  induction bs with
  | nil => rfl
  | cons b rest ih =>
    simp only [List.map_cons, List.join_cons, List.length_append, ih,
      byteToHex, List.length_cons, List.length_nil]
    omega

lemma beBytes_mem_lt (k n : Nat) : ∀ b ∈ beBytes k n, b < 256 := by
  intro b hb
  simp only [beBytes, List.mem_map, List.mem_range] at hb
  obtain ⟨i, _, rfl⟩ := hb
  exact Nat.mod_lt _ (by omega)

lemma digestBytes_mem_lt (hs : Hash8) : ∀ b ∈ digestBytes hs, b < 256 := by
  intro b hb
  simp only [digestBytes, List.mem_append] at hb
  rcases hb with ((((((h | h) | h) | h) | h) | h) | h) | h <;>
    exact beBytes_mem_lt _ _ _ h

lemma sha256Bytes_mem_lt (msg : List Nat) :
    ∀ b ∈ sha256Bytes msg, b < 256 :=
  digestBytes_mem_lt _

lemma hexDigitChar_mem (n : Nat) (h : n < 16) :
    hexDigitChar n ∈ hexAlphabet := by
  interval_cases n <;> decide

lemma hex_chars_mem (bs : List Nat) (hlt : ∀ b ∈ bs, b < 256) :
    ∀ c ∈ (bs.map byteToHex).join, c ∈ hexAlphabet := by
  intro c hc
  simp only [List.mem_join, List.mem_map] at hc
  obtain ⟨l, ⟨b, hb, rfl⟩, hcl⟩ := hc
  have hb256 := hlt b hb
  simp only [byteToHex, List.mem_cons, List.not_mem_nil, or_false] at hcl
  rcases hcl with rfl | rfl
  · exact hexDigitChar_mem _ (by omega)
  · exact hexDigitChar_mem _ (Nat.mod_lt _ (by omega))

/-- C8 counterexample: replacing the trailing space of the parameters file
content with a tab is a single-character change (same length, same prefix)
that leaves the digest unchanged, because the source hashes
`params_content.strip()` — refuting "changing any single character of the
parameters file changes the digest". -/
theorem compute_board_content_hash_counterexample :
    c8p1 ≠ c8p2 ∧
    c8p1.data.length = c8p2.data.length ∧
    c8p1.data.dropLast = c8p2.data.dropLast ∧
    compute_board_content_hash "board" c8p1
      = compute_board_content_hash "board" c8p2 := by
  refine ⟨by decide, by decide, by decide, ?_⟩
  have h : pyStrip c8p1.data = pyStrip c8p2.data := by decide
  unfold compute_board_content_hash
  rw [h]

/-- C8 (amended): the content digest is a deterministic pure function of
exactly the board text and the *stripped* parameters content — parameter
contents equal after `strip()` always collide (so whitespace-only
single-character edits at the ends of the parameters file never change
the digest) — and every digest is a 64-character string over the
lowercase hex alphabet. -/
theorem compute_board_content_hash_spec (b p p' : String)
    (hstrip : pyStrip p.data = pyStrip p'.data) :
    compute_board_content_hash b p = compute_board_content_hash b p' ∧
    (compute_board_content_hash b p).data.length = 64 ∧
    (∀ c ∈ (compute_board_content_hash b p).data, c ∈ hexAlphabet) := by
  refine ⟨?_, ?_, ?_⟩
  · unfold compute_board_content_hash
    rw [hstrip]
  · show ((sha256Bytes _).map byteToHex).join.length = 64
    rw [hexJoin_length, sha256Bytes_length]
  · exact hex_chars_mem _ (sha256Bytes_mem_lt _)

/-- Witness for C8 (amended): `"y "` and `"y"` strip to the same content,
so their digests against board text `"x"` agree, and the digest is 64
characters long. -/
theorem compute_board_content_hash_spec_witness :
    compute_board_content_hash "x" "y " = compute_board_content_hash "x" "y" ∧
    (compute_board_content_hash "x" "y ").data.length = 64 :=
  ⟨(compute_board_content_hash_spec "x" "y " "y" (by decide)).1,
   (compute_board_content_hash_spec "x" "y " "y" (by decide)).2.1⟩

/-! ## Lemmas and theorems for the modern parser (C4) -/

lemma parseStep_service5 (st : ParseState) (w : String)
    (h1 : (pyStrip w.data).isEmpty = false)
    (h2 : containsSub (pyStrip w.data) "Destination".data = false)
    (h3 : containsSub (pyStrip w.data) "---".data = true)
    (h4 : containsSub (pyStrip w.data) "Status:".data = false)
    (h5 : containsSub (pyStrip w.data) ">>>".data = false)
    (h6 : (serviceParts (pyStrip w.data)).length = 5) :
    parseStep st w =
      { services := mkService5 (serviceParts (pyStrip w.data)) :: st.services,
        hasCurrent := true, skipped := st.skipped } := by
  unfold parseStep
  simp only [h1, h2, h3, h4, h5, h6, Bool.or_self, Bool.false_eq_true,
    if_false, Bool.not_false, Bool.and_self, Bool.true_and, Bool.and_true,
    eq_self_iff_true, if_true, le_refl]

lemma parseStep_malformed_few (st : ParseState) (b : String)
    (h1 : (pyStrip b.data).isEmpty = false)
    (h2 : containsSub (pyStrip b.data) "Destination".data = false)
    (h3 : containsSub (pyStrip b.data) "---".data = true)
    (h4 : containsSub (pyStrip b.data) "Status:".data = false)
    (h5 : containsSub (pyStrip b.data) ">>>".data = false)
    (h6 : (serviceParts (pyStrip b.data)).length = 2) :
    parseStep st b
      = { st with hasCurrent := false, skipped := st.skipped + 1 } := by
  unfold parseStep
  simp only [h1, h2, h3, h4, h5, h6, Bool.or_self, Bool.false_eq_true,
    if_false, Bool.not_false, Bool.and_self, Bool.true_and, Bool.and_true,
    eq_self_iff_true, if_true]
  norm_num

lemma parseStep_orphan_cp (st : ParseState) (c : String)
    (h1 : (pyStrip c.data).isEmpty = false)
    (h2 : containsSub (pyStrip c.data) "Destination".data = false)
    (h3 : containsSub (pyStrip c.data) ">>>".data = true)
    (hcur : st.hasCurrent = false) :
    parseStep st c = { st with skipped := st.skipped + 1 } := by
  unfold parseStep
  simp only [h1, h2, h3, hcur, Bool.or_self, Bool.false_eq_true, if_false,
    Bool.not_true, Bool.and_false, Bool.not_false, Bool.and_true,
    eq_self_iff_true, if_true]

/-- C4: a board body with one well-formed dash-separated service row `w`
and one row `b` with only two dash-delimited fields parses to exactly one
service with exactly one counted malformed skip; the model is a total
function (the source guards every index behind a length check, so no
exception is possible); and a later calling-point row `c` is never
attached after a dropped row — it is counted as an orphan and the parsed
services are unchanged. -/
theorem parse_service_data_malformed_tolerance (w b c : String)
    (hw1 : (pyStrip w.data).isEmpty = false)
    (hw2 : containsSub (pyStrip w.data) "Destination".data = false)
    (hw3 : containsSub (pyStrip w.data) "---".data = true)
    (hw4 : containsSub (pyStrip w.data) "Status:".data = false)
    (hw5 : containsSub (pyStrip w.data) ">>>".data = false)
    (hw6 : (serviceParts (pyStrip w.data)).length = 5)
    (hb1 : (pyStrip b.data).isEmpty = false)
    (hb2 : containsSub (pyStrip b.data) "Destination".data = false)
    (hb3 : containsSub (pyStrip b.data) "---".data = true)
    (hb4 : containsSub (pyStrip b.data) "Status:".data = false)
    (hb5 : containsSub (pyStrip b.data) ">>>".data = false)
    (hb6 : (serviceParts (pyStrip b.data)).length = 2)
    (hc1 : (pyStrip c.data).isEmpty = false)
    (hc2 : containsSub (pyStrip c.data) "Destination".data = false)
    (hc3 : containsSub (pyStrip c.data) ">>>".data = true) :
    parse_service_data [w, b]
      = ([mkService5 (serviceParts (pyStrip w.data))], 1) ∧
    parse_service_data [w, b, c]
      = ([mkService5 (serviceParts (pyStrip w.data))], 2) := by
  have s1 := parseStep_service5 ⟨[], false, 0⟩ w hw1 hw2 hw3 hw4 hw5 hw6
  constructor
  · show (((parseStep (parseStep ⟨[], false, 0⟩ w) b).services.reverse,
      (parseStep (parseStep ⟨[], false, 0⟩ w) b).skipped)
        : List ParsedService × Nat) = _
    rw [s1, parseStep_malformed_few _ b hb1 hb2 hb3 hb4 hb5 hb6]
    simp
  · show (((parseStep (parseStep (parseStep ⟨[], false, 0⟩ w) b) c).services.reverse,
      (parseStep (parseStep (parseStep ⟨[], false, 0⟩ w) b) c).skipped)
        : List ParsedService × Nat) = _
    rw [s1, parseStep_malformed_few _ b hb1 hb2 hb3 hb4 hb5 hb6,
      parseStep_orphan_cp _ c hc1 hc2 hc3 rfl]
    simp

/-- Witness for C4: a concrete well-formed row, a concrete two-field row
and a concrete orphaned calling-point row. -/
theorem parse_service_data_malformed_tolerance_witness :
    parse_service_data
      ["London Waterloo----------9---- 17:09-----On time---South Western Railway",
       "Epsom-----17:20"]
      = ([mkService5 (serviceParts (pyStrip
          ("London Waterloo----------9---- 17:09-----On time---South Western Railway" : String).data))],
         1) ∧
    parse_service_data
      ["London Waterloo----------9---- 17:09-----On time---South Western Railway",
       "Epsom-----17:20", ">>> Woking (10:15)"]
      = ([mkService5 (serviceParts (pyStrip
          ("London Waterloo----------9---- 17:09-----On time---South Western Railway" : String).data))],
         2) :=
  parse_service_data_malformed_tolerance
    "London Waterloo----------9---- 17:09-----On time---South Western Railway"
    "Epsom-----17:20" ">>> Woking (10:15)"
    (by decide) (by decide) (by decide) (by decide) (by decide) (by decide)
    (by decide) (by decide) (by decide) (by decide) (by decide) (by decide)
    (by decide) (by decide) (by decide)

/-! ## Substring tooling for the round-trip proof -/

lemma listStartsWith_iff (hay pat : List Char) :
    listStartsWith hay pat = true ↔ ∃ t, hay = pat ++ t := by
  induction pat generalizing hay with
  | nil => simp [listStartsWith]
  | cons p ps ih =>
    cases hay with
    | nil => simp [listStartsWith]
    | cons c cs =>
      simp only [listStartsWith, Bool.and_eq_true, ih, decide_eq_true_eq,
        List.cons_append, List.cons.injEq]
      constructor
      · rintro ⟨rfl, t, rfl⟩
        exact ⟨t, rfl, rfl⟩
      · rintro ⟨t, rfl, rfl⟩
        exact ⟨rfl, t, rfl⟩

lemma containsSub_iff (hay pat : List Char) :
    containsSub hay pat = true ↔ ∃ pre post, hay = pre ++ (pat ++ post) := by
  induction hay with
  | nil =>
    simp only [containsSub, List.isEmpty_iff]
    constructor
    · rintro rfl
      exact ⟨[], [], rfl⟩
    · rintro ⟨pre, post, h⟩
      rcases List.append_eq_nil.mp h.symm with ⟨rfl, h2⟩
      rcases List.append_eq_nil.mp h2 with ⟨rfl, rfl⟩
      rfl
  | cons c cs ih =>
    simp only [containsSub, Bool.or_eq_true, listStartsWith_iff, ih]
    constructor
    · rintro (⟨t, ht⟩ | ⟨pre, post, hp⟩)
      · exact ⟨[], t, by simpa using ht⟩
      · exact ⟨c :: pre, post, by simp [hp]⟩
    · rintro ⟨pre, post, hp⟩
      cases pre with
      | nil => exact Or.inl ⟨post, by simpa using hp⟩
      | cons q qs =>
        right
        simp only [List.cons_append, List.cons.injEq] at hp
        exact ⟨qs, post, hp.2⟩

lemma containsSub_mono_infix (l1 l2 pat : List Char) (hinf : l1 <:+: l2)
    (h : containsSub l1 pat = true) : containsSub l2 pat = true := by
  obtain ⟨a, b, rfl⟩ := hinf
  obtain ⟨pre, post, rfl⟩ := (containsSub_iff _ _).mp h
  exact (containsSub_iff _ _).mpr ⟨a ++ pre, post ++ b, by simp⟩

lemma containsSub_pattern_prefix (l p q : List Char)
    (h : containsSub l (p ++ q) = true) : containsSub l p = true := by
  obtain ⟨pre, post, rfl⟩ := (containsSub_iff _ _).mp h
  exact (containsSub_iff _ _).mpr ⟨pre, q ++ post, by simp⟩

lemma listStartsWith_sep (c0 : Char) (pat : List Char)
    (hpat : ∀ c ∈ pat, ¬ c = c0) :
    ∀ (xs zs : List Char),
      listStartsWith (xs ++ c0 :: zs) pat = listStartsWith xs pat := by
  induction pat with
  | nil => intro xs zs; simp [listStartsWith]
  | cons p ps ih =>
    intro xs zs
    cases xs with
    | nil =>
      simp only [List.nil_append, listStartsWith]
      have : ¬ c0 = p := fun hc =>
        hpat p (List.mem_cons_self _ _) (hc ▸ rfl)
      simp [this]
    | cons x xs' =>
      simp only [List.cons_append, listStartsWith, List.append_eq]
      rw [ih (fun c hc => hpat c (List.mem_cons_of_mem _ hc))]

lemma containsSub_sep_split (c0 : Char) (pat : List Char) (hne : pat ≠ [])
    (hpat : ∀ c ∈ pat, ¬ c = c0) (xs ys : List Char) :
    containsSub (xs ++ c0 :: ys) pat
      = (containsSub xs pat || containsSub ys pat) := by
  induction xs with
  | nil =>
    cases pat with
    | nil => exact absurd rfl hne
    | cons p ps =>
      have hp : ¬ c0 = p := fun hc => hpat p (List.mem_cons_self _ _) (hc ▸ rfl)
      simp only [List.nil_append, containsSub, listStartsWith,
        List.isEmpty_cons]
      simp [hp]
  | cons x xs' ih =>
    simp only [List.cons_append, containsSub, List.append_eq]
    rw [← List.cons_append, listStartsWith_sep c0 pat hpat (x :: xs') ys, ih,
      Bool.or_assoc]

lemma containsSub_eq_false_of_all_ne (hay : List Char) (p0 : Char)
    (ps : List Char) (h : ∀ c ∈ hay, ¬ c = p0) :
    containsSub hay (p0 :: ps) = false := by
  induction hay with
  | nil => rfl
  | cons c cs ih =>
    simp only [containsSub, Bool.or_eq_false_iff]
    constructor
    · simp only [listStartsWith, Bool.and_eq_false_iff]
      left
      simpa using h c (List.mem_cons_self _ _)
    · exact ih (fun c hc => h c (List.mem_cons_of_mem _ hc))

lemma containsSub_of_startsWith (hay pat : List Char)
    (h : listStartsWith hay pat = true) : containsSub hay pat = true := by
  cases hay with
  | nil =>
    cases pat with
    | nil => rfl
    | cons p ps => simp [listStartsWith] at h
  | cons c cs =>
    simp only [containsSub, Bool.or_eq_true]
    exact Or.inl h

lemma listStartsWith_append_self (s t : List Char) :
    listStartsWith (s ++ t) s = true := by
  induction s with
  | nil => simp [listStartsWith]
  | cons c cs ih => simpa [listStartsWith] using ih

/-- C2 counterexample: the record with platform `"13B"` satisfies the
claim's premises (non-empty platform, `HH:MM` times, operator, calling
points) yet round-trips to scheduled `"13B-- 17:09"` — the three-character
platform leaves only two padding dashes, the platform and schedule
columns merge, and the legacy 4-field fallback mis-assigns the fields. -/
theorem board_round_trip_counterexample :
    (boardRoundTrip [c2rec] "" "Woking Station" "").map
        (fun pr => pr.1.map (fun s => (s.destination, s.scheduled, s.operatorName)))
      = some [("Woking", "13B-- 17:09", "South Western Railway")] ∧
    ¬ ((boardRoundTrip [c2rec] "" "Woking Station" "").map
        (fun pr => pr.1.map (fun s => (s.destination, s.scheduled, s.operatorName)))
      = some [(c2rec.dest_text, c2rec.std, c2rec.operator_name)]) := by
  constructor
  · decide
  · decide

/-! ## Stripping and line-splitting tooling -/

lemma mem_dropWhile_of_neg {p : Char → Bool} {c : Char} {l : List Char}
    (hm : c ∈ l) (hc : p c = false) : c ∈ l.dropWhile p := by
  induction l with
  | nil => cases hm
  | cons x xs ih =>
    rw [List.dropWhile_cons]
    by_cases hx : p x = true
    · simp only [hx, if_true]
      rcases List.mem_cons.mp hm with rfl | hm'
      · rw [hx] at hc
        cases hc
      · exact ih hm'
    · simp only [Bool.not_eq_true] at hx
      simp [hx, hm]

lemma pyStrip_mem {c : Char} {l : List Char} (hm : c ∈ l)
    (hc : isPySpace c = false) : c ∈ pyStrip l := by
  unfold pyStrip
  rw [List.mem_reverse]
  refine mem_dropWhile_of_neg ?_ hc
  rw [List.mem_reverse]
  exact mem_dropWhile_of_neg hm hc

lemma pyStrip_ne_nil_of_mem {c : Char} {l : List Char} (hm : c ∈ l)
    (hc : isPySpace c = false) : (pyStrip l).isEmpty = false := by
  rw [List.isEmpty_eq_false]
  exact List.ne_nil_of_mem (pyStrip_mem hm hc)

lemma pyStrip_eq_self (l : List Char) (h1 : headNotSpace l = true)
    (h2 : headNotSpace l.reverse = true) : pyStrip l = l := by
  unfold pyStrip
  have e1 : l.dropWhile isPySpace = l := by
    cases l with
    | nil => rfl
    | cons c cs =>
      simp only [headNotSpace, Bool.not_eq_true'] at h1
      simp [List.dropWhile_cons, h1]
  rw [e1]
  have e2 : l.reverse.dropWhile isPySpace = l.reverse := by
    cases hr : l.reverse with
    | nil => rfl
    | cons c cs =>
      rw [hr] at h2
      simp only [headNotSpace, Bool.not_eq_true'] at h2
      simp [List.dropWhile_cons, h2]
  rw [e2, List.reverse_reverse]

lemma pyStrip_within (l : List Char) : pyStrip l <:+: l := by
  unfold pyStrip
  have h1 : l.dropWhile isPySpace <:+ l := List.dropWhile_suffix _
  have h2 : ((l.dropWhile isPySpace).reverse.dropWhile isPySpace).reverse
      <+: l.dropWhile isPySpace := by
    rw [← List.reverse_suffix, List.reverse_reverse]
    exact List.dropWhile_suffix _
  exact h2.isInfix.trans h1.isInfix

lemma pyStrip_cons_space (l : List Char) :
    pyStrip (' ' :: l) = pyStrip l := by
  unfold pyStrip
  simp [List.dropWhile_cons, isPySpace]

lemma pyStrip_append_nonspace_head (c : Char) (rest : List Char)
    (hc : isPySpace c = false) :
    pyStrip (c :: rest)
      = c :: (rest.reverse.dropWhile isPySpace).reverse := by
  unfold pyStrip
  rw [List.dropWhile_cons]
  simp only [hc, Bool.false_eq_true, if_false]
  rw [List.reverse_cons, List.dropWhile_append]
  by_cases hd : rest.reverse.dropWhile isPySpace = []
  · simp [hd, List.isEmpty_iff, List.dropWhile_cons, hc]
  · simp [hd, List.isEmpty_iff]

lemma splitOnChar_ne_nil (c : Char) (l : List Char) :
    splitOnChar c l ≠ [] := by
  cases l with
  | nil => simp [splitOnChar]
  | cons x xs =>
    unfold splitOnChar
    by_cases hx : x = c
    · simp [hx]
    · simp only [hx, if_false]
      cases splitOnChar c xs <;> simp

lemma splitOnChar_cons_ne (c x : Char) (xs : List Char) (hx : ¬ x = c) :
    splitOnChar c (x :: xs)
      = (x :: (splitOnChar c xs).headD []) :: (splitOnChar c xs).tail := by
  cases h : splitOnChar c xs with
  | nil => exact absurd h (splitOnChar_ne_nil c xs)
  | cons g gs =>
    unfold splitOnChar
    simp [hx, h]

lemma splitOnChar_first (c : Char) (xs ys : List Char)
    (h : ∀ a ∈ xs, ¬ a = c) :
    splitOnChar c (xs ++ c :: ys) = xs :: splitOnChar c ys := by
  induction xs with
  | nil => simp [splitOnChar]
  | cons x xs' ih =>
    have hx : ¬ x = c := h x (List.mem_cons_self _ _)
    rw [List.cons_append,
      splitOnChar_cons_ne c x _ hx,
      ih (fun a ha => h a (List.mem_cons_of_mem _ ha))]
    rfl

lemma splitOnChar_all (c : Char) (xs : List Char)
    (h : ∀ a ∈ xs, ¬ a = c) : splitOnChar c xs = [xs] := by
  induction xs with
  | nil => rfl
  | cons x xs' ih =>
    have hx : ¬ x = c := h x (List.mem_cons_self _ _)
    rw [splitOnChar_cons_ne c x _ hx,
      ih (fun a ha => h a (List.mem_cons_of_mem _ ha))]
    rfl

lemma splitOnChar_append (c : Char) (xs ys : List Char) :
    splitOnChar c (xs ++ ys)
      = glueSplit (splitOnChar c xs) (splitOnChar c ys) := by
  induction xs with
  | nil =>
    simp only [List.nil_append, splitOnChar]
    cases h : splitOnChar c ys with
    | nil => exact absurd h (splitOnChar_ne_nil c ys)
    | cons g gs => simp [glueSplit]
  | cons x xs' ih =>
    have cons_eq : ∀ l : List Char,
        splitOnChar c (c :: l) = [] :: splitOnChar c l := by
      intro l
      rw [splitOnChar]
      simp
    by_cases hx : x = c
    · subst hx
      rw [List.cons_append, cons_eq, ih, cons_eq]
      cases hA : splitOnChar x xs' with
      | nil => exact absurd hA (splitOnChar_ne_nil x xs')
      | cons g gs => rfl
    · rw [List.cons_append, splitOnChar_cons_ne c x _ hx, ih,
        splitOnChar_cons_ne c x _ hx]
      cases h : splitOnChar c xs' with
      | nil => exact absurd h (splitOnChar_ne_nil c xs')
      | cons g gs =>
        cases gs <;> cases h2 : splitOnChar c ys <;>
          simp [glueSplit, h2]

lemma glueSplit_nil_cons (as bs : List (List Char)) (hne : as ≠ []) :
    glueSplit as ([] :: bs) = as ++ bs := by
  induction as with
  | nil => exact absurd rfl hne
  | cons a as' ih =>
    cases as' with
    | nil => simp [glueSplit]
    | cons a2 as'' =>
      rw [List.cons_append, ← ih (by simp)]
      rfl

lemma splitOnChar_chunk (c : Char) (chunk rest : List Char) :
    splitOnChar c (chunk ++ c :: rest)
      = splitOnChar c chunk ++ splitOnChar c rest := by
  rw [splitOnChar_append]
  have : splitOnChar c (c :: rest) = [] :: splitOnChar c rest := by
    rw [splitOnChar]
    simp
  rw [this, glueSplit_nil_cons _ _ (splitOnChar_ne_nil c chunk)]

/-! ## Dash-run splitting tooling -/

lemma splitDashRunsGo_ne_nil (fuel : Nat) (l : List Char) :
    splitDashRunsGo fuel l ≠ [] := by
  cases fuel with
  | zero => cases l <;> simp [splitDashRunsGo]
  | succ f =>
    cases l with
    | nil => simp [splitDashRunsGo]
    | cons c rest =>
      unfold splitDashRunsGo
      by_cases hc : c = '-'
      · simp only [hc, eq_self_iff_true, if_true]
        split_ifs
        · simp
        · cases h : splitDashRunsGo f
            (rest.drop (rest.takeWhile (fun d => d = '-')).length) <;>
            simp [h]
      · simp only [hc, if_false]
        cases h : splitDashRunsGo f rest <;> simp [h]

lemma splitDashRunsGo_fuel (f1 : Nat) :
    ∀ (l : List Char) (f2 : Nat), l.length ≤ f1 → l.length ≤ f2 →
      splitDashRunsGo f1 l = splitDashRunsGo f2 l := by
  induction f1 with
  | zero =>
    intro l f2 h1 _
    have : l = [] := List.length_eq_zero.mp (by omega)
    subst this
    cases f2 <;> rfl
  | succ f1' ih =>
    intro l f2 h1 h2
    cases l with
    | nil => cases f2 <;> rfl
    | cons c rest =>
      cases f2 with
      | zero => simp at h2
      | succ f2' =>
        have hr1 : rest.length ≤ f1' := by
          simp only [List.length_cons] at h1
          omega
        have hr2 : rest.length ≤ f2' := by
          simp only [List.length_cons] at h2
          omega
        unfold splitDashRunsGo
        by_cases hc : c = '-'
        · simp only [hc, eq_self_iff_true, if_true]
          have hlen : (rest.drop
              (rest.takeWhile (fun d => d = '-')).length).length ≤ rest.length := by
            simp [List.length_drop]
          rw [ih (rest.drop (rest.takeWhile (fun d => d = '-')).length) f2'
            (by omega) (by omega)]
        · simp only [hc, if_false]
          rw [ih rest f2' hr1 hr2]

lemma takeWhile_replicate_dash (n : Nat) (ys : List Char)
    (hy : headNotDash ys = true) :
    (List.replicate n '-' ++ ys).takeWhile (fun d => d = '-')
      = List.replicate n '-' := by
  induction n with
  | zero =>
    cases ys with
    | nil => rfl
    | cons c cs =>
      simp only [headNotDash, Bool.not_eq_true'] at hy
      simp [List.takeWhile_cons, hy]
  | succ n' ih =>
    rw [List.replicate_succ, List.cons_append, List.takeWhile_cons]
    simp [ih]

lemma splitDashRuns_eq_go (l : List Char) :
    splitDashRuns l = splitDashRunsGo l.length l := rfl

lemma go_succ_cons_ne (f : Nat) (c : Char) (rest : List Char)
    (hc : ¬ c = '-') :
    splitDashRunsGo (f + 1) (c :: rest)
      = (match splitDashRunsGo f rest with
         | [] => [[c]]
         | g :: gs => (c :: g) :: gs) := by
  conv_lhs => rw [splitDashRunsGo]
  simp [hc]

lemma go_fuel_eq_length (f : Nat) (l : List Char) (h : l.length ≤ f) :
    splitDashRunsGo f l = splitDashRuns l :=
  splitDashRunsGo_fuel f l l.length h (le_refl _)

lemma splitDashRuns_sep (k : Nat) (ys : List Char) (hk : 3 ≤ k)
    (hy : headNotDash ys = true) :
    splitDashRuns (List.replicate k '-' ++ ys) = [] :: splitDashRuns ys := by
  obtain ⟨k', rfl⟩ : ∃ k', k = k' + 1 := ⟨k - 1, by omega⟩
  have htw := takeWhile_replicate_dash k' ys hy
  have hstep : splitDashRunsGo ((k' + ys.length) + 1)
      ('-' :: (List.replicate k' '-' ++ ys))
      = [] :: splitDashRunsGo (k' + ys.length) ys := by
    conv_lhs => rw [splitDashRunsGo]
    simp only [eq_self_iff_true, if_true, htw, List.length_replicate]
    rw [if_pos (by omega), List.drop_left' (by simp)]
  have hlen : (List.replicate (k' + 1) '-' ++ ys).length
      = (k' + ys.length) + 1 := by
    simp
    omega
  rw [splitDashRuns_eq_go, hlen, List.replicate_succ, List.cons_append,
    hstep, go_fuel_eq_length _ _ (by omega)]

lemma splitDashRuns_front (xs : List Char)
    (hxs : ∀ c ∈ xs, ¬ c = '-') :
    ∀ ys : List Char,
      splitDashRuns (xs ++ ys) = consListHead xs (splitDashRuns ys) := by
  induction xs with
  | nil =>
    intro ys
    cases h : splitDashRuns ys with
    | nil => exact absurd h (splitDashRunsGo_ne_nil _ _)
    | cons g gs =>
      rw [List.nil_append, h]
      simp [consListHead]
  | cons x xs' ih =>
    intro ys
    have hx : ¬ x = '-' := hxs x (List.mem_cons_self _ _)
    have ih' := ih (fun c hc => hxs c (List.mem_cons_of_mem _ hc)) ys
    have hlen : ((x :: xs') ++ ys).length = (xs' ++ ys).length + 1 := by simp
    rw [splitDashRuns_eq_go, hlen, List.cons_append, go_succ_cons_ne _ _ _ hx,
      ← splitDashRuns_eq_go, ih']
    cases h : splitDashRuns ys with
    | nil => exact absurd h (splitDashRunsGo_ne_nil _ _)
    | cons g gs => simp [consListHead]

lemma splitDashRuns_all (xs : List Char) (hxs : ∀ c ∈ xs, ¬ c = '-') :
    splitDashRuns xs = [xs] := by
  have := splitDashRuns_front xs hxs []
  rw [List.append_nil] at this
  rw [this]
  simp [splitDashRuns, splitDashRunsGo, consListHead]

lemma splitDashRuns_dash1 (ys : List Char) (hy : headNotDash ys = true) :
    splitDashRuns ('-' :: ys) = consListHead ['-'] (splitDashRuns ys) := by
  have htw : ys.takeWhile (fun d => d = '-') = [] := by
    cases ys with
    | nil => rfl
    | cons c cs =>
      simp only [headNotDash, Bool.not_eq_true'] at hy
      simp [List.takeWhile_cons, hy]
  have hstep : splitDashRunsGo (ys.length + 1) ('-' :: ys)
      = (match splitDashRunsGo ys.length ys with
         | [] => [List.replicate 1 '-']
         | g :: gs => (List.replicate 1 '-' ++ g) :: gs) := by
    conv_lhs => rw [splitDashRunsGo]
    simp only [eq_self_iff_true, if_true, htw, List.length_nil,
      List.drop_zero]
    rw [if_neg (by omega)]
  rw [splitDashRuns_eq_go, List.length_cons, hstep, ← splitDashRuns_eq_go]
  cases h : splitDashRuns ys with
  | nil => exact absurd h (splitDashRunsGo_ne_nil _ _)
  | cons g gs => simp [consListHead, List.replicate]

/-! ## Character facts about rendered numbers and delay messages -/

lemma natDigitChar_mod_isDigit (n : Nat) :
    (Nat.digitChar (n % 10)).isDigit = true := by
  have h : n % 10 < 10 := Nat.mod_lt _ (by omega)
  set k := n % 10 with hk
  interval_cases k <;> decide

lemma toDigitsCore_all_digit (fuel : Nat) :
    ∀ (n : Nat) (ds : List Char), (∀ c ∈ ds, c.isDigit = true) →
      ∀ c ∈ Nat.toDigitsCore 10 fuel n ds, c.isDigit = true := by
  induction fuel with
  | zero =>
    intro n ds hds
    simpa [Nat.toDigitsCore] using hds
  | succ f ih =>
    intro n ds hds
    have hd : ∀ c ∈ Nat.digitChar (n % 10) :: ds, c.isDigit = true := by
      intro c hc
      rcases List.mem_cons.mp hc with rfl | hc'
      · exact natDigitChar_mod_isDigit n
      · exact hds c hc'
    unfold Nat.toDigitsCore
    by_cases hz : n / 10 = 0
    · simpa [hz] using hd
    · simpa [hz] using ih (n / 10) _ hd

lemma toDigitsCore_ne_nil_of_ds (fuel : Nat) :
    ∀ (n : Nat) (ds : List Char), ds ≠ [] →
      Nat.toDigitsCore 10 fuel n ds ≠ [] := by
  induction fuel with
  | zero =>
    intro n ds hds
    simpa [Nat.toDigitsCore] using hds
  | succ f ih =>
    intro n ds hds
    unfold Nat.toDigitsCore
    by_cases hz : n / 10 = 0
    · simp [hz]
    · simpa [hz] using ih (n / 10) _ (by simp)

lemma natRepr_all_digit (n : Nat) :
    ∀ c ∈ (toString n).data, c.isDigit = true := by
  intro c hc
  exact toDigitsCore_all_digit (n + 1) n [] (by simp) c hc

lemma natRepr_ne_nil (n : Nat) : (toString n).data ≠ [] := by
  show Nat.toDigitsCore 10 (n + 1) n [] ≠ []
  unfold Nat.toDigitsCore
  by_cases hz : n / 10 = 0
  · simp [hz]
  · simpa [hz] using toDigitsCore_ne_nil_of_ds n (n / 10) _ (by simp)

lemma isDigit_ne (c : Char) (h : c.isDigit = true) (d : Char)
    (hd : d.isDigit = false) : ¬ c = d := by
  intro hc
  subst hc
  rw [h] at hd
  cases hd

lemma isDigit_not_space (c : Char) (h : c.isDigit = true) :
    isPySpace c = false := by
  by_contra hcon
  rw [Bool.not_eq_false] at hcon
  simp only [isPySpace, Bool.or_eq_true, decide_eq_true_eq] at hcon
  rcases hcon with ((((hc | hc) | hc) | hc) | hc) | hc <;>
    (subst hc; exact absurd h (by decide))

lemma headNotSpace_append_left (l1 l2 : List Char) (h : l1 ≠ []) :
    headNotSpace (l1 ++ l2) = headNotSpace l1 := by
  cases l1 with
  | nil => exact absurd rfl h
  | cons c cs => rfl

lemma headNotSpace_of_digits (l1 l2 : List Char) (h : l1 ≠ [])
    (hd : ∀ c ∈ l1, c.isDigit = true) :
    headNotSpace (l1 ++ l2) = true := by
  cases l1 with
  | nil => exact absurd rfl h
  | cons c cs =>
    show (!isPySpace c) = true
    rw [isDigit_not_space c (hd c (List.mem_cons_self _ _))]
    rfl

lemma delayMsg_abs_props (k : Nat) (suffix : List Char)
    (hsuf : suffix.all (fun c => !(c = '\n') && !(c = 'D')) = true)
    (hrev : headNotSpace suffix.reverse = true) (hne : suffix ≠ []) :
    (((toString k).data ++ suffix).all
        (fun c => !(c = '\n') && !(c = 'D'))) = true ∧
    headNotSpace ((toString k).data ++ suffix) = true ∧
    headNotSpace ((toString k).data ++ suffix).reverse = true := by
  refine ⟨?_, ?_, ?_⟩
  · rw [List.all_append, hsuf, Bool.and_true]
    rw [List.all_eq_true]
    intro c hc
    have hd := natRepr_all_digit k c hc
    have n1 : ¬ c = '\n' := isDigit_ne c hd _ (by decide)
    have n2 : ¬ c = 'D' := isDigit_ne c hd _ (by decide)
    simp [n1, n2]
  · exact headNotSpace_of_digits _ _ (natRepr_ne_nil k) (natRepr_all_digit k)
  · rw [List.reverse_append, headNotSpace_append_left _ _
      (by simpa using hne)]
    exact hrev

lemma digitChar_isDigit (a : Nat) (ha : a ≤ 9) :
    (digitChar a).isDigit = true := by
  interval_cases a <;> decide

lemma digitChar_toUpper (a : Nat) (ha : a ≤ 9) :
    (digitChar a).toUpper = digitChar a := by
  interval_cases a <;> decide

lemma hhmm_data_eq (h m : Nat) :
    (hhmm h m).data = [digitChar (h / 10), digitChar (h % 10), ':',
      digitChar (m / 10), digitChar (m % 10)] := rfl

lemma hhmm_mem (h m : Nat) (hh : h < 24) (hm : m < 60) :
    ∀ c ∈ (hhmm h m).data, (∃ a, a ≤ 9 ∧ c = digitChar a) ∨ c = ':' := by
  obtain ⟨b1, b2, b3, b4⟩ := hhmm_digit_bounds h m hh hm
  intro c hc
  rw [hhmm_data_eq] at hc
  simp only [List.mem_cons, List.not_mem_nil, or_false] at hc
  rcases hc with rfl | rfl | rfl | rfl | rfl
  · exact Or.inl ⟨_, b1, rfl⟩
  · exact Or.inl ⟨_, b2, rfl⟩
  · exact Or.inr rfl
  · exact Or.inl ⟨_, b3, rfl⟩
  · exact Or.inl ⟨_, b4, rfl⟩

lemma hhmm_all_ne (h m : Nat) (hh : h < 24) (hm : m < 60) (d : Char)
    (hd1 : d.isDigit = false) (hd2 : ¬ (':' : Char) = d) :
    ∀ c ∈ (hhmm h m).data, ¬ c = d := by
  intro c hc
  rcases hhmm_mem h m hh hm c hc with ⟨a, ha, rfl⟩ | rfl
  · exact isDigit_ne _ (digitChar_isDigit a ha) _ hd1
  · exact hd2

lemma hhmm_upper_all_ne (h m : Nat) (hh : h < 24) (hm : m < 60) (d : Char)
    (hd1 : d.isDigit = false) (hd2 : ¬ (':' : Char) = d) :
    ∀ c ∈ upperAscii (hhmm h m).data, ¬ c = d := by
  intro c hc
  rw [upperAscii, List.mem_map] at hc
  obtain ⟨x, hx, rfl⟩ := hc
  rcases hhmm_mem h m hh hm x hx with ⟨a, ha, rfl⟩ | rfl
  · rw [digitChar_toUpper a ha]
    exact isDigit_ne _ (digitChar_isDigit a ha) _ hd1
  · have e : Char.toUpper ':' = ':' := by decide
    rw [e]
    exact hd2

lemma delayCalc_hhmm_cancelled (h m : Nat) (hh : h < 24) (hm : m < 60) :
    delayCalc (some (hhmm h m)) (some "Cancelled")
      = some (true, "Cancelled") := by
  have eOn : "On".data = 'O' :: "n".data := rfl
  have hOn : containsSub (hhmm h m).data "On".data = false := by
    rw [eOn]
    exact containsSub_eq_false_of_all_ne _ 'O' _
      (hhmm_all_ne h m hh hm 'O' (by decide) (by decide))
  have eCan : "CAN".data = 'C' :: "AN".data := rfl
  have hCan : containsSub (upperAscii (hhmm h m).data) "CAN".data = false := by
    rw [eCan]
    exact containsSub_eq_false_of_all_ne _ 'C' _
      (hhmm_upper_all_ne h m hh hm 'C' (by decide) (by decide))
  have d1 : pyTruthy (some "Cancelled") = true := by decide
  have d2 : firstCharNotTime (some "Cancelled") = true := by decide
  have d3 : containsSub "Cancelled".data "On".data = false := by decide
  have d4 : containsSub (upperAscii "Cancelled".data) "CAN".data = true := by
    decide
  unfold delayCalc
  simp only [Option.getD_some, pyTruthy_hhmm, firstCharNotTime_hhmm h m hh,
    d1, d2, d3, d4, hOn, hCan, Bool.not_true, Bool.and_false, Bool.and_true,
    Bool.or_true, Bool.or_false, Bool.false_or, Bool.true_and, Bool.true_or,
    Bool.false_and, Bool.or_self, if_true, Bool.false_eq_true, if_false]

lemma delayMsg_props (s e : Int) :
    ((delayMinutes s e).2.data.all
        (fun c => !(c = '\n') && !(c = 'D'))) = true ∧
    headNotSpace (delayMinutes s e).2.data = true ∧
    headNotSpace (delayMinutes s e).2.data.reverse = true := by
  simp only [delayMinutes]
  split_ifs with h1 h2 h3 h4
  · decide
  · exact delayMsg_abs_props (e - s).natAbs " mins early".data
      (by decide) (by decide) (by decide)
  · decide
  · exact delayMsg_abs_props (e - s).natAbs " mins late".data
      (by decide) (by decide) (by decide)
  · decide

/-! ## Newline-joined line streams -/

lemma splitOnChar_cons_sep (c : Char) (xs : List Char) :
    splitOnChar c (c :: xs) = [] :: splitOnChar c xs := by
  rw [splitOnChar]
  simp

lemma joinNl_append (a b : List (List Char)) :
    joinNl (a ++ b) = joinNl a ++ joinNl b := by
  simp [joinNl]

lemma joinNl_cons (l : List Char) (ls : List (List Char)) :
    joinNl (l :: ls) = l ++ '\n' :: joinNl ls := by
  simp [joinNl]

lemma splitOnChar_joinNl_append (ls : List (List Char)) (rest : List Char)
    (h : ∀ l ∈ ls, ∀ c ∈ l, ¬ c = '\n') :
    splitOnChar '\n' (joinNl ls ++ rest) = ls ++ splitOnChar '\n' rest := by
  induction ls with
  | nil => simp [joinNl]
  | cons l ls' ih =>
    rw [joinNl_cons, List.append_assoc, List.cons_append,
      splitOnChar_first '\n' l _ (h l (List.mem_cons_self _ _)),
      ih (fun x hx => h x (List.mem_cons_of_mem _ hx))]
    rfl

lemma splitOnChar_joinNl (ls : List (List Char))
    (h : ∀ l ∈ ls, ∀ c ∈ l, ¬ c = '\n') :
    splitOnChar '\n' (joinNl ls) = ls ++ [[]] := by
  have e := splitOnChar_joinNl_append ls [] h
  rw [List.append_nil] at e
  rw [e]
  rfl

lemma mapM_eq_map_of_some {α β : Type} (f : α → Option β) (g : α → β)
    (l : List α) (h : ∀ a ∈ l, f a = some (g a)) :
    l.mapM f = some (l.map g) := by
  induction l with
  | nil => rfl
  | cons a l' ih =>
    rw [List.mapM_cons, h a (List.mem_cons_self _ _),
      ih (fun x hx => h x (List.mem_cons_of_mem _ hx))]
    rfl

/-! ## Substring occurrence across separators and padding runs -/

lemma containsSub_cons_of_avoid (c0 : Char) (p0 : Char) (ps : List Char)
    (hp : ∀ c ∈ p0 :: ps, ¬ c = c0) (x : List Char) :
    containsSub (c0 :: x) (p0 :: ps) = containsSub x (p0 :: ps) := by
  have := containsSub_sep_split c0 (p0 :: ps) (by simp) hp [] x
  rw [List.nil_append] at this
  rw [this]
  have hnil : containsSub [] (p0 :: ps) = false := rfl
  rw [hnil, Bool.false_or]

lemma containsSub_drop_reps (c0 : Char) (p0 : Char) (ps : List Char)
    (hp : ∀ c ∈ p0 :: ps, ¬ c = c0) :
    ∀ (j : Nat) (b : List Char),
      containsSub (List.replicate j c0 ++ b) (p0 :: ps)
        = containsSub b (p0 :: ps) := by
  intro j
  induction j with
  | zero => intro b; rfl
  | succ j' ih =>
    intro b
    rw [List.replicate_succ, List.cons_append,
      containsSub_cons_of_avoid c0 p0 ps hp, ih]

lemma containsSub_around_rep (c0 : Char) (p0 : Char) (ps : List Char)
    (hp : ∀ c ∈ p0 :: ps, ¬ c = c0) (a : List Char) (k : Nat) (hk : 1 ≤ k)
    (b : List Char) :
    containsSub (a ++ (List.replicate k c0 ++ b)) (p0 :: ps)
      = (containsSub a (p0 :: ps) || containsSub b (p0 :: ps)) := by
  obtain ⟨k', rfl⟩ : ∃ k', k = k' + 1 := ⟨k - 1, by omega⟩
  rw [List.replicate_succ, List.cons_append,
    containsSub_sep_split c0 (p0 :: ps) (by simp) hp a _,
    containsSub_drop_reps c0 p0 ps hp]

/-! ## Right stripping past a non-space block -/

lemma pyStripRight_append (a t : List Char) (ha : headNotSpace a.reverse = true) :
    ((a ++ t).reverse.dropWhile isPySpace).reverse
      = a ++ (t.reverse.dropWhile isPySpace).reverse := by
  rw [List.reverse_append, List.dropWhile_append]
  by_cases hd : (t.reverse.dropWhile isPySpace).isEmpty = true
  · simp only [hd, if_true]
    rw [List.isEmpty_iff] at hd
    rw [hd]
    have e2 : a.reverse.dropWhile isPySpace = a.reverse := by
      cases hr : a.reverse with
      | nil => rfl
      | cons c cs =>
        rw [hr] at ha
        simp only [headNotSpace, Bool.not_eq_true'] at ha
        simp [List.dropWhile_cons, ha]
    rw [e2, List.reverse_reverse, List.reverse_nil, List.append_nil]
  · simp only [hd, Bool.false_eq_true, if_false]
    rw [List.reverse_append, List.reverse_reverse]

lemma pyStrip_gt3 (t : List Char) :
    pyStrip (['>', '>', '>'] ++ t)
      = ['>', '>', '>'] ++ (t.reverse.dropWhile isPySpace).reverse := by
  unfold pyStrip
  have e1 : (['>', '>', '>'] ++ t).dropWhile isPySpace
      = ['>', '>', '>'] ++ t := by
    simp [List.dropWhile_cons, isPySpace]
  rw [e1, pyStripRight_append _ _ (by decide)]

/-! ## Field side conditions unpacked -/

lemma headNotSpace_ne_nil (l : List Char) (h : headNotSpace l = true) :
    l ≠ [] := by
  cases l with
  | nil => cases h
  | cons c cs => simp

lemma safeField_parts (s : String) (h : safeField s = true) :
    headNotSpace s.data = true ∧ headNotSpace s.data.reverse = true ∧
    (∀ c ∈ s.data, ¬ c = '-') ∧ (∀ c ∈ s.data, ¬ c = ',') ∧
    (∀ c ∈ s.data, ¬ c = '\n') ∧ (∀ c ∈ s.data, ¬ c = '>') ∧
    containsSub s.data "Status".data = false ∧
    containsSub s.data "Destination".data = false := by
  simp only [safeField, Bool.and_eq_true, Bool.not_eq_true'] at h
  obtain ⟨⟨⟨⟨h1, h2⟩, h3⟩, h4⟩, h5⟩ := h
  rw [List.all_eq_true] at h3
  refine ⟨h1, h2, ?_, ?_, ?_, ?_, h4, h5⟩ <;>
    · intro c hc
      have hp := h3 c hc
      simp only [Bool.not_eq_true', Bool.or_eq_false_iff,
        decide_eq_false_iff_not] at hp
      tauto

lemma cpOk_parts (s : String) (h : cpOk s = true) :
    (∀ c ∈ s.data, ¬ c = '\n') ∧
    containsSub s.data "Status".data = false ∧
    containsSub s.data "Destination".data = false := by
  simp only [cpOk, Bool.and_eq_true, Bool.not_eq_true'] at h
  obtain ⟨⟨h1, h2⟩, h3⟩ := h
  rw [List.all_eq_true] at h1
  refine ⟨?_, h2, h3⟩
  intro c hc
  have hp := h1 c hc
  simpa using hp

lemma hhmm_headNotSpace (h m : Nat) (hh : h < 24) :
    headNotSpace (hhmm h m).data = true := by
  rw [hhmm_data_eq]
  show (!isPySpace (digitChar (h / 10))) = true
  rw [isDigit_not_space _ (digitChar_isDigit _ (by omega))]
  rfl

lemma hhmm_rev (h m : Nat) :
    (hhmm h m).data.reverse = [digitChar (m % 10), digitChar (m / 10), ':',
      digitChar (h % 10), digitChar (h / 10)] := by
  rw [hhmm_data_eq]
  rfl

lemma hhmm_rev_headNotSpace (h m : Nat) (hm : m < 60) :
    headNotSpace (hhmm h m).data.reverse = true := by
  rw [hhmm_rev]
  show (!isPySpace (digitChar (m % 10))) = true
  rw [isDigit_not_space _ (digitChar_isDigit _ (by omega))]
  rfl

lemma hhmm_pyStrip (h m : Nat) (hh : h < 24) (hm : m < 60) :
    pyStrip (hhmm h m).data = (hhmm h m).data :=
  pyStrip_eq_self _ (hhmm_headNotSpace h m hh) (hhmm_rev_headNotSpace h m hm)

lemma hhmm_ne_nil (h m : Nat) : (hhmm h m).data ≠ [] := by
  rw [hhmm_data_eq]
  simp

lemma hhmm_length (h m : Nat) : (hhmm h m).data.length = 5 := by
  rw [hhmm_data_eq]
  rfl

lemma hhmm_no_dash (h m : Nat) (hh : h < 24) (hm : m < 60) :
    ∀ c ∈ (hhmm h m).data, ¬ c = '-' :=
  hhmm_all_ne h m hh hm '-' (by decide) (by decide)

lemma hhmm_no_comma (h m : Nat) (hh : h < 24) (hm : m < 60) :
    ∀ c ∈ (hhmm h m).data, ¬ c = ',' :=
  hhmm_all_ne h m hh hm ',' (by decide) (by decide)

lemma hhmm_no_nl (h m : Nat) (hh : h < 24) (hm : m < 60) :
    ∀ c ∈ (hhmm h m).data, ¬ c = '\n' :=
  hhmm_all_ne h m hh hm '\n' (by decide) (by decide)

lemma hhmm_no_gt (h m : Nat) (hh : h < 24) (hm : m < 60) :
    ∀ c ∈ (hhmm h m).data, ¬ c = '>' :=
  hhmm_all_ne h m hh hm '>' (by decide) (by decide)

lemma hhmm_no_status (h m : Nat) (hh : h < 24) (hm : m < 60) :
    containsSub (hhmm h m).data "Status".data = false := by
  have e : "Status".data = 'S' :: "tatus".data := rfl
  rw [e]
  exact containsSub_eq_false_of_all_ne _ 'S' _
    (hhmm_all_ne h m hh hm 'S' (by decide) (by decide))

lemma hhmm_no_destination (h m : Nat) (hh : h < 24) (hm : m < 60) :
    containsSub (hhmm h m).data "Destination".data = false := by
  have e : "Destination".data = 'D' :: "estination".data := rfl
  rw [e]
  exact containsSub_eq_false_of_all_ne _ 'D' _
    (hhmm_all_ne h m hh hm 'D' (by decide) (by decide))

/-! ## The formatted service row -/

lemma string_data_append (a b : String) : (a ++ b).data = a.data ++ b.data :=
  rfl

lemma take_pad (f : List Char) (c : Char) (n N : Nat) (hf : f.length ≤ n)
    (hN : n - f.length ≤ N) :
    (f ++ List.replicate N c).take n
      = f ++ List.replicate (n - f.length) c := by
  rw [List.take_append_eq_append_take, List.take_of_length_le hf,
    List.take_replicate, min_eq_left hN]

lemma containsSub_row (p0 : Char) (ps : List Char)
    (hc : ∀ c ∈ p0 :: ps, ¬ c = ',') (hn : ∀ c ∈ p0 :: ps, ¬ c = '\n')
    (f0 f1 f2 f3 f4 : List Char) :
    containsSub
        ('\n' :: (f0 ++ ',' :: (f1 ++ ',' :: (f2 ++ ',' :: (f3 ++ ',' :: f4)))))
        (p0 :: ps)
      = (containsSub f0 (p0 :: ps) || (containsSub f1 (p0 :: ps)
          || (containsSub f2 (p0 :: ps) || (containsSub f3 (p0 :: ps)
          || containsSub f4 (p0 :: ps))))) := by
  rw [containsSub_cons_of_avoid '\n' p0 ps hn,
    containsSub_sep_split ',' _ (by simp) hc f0,
    containsSub_sep_split ',' _ (by simp) hc f1,
    containsSub_sep_split ',' _ (by simp) hc f2,
    containsSub_sep_split ',' _ (by simp) hc f3]

lemma splitOnChar_row (f0 f1 f2 f3 f4 : List Char)
    (h0 : ∀ c ∈ f0, ¬ c = ',') (h1 : ∀ c ∈ f1, ¬ c = ',')
    (h2 : ∀ c ∈ f2, ¬ c = ',') (h3 : ∀ c ∈ f3, ¬ c = ',')
    (h4 : ∀ c ∈ f4, ¬ c = ',') :
    splitOnChar ','
        ('\n' :: (f0 ++ ',' :: (f1 ++ ',' :: (f2 ++ ',' :: (f3 ++ ',' :: f4)))))
      = [('\n' :: f0), f1, f2, f3, f4] := by
  have h0' : ∀ c ∈ '\n' :: f0, ¬ c = ',' := by
    intro c hcm
    rcases List.mem_cons.mp hcm with rfl | hcm'
    · decide
    · exact h0 c hcm'
  rw [← List.cons_append,
    splitOnChar_first ',' ('\n' :: f0) _ h0',
    splitOnChar_first ',' f1 _ h1,
    splitOnChar_first ',' f2 _ h2,
    splitOnChar_first ',' f3 _ h3,
    splitOnChar_all ',' f4 h4]

lemma processBoardLine_row (f0 f1 f2 f3 f4 : List Char)
    (h0 : ∀ c ∈ f0, ¬ c = ',') (h1 : ∀ c ∈ f1, ¬ c = ',')
    (h2 : ∀ c ∈ f2, ¬ c = ',') (h3 : ∀ c ∈ f3, ¬ c = ',')
    (h4 : ∀ c ∈ f4, ¬ c = ',')
    (hst : containsSub
        ('\n' :: (f0 ++ ',' :: (f1 ++ ',' :: (f2 ++ ',' :: (f3 ++ ',' :: f4)))))
        "Status".data = false)
    (hgt : containsSub
        ('\n' :: (f0 ++ ',' :: (f1 ++ ',' :: (f2 ++ ',' :: (f3 ++ ',' :: f4)))))
        ">>>".data = false) :
    processBoardLine (String.mk
        ('\n' :: (f0 ++ ',' :: (f1 ++ ',' :: (f2 ++ ',' :: (f3 ++ ',' :: f4))))))
      = String.mk ('\n' :: ((f0 ++ List.replicate 50 '-').take 24
          ++ ((f1 ++ List.replicate 10 '-').take 5
          ++ ' ' :: ((f2 ++ List.replicate 10 '-').take 10
          ++ ((f3 ++ List.replicate 10 '-').take 10 ++ f4))))) := by
  unfold processBoardLine
  have hpc : pyContains (String.mk
      ('\n' :: (f0 ++ ',' :: (f1 ++ ',' :: (f2 ++ ',' :: (f3 ++ ',' :: f4))))))
      "Status" = false := hst
  have hpg : pyContains (String.mk
      ('\n' :: (f0 ++ ',' :: (f1 ++ ',' :: (f2 ++ ',' :: (f3 ++ ',' :: f4))))))
      ">>>" = false := hgt
  rw [hpc, hpg]
  simp only [Bool.not_false, if_true, Bool.false_eq_true, if_false]
  rw [splitOnChar_row f0 f1 f2 f3 f4 h0 h1 h2 h3 h4]
  rw [if_pos (by simp)]
  have e25 : (('\n' :: f0) ++ List.replicate 50 '-').take 25
      = '\n' :: (f0 ++ List.replicate 50 '-').take 24 := by
    rw [List.cons_append]
    rfl
  simp only [List.getD_cons_zero, List.getD_cons_succ]
  rw [e25]
  simp [List.append_assoc]

/-! ## Dash-run splits of the three row shapes -/

lemma headNotDash_of_all (l : List Char) (hl : ∀ c ∈ l, ¬ c = '-') :
    headNotDash l = true := by
  cases l with
  | nil => rfl
  | cons c cs =>
    show (!(c = '-' : Bool)) = true
    simp [hl c (List.mem_cons_self _ _)]

lemma headNotDash_of_no_dash (l rest : List Char)
    (hl : ∀ c ∈ l, ¬ c = '-') (hne : l ≠ []) :
    headNotDash (l ++ rest) = true := by
  cases l with
  | nil => exact absurd rfl hne
  | cons c cs =>
    show (!(c = '-' : Bool)) = true
    simp [hl c (List.mem_cons_self _ _)]

lemma headNotSpace_rev_append (A B : List Char) (h : B ≠ []) :
    headNotSpace (A ++ B).reverse = headNotSpace B.reverse := by
  rw [List.reverse_append, headNotSpace_append_left _ _ (by simpa using h)]

lemma no_status_colon (l : List Char)
    (h : containsSub l "Status".data = false) :
    containsSub l "Status:".data = false := by
  cases hc : containsSub l "Status:".data
  · rfl
  · exfalso
    have e : "Status:".data = "Status".data ++ ":".data := rfl
    rw [e] at hc
    have := containsSub_pattern_prefix l "Status".data ":".data hc
    rw [h] at this
    cases this

lemma splitDashRuns_rowA (d p s e o : List Char) (k1 k2 : Nat)
    (hk1 : 3 ≤ k1) (hk2 : 3 ≤ k2)
    (hd : ∀ c ∈ d, ¬ c = '-') (hp : ∀ c ∈ p, ¬ c = '-')
    (hs : ∀ c ∈ s, ¬ c = '-') (he : ∀ c ∈ e, ¬ c = '-')
    (ho : ∀ c ∈ o, ¬ c = '-')
    (hpne : p ≠ []) (hene : e ≠ []) :
    splitDashRuns (d ++ (List.replicate k1 '-' ++ (p ++ (List.replicate k2 '-'
        ++ ' ' :: (s ++ (List.replicate 5 '-'
        ++ (e ++ (List.replicate 5 '-' ++ o))))))))
      = [d, p, ' ' :: s, e, o] := by
  rw [splitDashRuns_front d hd,
    splitDashRuns_sep k1 _ hk1 (headNotDash_of_no_dash p _ hp hpne),
    splitDashRuns_front p hp,
    splitDashRuns_sep k2 (' ' :: (s ++ (List.replicate 5 '-'
      ++ (e ++ (List.replicate 5 '-' ++ o))))) hk2 rfl,
    show (' ' :: (s ++ (List.replicate 5 '-'
        ++ (e ++ (List.replicate 5 '-' ++ o)))))
      = (' ' :: s) ++ (List.replicate 5 '-'
        ++ (e ++ (List.replicate 5 '-' ++ o))) from rfl,
    splitDashRuns_front (' ' :: s)
      (by intro c hc
          rcases List.mem_cons.mp hc with rfl | hc'
          · decide
          · exact hs c hc'),
    splitDashRuns_sep 5 _ (by omega) (headNotDash_of_no_dash e _ he hene),
    splitDashRuns_front e he,
    splitDashRuns_sep 5 _ (by omega) (headNotDash_of_all o ho),
    splitDashRuns_all o ho]
  simp [consListHead]

lemma splitDashRuns_rowB (d s e o : List Char) (k : Nat) (hk : 3 ≤ k)
    (hd : ∀ c ∈ d, ¬ c = '-') (hs : ∀ c ∈ s, ¬ c = '-')
    (he : ∀ c ∈ e, ¬ c = '-') (ho : ∀ c ∈ o, ¬ c = '-')
    (hene : e ≠ []) :
    splitDashRuns (d ++ (List.replicate k '-' ++ (' ' :: (s
        ++ (List.replicate 5 '-' ++ (e ++ (List.replicate 5 '-' ++ o)))))))
      = [d, ' ' :: s, e, o] := by
  rw [splitDashRuns_front d hd,
    splitDashRuns_sep k (' ' :: (s ++ (List.replicate 5 '-'
      ++ (e ++ (List.replicate 5 '-' ++ o))))) hk rfl,
    show (' ' :: (s ++ (List.replicate 5 '-'
        ++ (e ++ (List.replicate 5 '-' ++ o)))))
      = (' ' :: s) ++ (List.replicate 5 '-'
        ++ (e ++ (List.replicate 5 '-' ++ o))) from rfl,
    splitDashRuns_front (' ' :: s)
      (by intro c hc
          rcases List.mem_cons.mp hc with rfl | hc'
          · decide
          · exact hs c hc'),
    splitDashRuns_sep 5 _ (by omega) (headNotDash_of_no_dash e _ he hene),
    splitDashRuns_front e he,
    splitDashRuns_sep 5 _ (by omega) (headNotDash_of_all o ho),
    splitDashRuns_all o ho]
  simp [consListHead]

lemma splitDashRuns_rowC (d s e o : List Char) (k : Nat) (hk : 3 ≤ k)
    (hd : ∀ c ∈ d, ¬ c = '-') (hs : ∀ c ∈ s, ¬ c = '-')
    (he : ∀ c ∈ e, ¬ c = '-') (ho : ∀ c ∈ o, ¬ c = '-')
    (hene : e ≠ []) :
    splitDashRuns (d ++ (List.replicate k '-' ++ (' ' :: (s
        ++ (List.replicate 5 '-' ++ (e ++ '-' :: o))))))
      = [d, ' ' :: s, e ++ '-' :: o] := by
  rw [splitDashRuns_front d hd,
    splitDashRuns_sep k (' ' :: (s ++ (List.replicate 5 '-'
      ++ (e ++ '-' :: o)))) hk rfl,
    show (' ' :: (s ++ (List.replicate 5 '-' ++ (e ++ '-' :: o))))
      = (' ' :: s) ++ (List.replicate 5 '-' ++ (e ++ '-' :: o)) from rfl,
    splitDashRuns_front (' ' :: s)
      (by intro c hc
          rcases List.mem_cons.mp hc with rfl | hc'
          · decide
          · exact hs c hc'),
    splitDashRuns_sep 5 _ (by omega) (headNotDash_of_no_dash e _ he hene),
    splitDashRuns_front e he,
    splitDashRuns_dash1 o (headNotDash_of_all o ho),
    splitDashRuns_all o ho]
  simp [consListHead]

/-! ## Accepting a formatted service row -/

lemma ne_nil_right (A B : List Char) (h : B ≠ []) : A ++ B ≠ [] :=
  fun hc => h (List.append_eq_nil.mp hc).2

lemma ne_nil_left (A B : List Char) (h : A ≠ []) : A ++ B ≠ [] :=
  fun hc => h (List.append_eq_nil.mp hc).1

lemma suffix_extend {T X : List Char} (A : List Char) (h : T <:+ X) :
    T <:+ A ++ X :=
  h.trans (List.suffix_append A X)

lemma headNotSpace_rev_of_suffix (l B : List Char) (h : B ≠ [])
    (hs : B <:+ l) (hB : headNotSpace B.reverse = true) :
    headNotSpace l.reverse = true := by
  obtain ⟨A, rfl⟩ := hs
  rw [headNotSpace_rev_append A B h]
  exact hB

lemma hhmm_isEmpty (h m : Nat) : (hhmm h m).data.isEmpty = false := by
  rw [hhmm_data_eq]
  rfl

lemma containsSub_dash3 (d rest : List Char) (k : Nat) (hk : 3 ≤ k) :
    containsSub (d ++ (List.replicate k '-' ++ rest)) "---".data = true := by
  have hsplit : List.replicate k '-'
      = "---".data ++ List.replicate (k - 3) '-' := by
    have e3 : "---".data = List.replicate 3 '-' := rfl
    rw [e3, ← List.replicate_add]
    congr 1
    omega
  exact (containsSub_iff _ _).mpr ⟨d, List.replicate (k - 3) '-' ++ rest,
    by rw [hsplit, List.append_assoc]⟩

lemma containsSub_rowA_decomp (p0 : Char) (ps : List Char)
    (hdash : ∀ c ∈ p0 :: ps, ¬ c = '-') (hsp : ∀ c ∈ p0 :: ps, ¬ c = ' ')
    (d p s e o : List Char) (k1 k2 : Nat) (hk1 : 1 ≤ k1) (hk2 : 1 ≤ k2) :
    containsSub (d ++ (List.replicate k1 '-' ++ (p ++ (List.replicate k2 '-'
        ++ ' ' :: (s ++ (List.replicate 5 '-'
        ++ (e ++ (List.replicate 5 '-' ++ o)))))))) (p0 :: ps)
      = (containsSub d (p0 :: ps) || (containsSub p (p0 :: ps)
          || (containsSub s (p0 :: ps) || (containsSub e (p0 :: ps)
          || containsSub o (p0 :: ps))))) := by
  rw [containsSub_around_rep '-' p0 ps hdash d k1 hk1,
    containsSub_around_rep '-' p0 ps hdash p k2 hk2,
    containsSub_cons_of_avoid ' ' p0 ps hsp,
    containsSub_around_rep '-' p0 ps hdash s 5 (by omega),
    containsSub_around_rep '-' p0 ps hdash e 5 (by omega)]

lemma containsSub_rowB_decomp (p0 : Char) (ps : List Char)
    (hdash : ∀ c ∈ p0 :: ps, ¬ c = '-') (hsp : ∀ c ∈ p0 :: ps, ¬ c = ' ')
    (d s e o : List Char) (k : Nat) (hk : 1 ≤ k) :
    containsSub (d ++ (List.replicate k '-' ++ (' ' :: (s
        ++ (List.replicate 5 '-' ++ (e ++ (List.replicate 5 '-' ++ o)))))))
        (p0 :: ps)
      = (containsSub d (p0 :: ps) || (containsSub s (p0 :: ps)
          || (containsSub e (p0 :: ps) || containsSub o (p0 :: ps)))) := by
  rw [containsSub_around_rep '-' p0 ps hdash d k hk,
    containsSub_cons_of_avoid ' ' p0 ps hsp,
    containsSub_around_rep '-' p0 ps hdash s 5 (by omega),
    containsSub_around_rep '-' p0 ps hdash e 5 (by omega)]

lemma containsSub_rowC_decomp (p0 : Char) (ps : List Char)
    (hdash : ∀ c ∈ p0 :: ps, ¬ c = '-') (hsp : ∀ c ∈ p0 :: ps, ¬ c = ' ')
    (d s e o : List Char) (k : Nat) (hk : 1 ≤ k) :
    containsSub (d ++ (List.replicate k '-' ++ (' ' :: (s
        ++ (List.replicate 5 '-' ++ (e ++ '-' :: o)))))) (p0 :: ps)
      = (containsSub d (p0 :: ps) || (containsSub s (p0 :: ps)
          || (containsSub e (p0 :: ps) || containsSub o (p0 :: ps)))) := by
  rw [containsSub_around_rep '-' p0 ps hdash d k hk,
    containsSub_cons_of_avoid ' ' p0 ps hsp,
    containsSub_around_rep '-' p0 ps hdash s 5 (by omega),
    containsSub_sep_split '-' (p0 :: ps) (by simp) hdash e o]

lemma parseStep_accept_A (r : ServiceRecord) (st : ParseState)
    (h1 m1 h2 m2 : Nat) (hh1 : h1 < 24) (hm1 : m1 < 60)
    (hh2 : h2 < 24) (hm2 : m2 < 60)
    (hdf : safeField r.dest_text = true) (hdl : r.dest_text.data.length ≤ 21)
    (hpf : safeField r.platform = true) (hpl : r.platform.data.length ≤ 2)
    (hof : safeField r.operator_name = true)
    (hstd : r.std = hhmm h1 m1) (hetd : r.etd = hhmm h2 m2) :
    parseStep st (String.mk (rowLineData r))
      = { services := mkService5 [r.dest_text.data, r.platform.data,
            r.std.data, r.etd.data, r.operator_name.data] :: st.services,
          hasCurrent := true, skipped := st.skipped } := by
  obtain ⟨hd1, hd2, hdDash, hdComma, hdNl, hdGt, hdSt, hdDe⟩ := safeField_parts _ hdf
  obtain ⟨hp1, hp2, hpDash, hpComma, hpNl, hpGt, hpSt, hpDe⟩ := safeField_parts _ hpf
  obtain ⟨ho1, ho2, hoDash, hoComma, hoNl, hoGt, hoSt, hoDe⟩ := safeField_parts _ hof
  have hdne : r.dest_text.data ≠ [] := headNotSpace_ne_nil _ hd1
  have hpne : r.platform.data ≠ [] := headNotSpace_ne_nil _ hp1
  have hone : r.operator_name.data ≠ [] := headNotSpace_ne_nil _ ho1
  have hrow : rowLineData r
      = r.dest_text.data ++ (List.replicate (24 - r.dest_text.data.length) '-'
        ++ (r.platform.data ++ (List.replicate (5 - r.platform.data.length) '-'
        ++ ' ' :: ((hhmm h1 m1).data ++ (List.replicate 5 '-'
        ++ ((hhmm h2 m2).data ++ (List.replicate 5 '-'
        ++ r.operator_name.data))))))) := by
    unfold rowLineData
    rw [hstd, hetd]
    have t1 : (r.dest_text.data ++ List.replicate 50 '-').take 24
        = r.dest_text.data ++ List.replicate (24 - r.dest_text.data.length) '-' :=
      take_pad _ '-' 24 50 (by omega) (by omega)
    have t2 : (r.platform.data ++ List.replicate 10 '-').take 5
        = r.platform.data ++ List.replicate (5 - r.platform.data.length) '-' :=
      take_pad _ '-' 5 10 (by omega) (by omega)
    have t3 : ((hhmm h1 m1).data ++ List.replicate 10 '-').take 10
        = (hhmm h1 m1).data ++ List.replicate 5 '-' := by
      rw [take_pad _ '-' 10 10 (by rw [hhmm_length]; omega) (by omega),
        hhmm_length]
    have t4 : ((hhmm h2 m2).data ++ List.replicate 10 '-').take 10
        = (hhmm h2 m2).data ++ List.replicate 5 '-' := by
      rw [take_pad _ '-' 10 10 (by rw [hhmm_length]; omega) (by omega),
        hhmm_length]
    simp only [t1, t2, t3, t4]
    simp only [List.append_assoc]
  have hsplit := splitDashRuns_rowA r.dest_text.data r.platform.data
    (hhmm h1 m1).data (hhmm h2 m2).data r.operator_name.data
    (24 - r.dest_text.data.length) (5 - r.platform.data.length)
    (by omega) (by omega) hdDash hpDash (hhmm_no_dash _ _ hh1 hm1)
    (hhmm_no_dash _ _ hh2 hm2) hoDash hpne (hhmm_ne_nil _ _)
  have hosuf : r.operator_name.data <:+ rowLineData r := by
    rw [hrow]
    exact suffix_extend r.dest_text.data
      (suffix_extend (List.replicate (24 - r.dest_text.data.length) '-')
        (suffix_extend r.platform.data
          (suffix_extend (List.replicate (5 - r.platform.data.length) '-')
            (suffix_extend [' ']
              (suffix_extend (hhmm h1 m1).data
                (suffix_extend (List.replicate 5 '-')
                  (suffix_extend (hhmm h2 m2).data
                    (List.suffix_append (List.replicate 5 '-')
                      r.operator_name.data))))))))
  have hstrip : pyStrip (rowLineData r) = rowLineData r := by
    apply pyStrip_eq_self
    · rw [hrow, headNotSpace_append_left _ _ hdne]
      exact hd1
    · exact headNotSpace_rev_of_suffix _ _ hone hosuf ho2
  have hDe : containsSub (rowLineData r) "Destination".data = false := by
    have e : "Destination".data = 'D' :: "estination".data := rfl
    rw [hrow, e, containsSub_rowA_decomp 'D' "estination".data (by decide)
      (by decide) _ _ _ _ _ _ _ (by omega) (by omega), ← e]
    rw [hdDe, hpDe, hhmm_no_destination _ _ hh1 hm1,
      hhmm_no_destination _ _ hh2 hm2, hoDe]
    rfl
  have hSt : containsSub (rowLineData r) "Status:".data = false := by
    have e : "Status:".data = 'S' :: "tatus:".data := rfl
    rw [hrow, e, containsSub_rowA_decomp 'S' "tatus:".data (by decide)
      (by decide) _ _ _ _ _ _ _ (by omega) (by omega), ← e]
    rw [no_status_colon _ hdSt, no_status_colon _ hpSt,
      no_status_colon _ (hhmm_no_status _ _ hh1 hm1),
      no_status_colon _ (hhmm_no_status _ _ hh2 hm2),
      no_status_colon _ hoSt]
    rfl
  have hGt : containsSub (rowLineData r) ">>>".data = false := by
    have e : ">>>".data = '>' :: ">>".data := rfl
    rw [hrow, e, containsSub_rowA_decomp '>' ">>".data (by decide)
      (by decide) _ _ _ _ _ _ _ (by omega) (by omega)]
    rw [containsSub_eq_false_of_all_ne _ '>' _ hdGt,
      containsSub_eq_false_of_all_ne _ '>' _ hpGt,
      containsSub_eq_false_of_all_ne _ '>' _ (hhmm_no_gt _ _ hh1 hm1),
      containsSub_eq_false_of_all_ne _ '>' _ (hhmm_no_gt _ _ hh2 hm2),
      containsSub_eq_false_of_all_ne _ '>' _ hoGt]
    rfl
  have hDash3 : containsSub (rowLineData r) "---".data = true := by
    rw [hrow]
    exact containsSub_dash3 _ _ _ (by omega)
  have hempty : (rowLineData r).isEmpty = false := by
    rw [hrow, List.isEmpty_eq_false]
    exact ne_nil_left _ _ hdne
  have eD : (hhmm h1 m1).data.isEmpty = false := hhmm_isEmpty _ _
  have eE : (hhmm h2 m2).data.isEmpty = false := hhmm_isEmpty _ _
  have edne : r.dest_text.data.isEmpty = false := List.isEmpty_eq_false.mpr hdne
  have epne : r.platform.data.isEmpty = false := List.isEmpty_eq_false.mpr hpne
  have eone : r.operator_name.data.isEmpty = false :=
    List.isEmpty_eq_false.mpr hone
  have hparts : serviceParts (rowLineData r)
      = [r.dest_text.data, r.platform.data, (hhmm h1 m1).data,
         (hhmm h2 m2).data, r.operator_name.data] := by
    unfold serviceParts
    rw [hrow, hsplit]
    simp only [List.map_cons, List.map_nil,
      pyStrip_eq_self _ hd1 hd2, pyStrip_eq_self _ hp1 hp2,
      pyStrip_cons_space, hhmm_pyStrip _ _ hh1 hm1, hhmm_pyStrip _ _ hh2 hm2,
      pyStrip_eq_self _ ho1 ho2]
    simp only [List.filter, eD, eE, edne, epne, eone, Bool.not_false]
  have hdata : (String.mk (rowLineData r)).data = rowLineData r := rfl
  simp only [parseStep, hdata, hstrip, hempty, hDe, hDash3, hSt, hGt, hparts,
    Bool.or_self, Bool.false_eq_true, if_false, Bool.not_false,
    Bool.and_true, Bool.true_and, Bool.and_self, if_true]
  rw [if_pos (by simp), hstd, hetd]

lemma parseStep_accept_B (r : ServiceRecord) (st : ParseState)
    (h1 m1 h2 m2 : Nat) (hh1 : h1 < 24) (hm1 : m1 < 60)
    (hh2 : h2 < 24) (hm2 : m2 < 60)
    (hdf : safeField r.dest_text = true) (hdl : r.dest_text.data.length ≤ 21)
    (hpe : r.platform = "") (hof : safeField r.operator_name = true)
    (hstd : r.std = hhmm h1 m1) (hetd : r.etd = hhmm h2 m2) :
    parseStep st (String.mk (rowLineData r))
      = { services := mkService4 [r.dest_text.data, r.std.data, r.etd.data,
            r.operator_name.data] :: st.services,
          hasCurrent := true, skipped := st.skipped } := by
  obtain ⟨hd1, hd2, hdDash, hdComma, hdNl, hdGt, hdSt, hdDe⟩ := safeField_parts _ hdf
  obtain ⟨ho1, ho2, hoDash, hoComma, hoNl, hoGt, hoSt, hoDe⟩ := safeField_parts _ hof
  have hdne : r.dest_text.data ≠ [] := headNotSpace_ne_nil _ hd1
  have hone : r.operator_name.data ≠ [] := headNotSpace_ne_nil _ ho1
  have hpd : r.platform.data = [] := by rw [hpe]
  have hrow : rowLineData r
      = r.dest_text.data ++ (List.replicate (29 - r.dest_text.data.length) '-'
        ++ ' ' :: ((hhmm h1 m1).data ++ (List.replicate 5 '-'
        ++ ((hhmm h2 m2).data ++ (List.replicate 5 '-'
        ++ r.operator_name.data))))) := by
    unfold rowLineData
    rw [hstd, hetd, hpd]
    have t1 : (r.dest_text.data ++ List.replicate 50 '-').take 24
        = r.dest_text.data ++ List.replicate (24 - r.dest_text.data.length) '-' :=
      take_pad _ '-' 24 50 (by omega) (by omega)
    have t2 : (([] : List Char) ++ List.replicate 10 '-').take 5
        = List.replicate 5 '-' := rfl
    have t3 : ((hhmm h1 m1).data ++ List.replicate 10 '-').take 10
        = (hhmm h1 m1).data ++ List.replicate 5 '-' := by
      rw [take_pad _ '-' 10 10 (by rw [hhmm_length]; omega) (by omega),
        hhmm_length]
    have t4 : ((hhmm h2 m2).data ++ List.replicate 10 '-').take 10
        = (hhmm h2 m2).data ++ List.replicate 5 '-' := by
      rw [take_pad _ '-' 10 10 (by rw [hhmm_length]; omega) (by omega),
        hhmm_length]
    simp only [t1, t2, t3, t4]
    simp only [List.append_assoc]
    rw [← List.append_assoc
        (List.replicate (24 - r.dest_text.data.length) '-')
        (List.replicate 5 '-'),
      ← List.replicate_add]
    have e29 : 24 - r.dest_text.data.length + 5
        = 29 - r.dest_text.data.length := by omega
    rw [e29]
  have hsplit := splitDashRuns_rowB r.dest_text.data
    (hhmm h1 m1).data (hhmm h2 m2).data r.operator_name.data
    (29 - r.dest_text.data.length)
    (by omega) hdDash (hhmm_no_dash _ _ hh1 hm1)
    (hhmm_no_dash _ _ hh2 hm2) hoDash (hhmm_ne_nil _ _)
  have hosuf : r.operator_name.data <:+ rowLineData r := by
    rw [hrow]
    exact suffix_extend r.dest_text.data
      (suffix_extend (List.replicate (29 - r.dest_text.data.length) '-')
        (suffix_extend [' ']
          (suffix_extend (hhmm h1 m1).data
            (suffix_extend (List.replicate 5 '-')
              (suffix_extend (hhmm h2 m2).data
                (List.suffix_append (List.replicate 5 '-')
                  r.operator_name.data))))))
  have hstrip : pyStrip (rowLineData r) = rowLineData r := by
    apply pyStrip_eq_self
    · rw [hrow, headNotSpace_append_left _ _ hdne]
      exact hd1
    · exact headNotSpace_rev_of_suffix _ _ hone hosuf ho2
  have hDe : containsSub (rowLineData r) "Destination".data = false := by
    have e : "Destination".data = 'D' :: "estination".data := rfl
    rw [hrow, e, containsSub_rowB_decomp 'D' "estination".data (by decide)
      (by decide) _ _ _ _ _ (by omega), ← e]
    rw [hdDe, hhmm_no_destination _ _ hh1 hm1,
      hhmm_no_destination _ _ hh2 hm2, hoDe]
    rfl
  have hSt : containsSub (rowLineData r) "Status:".data = false := by
    have e : "Status:".data = 'S' :: "tatus:".data := rfl
    rw [hrow, e, containsSub_rowB_decomp 'S' "tatus:".data (by decide)
      (by decide) _ _ _ _ _ (by omega), ← e]
    rw [no_status_colon _ hdSt,
      no_status_colon _ (hhmm_no_status _ _ hh1 hm1),
      no_status_colon _ (hhmm_no_status _ _ hh2 hm2),
      no_status_colon _ hoSt]
    rfl
  have hGt : containsSub (rowLineData r) ">>>".data = false := by
    have e : ">>>".data = '>' :: ">>".data := rfl
    rw [hrow, e, containsSub_rowB_decomp '>' ">>".data (by decide)
      (by decide) _ _ _ _ _ (by omega)]
    rw [containsSub_eq_false_of_all_ne _ '>' _ hdGt,
      containsSub_eq_false_of_all_ne _ '>' _ (hhmm_no_gt _ _ hh1 hm1),
      containsSub_eq_false_of_all_ne _ '>' _ (hhmm_no_gt _ _ hh2 hm2),
      containsSub_eq_false_of_all_ne _ '>' _ hoGt]
    rfl
  have hDash3 : containsSub (rowLineData r) "---".data = true := by
    rw [hrow]
    exact containsSub_dash3 _ _ _ (by omega)
  have hempty : (rowLineData r).isEmpty = false := by
    rw [hrow, List.isEmpty_eq_false]
    exact ne_nil_left _ _ hdne
  have eD : (hhmm h1 m1).data.isEmpty = false := hhmm_isEmpty _ _
  have eE : (hhmm h2 m2).data.isEmpty = false := hhmm_isEmpty _ _
  have edne : r.dest_text.data.isEmpty = false := List.isEmpty_eq_false.mpr hdne
  have eone : r.operator_name.data.isEmpty = false :=
    List.isEmpty_eq_false.mpr hone
  have hparts : serviceParts (rowLineData r)
      = [r.dest_text.data, (hhmm h1 m1).data,
         (hhmm h2 m2).data, r.operator_name.data] := by
    unfold serviceParts
    rw [hrow, hsplit]
    simp only [List.map_cons, List.map_nil,
      pyStrip_eq_self _ hd1 hd2,
      pyStrip_cons_space, hhmm_pyStrip _ _ hh1 hm1, hhmm_pyStrip _ _ hh2 hm2,
      pyStrip_eq_self _ ho1 ho2]
    simp only [List.filter, eD, eE, edne, eone, Bool.not_false]
  have hdata : (String.mk (rowLineData r)).data = rowLineData r := rfl
  simp only [parseStep, hdata, hstrip, hempty, hDe, hDash3, hSt, hGt, hparts,
    Bool.or_self, Bool.false_eq_true, if_false, Bool.not_false,
    Bool.and_true, Bool.true_and, Bool.and_self, if_true]
  rw [if_neg (by simp), if_pos (by simp), hstd, hetd]

lemma matchStatusPrefix_cancelled (o : List Char)
    (ho1 : headNotSpace o = true) :
    matchStatusPrefix ("Cancelled".data ++ '-' :: o)
      = some ("Cancelled".data, o) := by
  unfold matchStatusPrefix matchStatusWord
  have hstart : listStartsWith (upperAscii ("Cancelled".data ++ '-' :: o))
      (upperAscii "Cancelled".data) = true := by
    unfold upperAscii
    rw [List.map_append]
    exact listStartsWith_append_self _ _
  have hdrop : ("Cancelled".data ++ '-' :: o).drop "Cancelled".data.length
      = '-' :: o := List.drop_left _ _
  have htake : ("Cancelled".data ++ '-' :: o).take "Cancelled".data.length
      = "Cancelled".data := List.take_left _ _
  have hdw : ('-' :: o).dropWhile isPySpace = '-' :: o := by
    rw [List.dropWhile_cons]
    simp [isPySpace]
  have hdwo : o.dropWhile isPySpace = o := by
    cases o with
    | nil => rfl
    | cons c cs =>
      simp only [headNotSpace, Bool.not_eq_true'] at ho1
      simp [List.dropWhile_cons, ho1]
  simp only [hstart, if_true, hdrop, hdw, htake, hdwo]
  rfl

lemma parseStep_accept_C (r : ServiceRecord) (st : ParseState)
    (h1 m1 : Nat) (hh1 : h1 < 24) (hm1 : m1 < 60)
    (hdf : safeField r.dest_text = true) (hdl : r.dest_text.data.length ≤ 21)
    (hpe : r.platform = "") (hof : safeField r.operator_name = true)
    (hstd : r.std = hhmm h1 m1) (hetd : r.etd = "Cancelled") :
    parseStep st (String.mk (rowLineData r))
      = { services :=
            { destination := r.dest_text, platform := "",
              scheduled := r.std, estimated := "Cancelled",
              operatorName := r.operator_name, status := "Cancelled",
              calling_points := "" } :: st.services,
          hasCurrent := true, skipped := st.skipped } := by
  obtain ⟨hd1, hd2, hdDash, hdComma, hdNl, hdGt, hdSt, hdDe⟩ := safeField_parts _ hdf
  obtain ⟨ho1, ho2, hoDash, hoComma, hoNl, hoGt, hoSt, hoDe⟩ := safeField_parts _ hof
  have hdne : r.dest_text.data ≠ [] := headNotSpace_ne_nil _ hd1
  have hone : r.operator_name.data ≠ [] := headNotSpace_ne_nil _ ho1
  have hpd : r.platform.data = [] := by rw [hpe]
  have hrow : rowLineData r
      = r.dest_text.data ++ (List.replicate (29 - r.dest_text.data.length) '-'
        ++ ' ' :: ((hhmm h1 m1).data ++ (List.replicate 5 '-'
        ++ ("Cancelled".data ++ '-' :: r.operator_name.data)))) := by
    unfold rowLineData
    rw [hstd, hetd, hpd]
    have t1 : (r.dest_text.data ++ List.replicate 50 '-').take 24
        = r.dest_text.data ++ List.replicate (24 - r.dest_text.data.length) '-' :=
      take_pad _ '-' 24 50 (by omega) (by omega)
    have t2 : (([] : List Char) ++ List.replicate 10 '-').take 5
        = List.replicate 5 '-' := rfl
    have t3 : ((hhmm h1 m1).data ++ List.replicate 10 '-').take 10
        = (hhmm h1 m1).data ++ List.replicate 5 '-' := by
      rw [take_pad _ '-' 10 10 (by rw [hhmm_length]; omega) (by omega),
        hhmm_length]
    have t4 : (("Cancelled" : String).data ++ List.replicate 10 '-').take 10
        = "Cancelled".data ++ ['-'] := rfl
    simp only [t1, t2, t3, t4]
    simp only [List.append_assoc, List.singleton_append]
    rw [← List.append_assoc
        (List.replicate (24 - r.dest_text.data.length) '-')
        (List.replicate 5 '-'),
      ← List.replicate_add]
    have e29 : 24 - r.dest_text.data.length + 5
        = 29 - r.dest_text.data.length := by omega
    rw [e29]
  have hsplit := splitDashRuns_rowC r.dest_text.data
    (hhmm h1 m1).data "Cancelled".data r.operator_name.data
    (29 - r.dest_text.data.length)
    (by omega) hdDash (hhmm_no_dash _ _ hh1 hm1)
    (by decide) hoDash (by decide)
  have hosuf : r.operator_name.data <:+ rowLineData r := by
    rw [hrow]
    exact suffix_extend r.dest_text.data
      (suffix_extend (List.replicate (29 - r.dest_text.data.length) '-')
        (suffix_extend [' ']
          (suffix_extend (hhmm h1 m1).data
            (suffix_extend (List.replicate 5 '-')
              (suffix_extend "Cancelled".data
                (List.suffix_append ['-'] r.operator_name.data))))))
  have hstrip : pyStrip (rowLineData r) = rowLineData r := by
    apply pyStrip_eq_self
    · rw [hrow, headNotSpace_append_left _ _ hdne]
      exact hd1
    · exact headNotSpace_rev_of_suffix _ _ hone hosuf ho2
  have hDe : containsSub (rowLineData r) "Destination".data = false := by
    have e : "Destination".data = 'D' :: "estination".data := rfl
    rw [hrow, e, containsSub_rowC_decomp 'D' "estination".data (by decide)
      (by decide) _ _ _ _ _ (by omega), ← e]
    rw [hdDe, hhmm_no_destination _ _ hh1 hm1, hoDe]
    norm_num
    decide
  have hSt : containsSub (rowLineData r) "Status:".data = false := by
    have e : "Status:".data = 'S' :: "tatus:".data := rfl
    rw [hrow, e, containsSub_rowC_decomp 'S' "tatus:".data (by decide)
      (by decide) _ _ _ _ _ (by omega), ← e]
    rw [no_status_colon _ hdSt,
      no_status_colon _ (hhmm_no_status _ _ hh1 hm1),
      no_status_colon _ hoSt]
    norm_num
    decide
  have hGt : containsSub (rowLineData r) ">>>".data = false := by
    have e : ">>>".data = '>' :: ">>".data := rfl
    rw [hrow, e, containsSub_rowC_decomp '>' ">>".data (by decide)
      (by decide) _ _ _ _ _ (by omega)]
    rw [containsSub_eq_false_of_all_ne _ '>' _ hdGt,
      containsSub_eq_false_of_all_ne _ '>' _ (hhmm_no_gt _ _ hh1 hm1),
      containsSub_eq_false_of_all_ne _ '>' _ hoGt]
    norm_num
    decide
  have hDash3 : containsSub (rowLineData r) "---".data = true := by
    rw [hrow]
    exact containsSub_dash3 _ _ _ (by omega)
  have hempty : (rowLineData r).isEmpty = false := by
    rw [hrow, List.isEmpty_eq_false]
    exact ne_nil_left _ _ hdne
  have eD : (hhmm h1 m1).data.isEmpty = false := hhmm_isEmpty _ _
  have edne : r.dest_text.data.isEmpty = false := List.isEmpty_eq_false.mpr hdne
  have eone : r.operator_name.data.isEmpty = false :=
    List.isEmpty_eq_false.mpr hone
  have hstripC : pyStrip ("Cancelled".data ++ '-' :: r.operator_name.data)
      = "Cancelled".data ++ '-' :: r.operator_name.data := by
    apply pyStrip_eq_self
    · rfl
    · exact headNotSpace_rev_of_suffix _ _ hone
        (suffix_extend "Cancelled".data
          (List.suffix_append ['-'] r.operator_name.data)) ho2
  have heCne : ("Cancelled".data ++ '-' :: r.operator_name.data).isEmpty
      = false := by
    rfl
  have hparts : serviceParts (rowLineData r)
      = [r.dest_text.data, (hhmm h1 m1).data,
         "Cancelled".data ++ '-' :: r.operator_name.data] := by
    unfold serviceParts
    rw [hrow, hsplit]
    simp only [List.map_cons, List.map_nil,
      pyStrip_eq_self _ hd1 hd2,
      pyStrip_cons_space, hhmm_pyStrip _ _ hh1 hm1, hstripC]
    simp only [List.filter, eD, edne, heCne, Bool.not_false]
  have hdata : (String.mk (rowLineData r)).data = rowLineData r := rfl
  simp only [parseStep, hdata, hstrip, hempty, hDe, hDash3, hSt, hGt, hparts,
    Bool.or_self, Bool.false_eq_true, if_false, Bool.not_false,
    Bool.and_true, Bool.true_and, Bool.and_self, if_true]
  rw [if_neg (by simp), if_neg (by simp), if_pos (by simp)]
  rw [show ([r.dest_text.data, (hhmm h1 m1).data,
      "Cancelled".data ++ '-' :: r.operator_name.data].getD 2 [])
    = "Cancelled".data ++ '-' :: r.operator_name.data from rfl]
  rw [matchStatusPrefix_cancelled _ ho1]
  simp only [mkService3, List.getD_cons_zero, List.getD_cons_succ, eone,
    Bool.false_eq_true, if_false]
  rw [hstd]

/-! ## Lines that leave the current service's identity untouched -/

lemma parseStep_nil (st : ParseState) : parseStep st (String.mk []) = st := by
  simp [parseStep, pyStrip, pyStripLeft]

lemma parseStep_inert (line : String) (s : ParsedService)
    (tail : List ParsedService) (k : Nat)
    (h : (containsSub (pyStrip line.data) "---".data
        && !containsSub (pyStrip line.data) "Status:".data
        && !containsSub (pyStrip line.data) ">>>".data) = false) :
    ∃ s', parseStep ⟨s :: tail, true, k⟩ line = ⟨s' :: tail, true, k⟩ ∧
      s'.destination = s.destination ∧ s'.scheduled = s.scheduled ∧
      s'.operatorName = s.operatorName := by
  simp only [parseStep, updateCurrent]
  split_ifs <;> first
    | exact ⟨_, rfl, rfl, rfl, rfl⟩
    | (exfalso; simp_all)

lemma parse_inert_fold (lines : List String)
    (h : ∀ l ∈ lines, (containsSub (pyStrip l.data) "---".data
        && !containsSub (pyStrip l.data) "Status:".data
        && !containsSub (pyStrip l.data) ">>>".data) = false) :
    ∀ (s : ParsedService) (tail : List ParsedService) (k : Nat),
      ∃ s', List.foldl parseStep ⟨s :: tail, true, k⟩ lines
          = ⟨s' :: tail, true, k⟩ ∧
        s'.destination = s.destination ∧ s'.scheduled = s.scheduled ∧
        s'.operatorName = s.operatorName := by
  induction lines with
  | nil =>
    intro s tail k
    exact ⟨s, rfl, rfl, rfl, rfl⟩
  | cons l ls ih =>
    intro s tail k
    obtain ⟨s1, e1, d1, c1, o1⟩ :=
      parseStep_inert l s tail k (h l (List.mem_cons_self _ _))
    obtain ⟨s2, e2, d2, c2, o2⟩ :=
      ih (fun x hx => h x (List.mem_cons_of_mem _ hx)) s1 tail k
    exact ⟨s2, by rw [List.foldl_cons, e1, e2],
      by rw [d2, d1], by rw [c2, c1], by rw [o2, o1]⟩

lemma statusLine_guard (X : List Char) :
    (containsSub (pyStrip ("Status:".data ++ X)) "---".data
      && !containsSub (pyStrip ("Status:".data ++ X)) "Status:".data
      && !containsSub (pyStrip ("Status:".data ++ X)) ">>>".data) = false := by
  have e1 : ("Status:".data ++ X).dropWhile isPySpace
      = "Status:".data ++ X := by
    show (('S' :: "tatus:".data ++ X).dropWhile isPySpace) = _
    rw [List.cons_append, List.dropWhile_cons]
    simp [isPySpace]
  have e : pyStrip ("Status:".data ++ X)
      = "Status:".data ++ (X.reverse.dropWhile isPySpace).reverse := by
    unfold pyStrip
    rw [e1, pyStripRight_append _ _ (by decide)]
  rw [e]
  have hst : containsSub
      ("Status:".data ++ (X.reverse.dropWhile isPySpace).reverse)
      "Status:".data = true :=
    containsSub_of_startsWith _ _ (listStartsWith_append_self _ _)
  rw [hst]
  simp

lemma cpLine_guard (X : List Char) :
    (containsSub (pyStrip (['>', '>', '>', ' '] ++ X)) "---".data
      && !containsSub (pyStrip (['>', '>', '>', ' '] ++ X)) "Status:".data
      && !containsSub (pyStrip (['>', '>', '>', ' '] ++ X)) ">>>".data)
      = false := by
  have e : pyStrip (['>', '>', '>', ' '] ++ X)
      = ['>', '>', '>'] ++ ((' ' :: X).reverse.dropWhile isPySpace).reverse :=
    pyStrip_gt3 (' ' :: X)
  rw [e]
  have hgt : containsSub
      (['>', '>', '>'] ++ ((' ' :: X).reverse.dropWhile isPySpace).reverse)
      ">>>".data = true :=
    containsSub_of_startsWith _ _ (listStartsWith_append_self _ _)
  rw [hgt]
  simp

lemma cpSplitGo_shape (swl : Nat) :
    ∀ (fuel : Nat) (rem : List Char), ∀ l ∈ cpSplitGo swl fuel rem,
      ∃ X, l = String.mk (['>', '>', '>', ' '] ++ X) := by
  intro fuel
  induction fuel with
  | zero =>
    intro rem l hl
    cases hl
  | succ f ih =>
    intro rem l hl
    simp only [cpSplitGo] at hl
    split_ifs at hl with hz hfit hcut
    · cases hl
    · rcases List.mem_singleton.mp hl with rfl
      exact ⟨rem, rfl⟩
    · rcases List.mem_cons.mp hl with rfl | hl'
      · exact ⟨_, rfl⟩
      · exact ih _ l hl'
    · rcases List.mem_cons.mp hl with rfl | hl'
      · exact ⟨_, rfl⟩
      · exact ih _ l hl'

lemma cpElements_shape (cp : String) (swl : Nat) :
    ∀ l ∈ cpElements cp swl, ∃ X, l = String.mk (['>', '>', '>', ' '] ++ X) := by
  intro l hl
  unfold cpElements at hl
  split_ifs at hl with hfit
  · rcases List.mem_singleton.mp hl with rfl
    exact ⟨_, rfl⟩
  · exact cpSplitGo_shape swl _ _ l hl

lemma pyStrip_subset (l : List Char) : pyStrip l ⊆ l :=
  (pyStrip_within l).subset

lemma pyStripLeft_subset (l : List Char) : pyStripLeft l ⊆ l :=
  (List.dropWhile_suffix _).subset

lemma cpSplitGo_no_nl (swl : Nat) :
    ∀ (fuel : Nat) (rem : List Char), (∀ c ∈ rem, ¬ c = '\n') →
      ∀ l ∈ cpSplitGo swl fuel rem, ∀ c ∈ l.data, ¬ c = '\n' := by
  intro fuel
  induction fuel with
  | zero =>
    intro rem hrem l hl
    cases hl
  | succ f ih =>
    intro rem hrem l hl
    simp only [cpSplitGo] at hl
    split_ifs at hl with hz hfit hcut
    · cases hl
    · rcases List.mem_singleton.mp hl with rfl
      intro c hc
      rcases List.mem_cons.mp hc with rfl | hc
      · decide
      rcases List.mem_cons.mp hc with rfl | hc
      · decide
      rcases List.mem_cons.mp hc with rfl | hc
      · decide
      rcases List.mem_cons.mp hc with rfl | hc
      · decide
      exact hrem c hc
    · rcases List.mem_cons.mp hl with rfl | hl'
      · intro c hc
        rcases List.mem_cons.mp hc with rfl | hc
        · decide
        rcases List.mem_cons.mp hc with rfl | hc
        · decide
        rcases List.mem_cons.mp hc with rfl | hc
        · decide
        rcases List.mem_cons.mp hc with rfl | hc
        · decide
        exact hrem c (List.take_subset _ _ (pyStrip_subset _ hc))
      · exact ih _ (fun c hc =>
          hrem c (List.drop_subset _ _ (pyStripLeft_subset _ hc))) l hl'
    · rcases List.mem_cons.mp hl with rfl | hl'
      · intro c hc
        rcases List.mem_cons.mp hc with rfl | hc
        · decide
        rcases List.mem_cons.mp hc with rfl | hc
        · decide
        rcases List.mem_cons.mp hc with rfl | hc
        · decide
        rcases List.mem_cons.mp hc with rfl | hc
        · decide
        exact hrem c (List.take_subset _ _ (pyStrip_subset _ hc))
      · exact ih _ (fun c hc =>
          hrem c (List.drop_subset _ _ (pyStripLeft_subset _ hc))) l hl'

lemma cpElements_no_nl (cp : String) (swl : Nat)
    (hcp : ∀ c ∈ cp.data, ¬ c = '\n') :
    ∀ l ∈ cpElements cp swl, ∀ c ∈ l.data, ¬ c = '\n' := by
  intro l hl
  unfold cpElements at hl
  split_ifs at hl with hfit
  · rcases List.mem_singleton.mp hl with rfl
    intro c hc
    rcases List.mem_cons.mp hc with rfl | hc
    · decide
    rcases List.mem_cons.mp hc with rfl | hc
    · decide
    rcases List.mem_cons.mp hc with rfl | hc
    · decide
    rcases List.mem_cons.mp hc with rfl | hc
    · decide
    exact hcp c (pyStrip_subset _ hc)
  · exact cpSplitGo_no_nl swl _ _ (fun c hc => hcp c (pyStrip_subset _ hc)) l hl

lemma processBoardLine_keep_status (l : String)
    (h : containsSub l.data "Status".data = true) :
    processBoardLine l = l := by
  unfold processBoardLine
  have hpc : pyContains l "Status" = true := h
  rw [hpc]
  rfl

lemma processBoardLine_keep_gt (l : String)
    (h : containsSub l.data ">>>".data = true) :
    processBoardLine l = l := by
  unfold processBoardLine
  have hpg : pyContains l ">>>" = true := h
  rw [hpg]
  cases hpc : pyContains l "Status" <;> rfl

lemma rowLineData_no_nl (r : ServiceRecord)
    (hdNl : ∀ c ∈ r.dest_text.data, ¬ c = '\n')
    (hpNl : ∀ c ∈ r.platform.data, ¬ c = '\n')
    (hsNl : ∀ c ∈ r.std.data, ¬ c = '\n')
    (heNl : ∀ c ∈ r.etd.data, ¬ c = '\n')
    (hoNl : ∀ c ∈ r.operator_name.data, ¬ c = '\n') :
    ∀ c ∈ rowLineData r, ¬ c = '\n' := by
  intro c hc
  unfold rowLineData at hc
  simp only [List.mem_append, List.mem_cons] at hc
  have hpad : ∀ (f : List Char) (n N : Nat),
      (∀ x ∈ f, ¬ x = '\n') → c ∈ (f ++ List.replicate N '-').take n →
      ¬ c = '\n' := by
    intro f n N hf hm
    rcases List.mem_append.mp (List.take_subset _ _ hm) with hm' | hm'
    · exact hf c hm'
    · rw [List.eq_of_mem_replicate hm']
      decide
  rcases hc with hm | hm | rfl | hm | hm | hm
  · exact hpad _ _ _ hdNl hm
  · exact hpad _ _ _ hpNl hm
  · decide
  · exact hpad _ _ _ hsNl hm
  · exact hpad _ _ _ heNl hm
  · exact hoNl c hm

/-! ## One record's full contribution: build, format, and re-parse -/

lemma joinNl_group (row st : List Char) (cps : List (List Char)) :
    joinNl (('\n' :: row) :: ((st ++ ['\n']) :: cps))
      = joinNl ([[], row, st, []] ++ cps) := by
  simp [joinNl, List.append_assoc]

lemma record_master_gen (r : ServiceRecord)
    (hdf : safeField r.dest_text = true) (hdl : r.dest_text.data.length ≤ 21)
    (hof : safeField r.operator_name = true)
    (h1 m1 : Nat) (hh1 : h1 < 24) (hm1 : m1 < 60) (hstd : r.std = hhmm h1 m1)
    (hcp : cpOk r.cp_string = true)
    (hpComma : ∀ c ∈ r.platform.data, ¬ c = ',')
    (hpNl : ∀ c ∈ r.platform.data, ¬ c = '\n')
    (hpSt : containsSub r.platform.data "Status".data = false)
    (hpGt : ∀ c ∈ r.platform.data, ¬ c = '>')
    (heComma : ∀ c ∈ r.etd.data, ¬ c = ',')
    (heNl : ∀ c ∈ r.etd.data, ¬ c = '\n')
    (heSt : containsSub r.etd.data "Status".data = false)
    (heGt : ∀ c ∈ r.etd.data, ¬ c = '>')
    (hb : ∃ b, delayCalc (some r.std) (some r.etd) = some (b, msgOf r))
    (hmA : ∀ c ∈ (msgOf r).data, ¬ c = '\n')
    (hmB : headNotSpace (msgOf r).data = true)
    (hmC : headNotSpace (msgOf r).data.reverse = true)
    (haccept : ∀ st : ParseState, ∃ svc,
        parseStep st (String.mk (rowLineData r))
          = ⟨svc :: st.services, true, st.skipped⟩ ∧
        svc.destination = r.dest_text ∧ svc.scheduled = r.std ∧
        svc.operatorName = r.operator_name) :
    appendTrainElements r true 80 = some (elemsOf r) ∧
    (elemsOf r).map (fun l => (processBoardLine l).data)
      = ('\n' :: rowLineData r)
        :: ((statusLineData r ++ ['\n']) :: cpLinesData r) ∧
    (∀ l ∈ groupLines r, ∀ c ∈ l, ¬ c = '\n') ∧
    (∀ st : ParseState, ∃ svc,
      List.foldl parseStep st ((groupLines r).map String.mk)
        = ⟨svc :: st.services, true, st.skipped⟩ ∧
      svc.destination = r.dest_text ∧ svc.scheduled = r.std ∧
      svc.operatorName = r.operator_name) := by
  obtain ⟨hd1, hd2, hdDash, hdComma, hdNl, hdGt, hdSt, hdDe⟩ := safeField_parts _ hdf
  obtain ⟨ho1, ho2, hoDash, hoComma, hoNl, hoGt, hoSt, hoDe⟩ := safeField_parts _ hof
  obtain ⟨hcpNl, hcpSt, hcpDe⟩ := cpOk_parts _ hcp
  obtain ⟨b, hdc⟩ := hb
  have hmne : (msgOf r).data ≠ [] := headNotSpace_ne_nil _ hmB
  have hlen : ¬ (pyStrip (msgOf r).data).length = 0 := by
    rw [pyStrip_eq_self _ hmB hmC]
    intro hc
    exact hmne (List.length_eq_zero.mp hc)
  have hmax : max 20 80 = 80 := rfl
  have hatp : appendTrainElements r true 80
      = some (("\n" ++ r.dest_text ++ "," ++ r.platform ++ "," ++ r.std ++ ","
          ++ r.etd ++ "," ++ r.operator_name)
        :: ("Status:" ++ msgOf r ++ "\n")
        :: (if r.cp_string.data.isEmpty then []
            else cpElements r.cp_string 80)) := by
    unfold appendTrainElements
    rw [hdc]
    simp only [Option.map_some']
    rw [if_neg hlen]
    simp only [Bool.true_and, hmax]
    by_cases hemp : r.cp_string.data.isEmpty = true <;>
      simp [hemp]
  have helems : elemsOf r
      = ("\n" ++ r.dest_text ++ "," ++ r.platform ++ "," ++ r.std ++ ","
          ++ r.etd ++ "," ++ r.operator_name)
        :: ("Status:" ++ msgOf r ++ "\n")
        :: (if r.cp_string.data.isEmpty then []
            else cpElements r.cp_string 80) := by
    unfold elemsOf
    rw [hatp]
    rfl
  have e1 : ("\n" : String).data = ['\n'] := rfl
  have e2 : ("," : String).data = [','] := rfl
  have hrshape : ("\n" ++ r.dest_text ++ "," ++ r.platform ++ "," ++ r.std
      ++ "," ++ r.etd ++ "," ++ r.operator_name).data
      = '\n' :: (r.dest_text.data ++ ',' :: (r.platform.data ++ ','
        :: (r.std.data ++ ',' :: (r.etd.data ++ ','
        :: r.operator_name.data)))) := by
    simp [string_data_append, e1, e2, List.append_assoc]
  have hrowstr : ("\n" ++ r.dest_text ++ "," ++ r.platform ++ "," ++ r.std
      ++ "," ++ r.etd ++ "," ++ r.operator_name)
      = String.mk ('\n' :: (r.dest_text.data ++ ',' :: (r.platform.data ++ ','
        :: (r.std.data ++ ',' :: (r.etd.data ++ ','
        :: r.operator_name.data))))) := by
    rw [← hrshape]
  have hsComma : ∀ c ∈ r.std.data, ¬ c = ',' := by
    rw [hstd]
    exact hhmm_no_comma _ _ hh1 hm1
  have hsNl : ∀ c ∈ r.std.data, ¬ c = '\n' := by
    rw [hstd]
    exact hhmm_no_nl _ _ hh1 hm1
  have hsSt : containsSub r.std.data "Status".data = false := by
    rw [hstd]
    exact hhmm_no_status _ _ hh1 hm1
  have hsGt : ∀ c ∈ r.std.data, ¬ c = '>' := by
    rw [hstd]
    exact hhmm_no_gt _ _ hh1 hm1
  have hrowSt : containsSub
      ('\n' :: (r.dest_text.data ++ ',' :: (r.platform.data ++ ','
        :: (r.std.data ++ ',' :: (r.etd.data ++ ','
        :: r.operator_name.data))))) "Status".data = false := by
    have e : "Status".data = 'S' :: "tatus".data := rfl
    rw [e, containsSub_row 'S' "tatus".data (by decide) (by decide), ← e]
    rw [hdSt, hpSt, hsSt, heSt, hoSt]
    rfl
  have hrowGt : containsSub
      ('\n' :: (r.dest_text.data ++ ',' :: (r.platform.data ++ ','
        :: (r.std.data ++ ',' :: (r.etd.data ++ ','
        :: r.operator_name.data))))) ">>>".data = false := by
    have e : ">>>".data = '>' :: ">>".data := rfl
    rw [e, containsSub_row '>' ">>".data (by decide) (by decide)]
    rw [containsSub_eq_false_of_all_ne _ '>' _ hdGt,
      containsSub_eq_false_of_all_ne _ '>' _ hpGt,
      containsSub_eq_false_of_all_ne _ '>' _ hsGt,
      containsSub_eq_false_of_all_ne _ '>' _ heGt,
      containsSub_eq_false_of_all_ne _ '>' _ hoGt]
    rfl
  have hprocRow : processBoardLine ("\n" ++ r.dest_text ++ "," ++ r.platform
      ++ "," ++ r.std ++ "," ++ r.etd ++ "," ++ r.operator_name)
      = String.mk ('\n' :: rowLineData r) := by
    rw [hrowstr, processBoardLine_row _ _ _ _ _ hdComma hpComma hsComma
      heComma hoComma hrowSt hrowGt]
    rfl
  have hsshape : ("Status:" ++ msgOf r ++ "\n").data
      = "Status:".data ++ ((msgOf r).data ++ ['\n']) := by
    simp [string_data_append, e1, List.append_assoc]
  have hprocStatus : processBoardLine ("Status:" ++ msgOf r ++ "\n")
      = "Status:" ++ msgOf r ++ "\n" := by
    apply processBoardLine_keep_status
    rw [hsshape]
    apply containsSub_of_startsWith
    have e : "Status:".data ++ ((msgOf r).data ++ ['\n'])
        = "Status".data ++ (':' :: ((msgOf r).data ++ ['\n'])) := by
      rfl
    rw [e]
    exact listStartsWith_append_self _ _
  have hcpShape : ∀ l ∈ (if r.cp_string.data.isEmpty then []
      else cpElements r.cp_string 80),
      ∃ X, l = String.mk (['>', '>', '>', ' '] ++ X) := by
    intro l hl
    by_cases hemp : r.cp_string.data.isEmpty = true
    · rw [if_pos hemp] at hl
      cases hl
    · rw [if_neg hemp] at hl
      exact cpElements_shape _ _ l hl
  have hcpProc : ∀ l ∈ (if r.cp_string.data.isEmpty then []
      else cpElements r.cp_string 80),
      (processBoardLine l).data = l.data := by
    intro l hl
    obtain ⟨X, rfl⟩ := hcpShape l hl
    rw [processBoardLine_keep_gt]
    apply containsSub_of_startsWith
    have e : (String.mk (['>', '>', '>', ' '] ++ X)).data
        = ">>>".data ++ (' ' :: X) := rfl
    rw [e]
    exact listStartsWith_append_self _ _
  have hcpData : ((if r.cp_string.data.isEmpty then []
      else cpElements r.cp_string 80).map String.data) = cpLinesData r := by
    unfold cpLinesData
    by_cases hemp : r.cp_string.data.isEmpty = true <;> simp [hemp]
  have hmap : (elemsOf r).map (fun l => (processBoardLine l).data)
      = ('\n' :: rowLineData r)
        :: ((statusLineData r ++ ['\n']) :: cpLinesData r) := by
    rw [helems]
    simp only [List.map_cons]
    rw [hprocRow, hprocStatus, hsshape]
    unfold statusLineData
    rw [List.append_assoc, ← hcpData, List.map_congr_left hcpProc]
  refine ⟨by rw [hatp, helems], hmap, ?_, ?_⟩
  · intro l hl
    unfold groupLines at hl
    simp only [List.mem_append, List.mem_cons, List.not_mem_nil,
      or_false] at hl
    rcases hl with (rfl | rfl | rfl | rfl) | hl
    · intro c hc
      cases hc
    · exact rowLineData_no_nl r hdNl hpNl hsNl heNl hoNl
    · intro c hc
      unfold statusLineData at hc
      rcases List.mem_append.mp hc with hc' | hc'
      · have hst7 : ∀ x ∈ ("Status:".data : List Char), ¬ x = '\n' := by
          decide
        exact hst7 c hc'
      · exact hmA c hc'
    · intro c hc
      cases hc
    · unfold cpLinesData at hl
      by_cases hemp : r.cp_string.data.isEmpty = true
      · rw [if_pos hemp] at hl
        cases hl
      · rw [if_neg hemp] at hl
        obtain ⟨e, he, rfl⟩ := List.mem_map.mp hl
        exact cpElements_no_nl _ 80 hcpNl e he
  · intro st
    obtain ⟨svc0, hacc, had, has, hao⟩ := haccept st
    have hguards : ∀ l ∈ (String.mk (statusLineData r) :: String.mk []
        :: (cpLinesData r).map String.mk),
        (containsSub (pyStrip l.data) "---".data
          && !containsSub (pyStrip l.data) "Status:".data
          && !containsSub (pyStrip l.data) ">>>".data) = false := by
      intro l hl
      rcases List.mem_cons.mp hl with rfl | hl
      · exact statusLine_guard (msgOf r).data
      rcases List.mem_cons.mp hl with rfl | hl
      · decide
      obtain ⟨ld, hld, rfl⟩ := List.mem_map.mp hl
      unfold cpLinesData at hld
      by_cases hemp : r.cp_string.data.isEmpty = true
      · rw [if_pos hemp] at hld
        cases hld
      · rw [if_neg hemp] at hld
        obtain ⟨e, he, rfl⟩ := List.mem_map.mp hld
        obtain ⟨X, rfl⟩ := cpElements_shape _ _ e he
        exact cpLine_guard X
    obtain ⟨svc', hfold, pd, ps, po⟩ := parse_inert_fold _ hguards svc0
      st.services st.skipped
    refine ⟨svc', ?_, by rw [pd, had], by rw [ps, has], by rw [po, hao]⟩
    have hmapmk : (groupLines r).map String.mk
        = String.mk [] :: String.mk (rowLineData r)
          :: String.mk (statusLineData r) :: String.mk []
          :: (cpLinesData r).map String.mk := by
      unfold groupLines
      simp
    rw [hmapmk, List.foldl_cons, parseStep_nil, List.foldl_cons, hacc]
    exact hfold

lemma record_master (r : ServiceRecord) (hg : goodRecord r) :
    appendTrainElements r true 80 = some (elemsOf r) ∧
    (elemsOf r).map (fun l => (processBoardLine l).data)
      = ('\n' :: rowLineData r)
        :: ((statusLineData r ++ ['\n']) :: cpLinesData r) ∧
    (∀ l ∈ groupLines r, ∀ c ∈ l, ¬ c = '\n') ∧
    (∀ st : ParseState, ∃ svc,
      List.foldl parseStep st ((groupLines r).map String.mk)
        = ⟨svc :: st.services, true, st.skipped⟩ ∧
      svc.destination = r.dest_text ∧ svc.scheduled = r.std ∧
      svc.operatorName = r.operator_name) := by
  obtain ⟨hdf, hdl, hof, ⟨h1, m1, hh1, hm1, hstd⟩, hcp, hcase⟩ := hg
  rcases hcase with ⟨hpf, hpl, h2, m2, hh2, hm2, hetd⟩
    | ⟨hpe, h2, m2, hh2, hm2, hetd⟩ | ⟨hpe, hetd⟩
  · obtain ⟨hp1, hp2, hpDash, hpComma, hpNl, hpGt, hpSt, hpDe⟩ :=
      safeField_parts _ hpf
    have hm : msgOf r
        = (delayMinutes ((h1 : Int) * 60 + m1) ((h2 : Int) * 60 + m2)).2 := by
      unfold msgOf
      rw [hstd, hetd, delayCalc_hhmm_eq h1 m1 h2 m2 hh1 hm1 hh2 hm2]
      rfl
    obtain ⟨mall, mhead, mrev⟩ :=
      delayMsg_props ((h1 : Int) * 60 + m1) ((h2 : Int) * 60 + m2)
    have hmA : ∀ c ∈ (msgOf r).data, ¬ c = '\n' := by
      rw [hm]
      intro c hc
      have hcc := List.all_eq_true.mp mall c hc
      simp only [Bool.and_eq_true, Bool.not_eq_true', decide_eq_false_iff_not]
        at hcc
      exact hcc.1
    have hb : ∃ bb, delayCalc (some r.std) (some r.etd)
        = some (bb, msgOf r) := by
      refine ⟨(delayMinutes ((h1 : Int) * 60 + m1) ((h2 : Int) * 60 + m2)).1, ?_⟩
      rw [hstd, hetd, delayCalc_hhmm_eq h1 m1 h2 m2 hh1 hm1 hh2 hm2, hm]
    exact record_master_gen r hdf hdl hof h1 m1 hh1 hm1 hstd hcp
      hpComma hpNl hpSt hpGt
      (by rw [hetd]; exact hhmm_no_comma _ _ hh2 hm2)
      (by rw [hetd]; exact hhmm_no_nl _ _ hh2 hm2)
      (by rw [hetd]; exact hhmm_no_status _ _ hh2 hm2)
      (by rw [hetd]; exact hhmm_no_gt _ _ hh2 hm2)
      hb hmA (by rw [hm]; exact mhead) (by rw [hm]; exact mrev)
      (fun st => ⟨mkService5 [r.dest_text.data, r.platform.data,
        r.std.data, r.etd.data, r.operator_name.data],
        parseStep_accept_A r st h1 m1 h2 m2 hh1 hm1 hh2 hm2 hdf hdl hpf hpl
          hof hstd hetd, rfl, rfl, rfl⟩)
  · have hpd : r.platform.data = [] := by rw [hpe]
    have hm : msgOf r
        = (delayMinutes ((h1 : Int) * 60 + m1) ((h2 : Int) * 60 + m2)).2 := by
      unfold msgOf
      rw [hstd, hetd, delayCalc_hhmm_eq h1 m1 h2 m2 hh1 hm1 hh2 hm2]
      rfl
    obtain ⟨mall, mhead, mrev⟩ :=
      delayMsg_props ((h1 : Int) * 60 + m1) ((h2 : Int) * 60 + m2)
    have hmA : ∀ c ∈ (msgOf r).data, ¬ c = '\n' := by
      rw [hm]
      intro c hc
      have hcc := List.all_eq_true.mp mall c hc
      simp only [Bool.and_eq_true, Bool.not_eq_true', decide_eq_false_iff_not]
        at hcc
      exact hcc.1
    have hb : ∃ bb, delayCalc (some r.std) (some r.etd)
        = some (bb, msgOf r) := by
      refine ⟨(delayMinutes ((h1 : Int) * 60 + m1) ((h2 : Int) * 60 + m2)).1, ?_⟩
      rw [hstd, hetd, delayCalc_hhmm_eq h1 m1 h2 m2 hh1 hm1 hh2 hm2, hm]
    exact record_master_gen r hdf hdl hof h1 m1 hh1 hm1 hstd hcp
      (by rw [hpd]; intro c hc; cases hc)
      (by rw [hpd]; intro c hc; cases hc)
      (by rw [hpd]; decide)
      (by rw [hpd]; intro c hc; cases hc)
      (by rw [hetd]; exact hhmm_no_comma _ _ hh2 hm2)
      (by rw [hetd]; exact hhmm_no_nl _ _ hh2 hm2)
      (by rw [hetd]; exact hhmm_no_status _ _ hh2 hm2)
      (by rw [hetd]; exact hhmm_no_gt _ _ hh2 hm2)
      hb hmA (by rw [hm]; exact mhead) (by rw [hm]; exact mrev)
      (fun st => ⟨mkService4 [r.dest_text.data,
        r.std.data, r.etd.data, r.operator_name.data],
        parseStep_accept_B r st h1 m1 h2 m2 hh1 hm1 hh2 hm2 hdf hdl hpe
          hof hstd hetd, rfl, rfl, rfl⟩)
  · have hpd : r.platform.data = [] := by rw [hpe]
    have hm : msgOf r = "Cancelled" := by
      unfold msgOf
      rw [hstd, hetd, delayCalc_hhmm_cancelled h1 m1 hh1 hm1]
      rfl
    have hb : ∃ bb, delayCalc (some r.std) (some r.etd)
        = some (bb, msgOf r) := by
      refine ⟨true, ?_⟩
      rw [hstd, hetd, delayCalc_hhmm_cancelled h1 m1 hh1 hm1, hm]
    exact record_master_gen r hdf hdl hof h1 m1 hh1 hm1 hstd hcp
      (by rw [hpd]; intro c hc; cases hc)
      (by rw [hpd]; intro c hc; cases hc)
      (by rw [hpd]; decide)
      (by rw [hpd]; intro c hc; cases hc)
      (by rw [hetd]; decide)
      (by rw [hetd]; decide)
      (by rw [hetd]; decide)
      (by rw [hetd]; decide)
      hb (by rw [hm]; decide) (by rw [hm]; decide) (by rw [hm]; decide)
      (fun st => ⟨{ destination := r.dest_text, platform := "",
                    scheduled := r.std, estimated := "Cancelled",
                    operatorName := r.operator_name, status := "Cancelled",
                    calling_points := "" },
        parseStep_accept_C r st h1 m1 hh1 hm1 hdf hdl hpe hof hstd hetd,
        rfl, rfl, rfl⟩)

/-! ## Assembling the whole board document -/

lemma fsbGo_data (maxL : Nat) :
    ∀ (els : List String) (tot : Nat), els.length + tot ≤ maxL + 1 →
      (fsbGo maxL els tot).data
        = joinNl (els.map (fun l => (processBoardLine l).data)) := by
  intro els
  induction els with
  | nil =>
    intro tot h
    rfl
  | cons l rest ih =>
    intro tot h
    have e1 : ("\n" : String).data = ['\n'] := rfl
    show (processBoardLine l ++ "\n"
      ++ (if maxL < tot + 1 then "" else fsbGo maxL rest (tot + 1))).data = _
    cases rest with
    | nil =>
      split_ifs <;>
        simp [joinNl, string_data_append, e1, fsbGo, List.append_assoc]
    | cons l2 rest2 =>
      have hlt : ¬ maxL < tot + 1 := by
        simp only [List.length_cons] at h
        omega
      rw [if_neg hlt]
      have hrec := ih (tot + 1) (by simp only [List.length_cons] at h ⊢; omega)
      simp [string_data_append, e1, hrec, joinNl_cons, List.append_assoc]

lemma pipeline_lines (records : List ServiceRecord)
    (hgood : ∀ r ∈ records, goodRecord r) :
    joinNl (((records.map elemsOf).join).map
        (fun l => (processBoardLine l).data))
      = joinNl ((records.map groupLines).join) := by
  induction records with
  | nil => rfl
  | cons r rest ih =>
    have ih' := ih (fun x hx => hgood x (List.mem_cons_of_mem _ hx))
    simp only [List.map_cons, List.join_cons, List.map_append]
    rw [joinNl_append, joinNl_append,
      (record_master r (hgood r (List.mem_cons_self _ _))).2.1,
      joinNl_group, ih']
    rfl

lemma parse_groups (records : List ServiceRecord)
    (hgood : ∀ r ∈ records, goodRecord r) :
    ∀ st : ParseState, ∃ svcs : List ParsedService,
      (List.foldl parseStep st
          ((((records.map groupLines).join).map String.mk))).services
        = svcs ++ st.services ∧
      (List.foldl parseStep st
          ((((records.map groupLines).join).map String.mk))).skipped
        = st.skipped ∧
      svcs.map (fun s => (s.destination, s.scheduled, s.operatorName))
        = (records.map (fun r => (r.dest_text, r.std, r.operator_name))).reverse := by
  induction records with
  | nil =>
    intro st
    exact ⟨[], rfl, rfl, rfl⟩
  | cons r rest ih =>
    intro st
    obtain ⟨svc, hacc, hd, hs, ho⟩ :=
      (record_master r (hgood r (List.mem_cons_self _ _))).2.2.2 st
    obtain ⟨svcs, e1, e2, e3⟩ :=
      ih (fun x hx => hgood x (List.mem_cons_of_mem _ hx))
        ⟨svc :: st.services, true, st.skipped⟩
    refine ⟨svcs ++ [svc], ?_, ?_, ?_⟩
    · simp only [List.map_cons, List.join_cons, List.map_append,
        List.foldl_append]
      rw [hacc, e1]
      simp [List.append_assoc]
    · simp only [List.map_cons, List.join_cons, List.map_append,
        List.foldl_append]
      rw [hacc, e2]
    · rw [List.map_append, e3]
      simp [hd, hs, ho, List.reverse_cons]

/-- C2 (amended): for every service-record list in which each record has a
column-safe destination of at most 21 characters, a column-safe operator
name, a canonical `HH:MM` scheduled time, a newline/marker-free
calling-points string, and one of the three claim shapes — a column-safe
platform of at most 2 characters with an `HH:MM` estimate, no platform with
an `HH:MM` estimate (legacy 4-field fallback), or no platform with a
`"Cancelled"` estimate (compressed 3-field fallback) — and whose board
document fits in the formatter's 31-line budget, the modern renderer's
parser recovers exactly the destination, scheduled time and operator
strings of every record in order, with zero skipped lines. -/
theorem board_round_trip_recovers (records : List ServiceRecord)
    (via_station location_name base_via : String)
    (hgood : ∀ r ∈ records, goodRecord r)
    (hbound : 1 + (records.map recordElements).sum ≤ 31) :
    (boardRoundTrip records via_station location_name base_via).map
        (fun pr => (pr.1.map
          (fun s => (s.destination, s.scheduled, s.operatorName)), pr.2))
      = some (records.map (fun r => (r.dest_text, r.std, r.operator_name)),
          0) := by
  have hbuild : buildImageContent records true 80
      = some ("Destination,Sch,Est,By" :: (records.map elemsOf).join) := by
    unfold buildImageContent
    rw [mapM_eq_map_of_some _ elemsOf records
      (fun r hr => (record_master r (hgood r hr)).1)]
    rfl
  have hlen2 : ((records.map elemsOf).join).length
      = (records.map recordElements).sum := by
    rw [List.length_join, List.map_map]
    rfl
  have hbound' : ("Destination,Sch,Est,By"
      :: (records.map elemsOf).join).length + 0 ≤ 30 + 1 := by
    rw [List.length_cons, hlen2]
    omega
  have hnl : ∀ l ∈ ((processBoardLine "Destination,Sch,Est,By").data
      :: (records.map groupLines).join), ∀ c ∈ l, ¬ c = '\n' := by
    intro l hl
    rcases List.mem_cons.mp hl with rfl | hl'
    · decide
    · obtain ⟨gl, hgl, hlg⟩ := List.mem_join.mp hl'
      obtain ⟨rr, hrr, rfl⟩ := List.mem_map.mp hgl
      exact (record_master rr (hgood rr hrr)).2.2.1 l hlg
  have hdoc : (formatStationBoard
      ("Destination,Sch,Est,By" :: (records.map elemsOf).join)
      true via_station location_name base_via 30).data
      = joinNl ((processBoardLine "Destination,Sch,Est,By").data
          :: (records.map groupLines).join) := by
    unfold formatStationBoard
    rw [if_neg (by simp)]
    rw [fsbGo_data 30 _ 0 hbound', List.map_cons, joinNl_cons, joinNl_cons,
      pipeline_lines records hgood]
  have hsplit : splitLines (formatStationBoard
      ("Destination,Sch,Est,By" :: (records.map elemsOf).join)
      true via_station location_name base_via 30)
      = (((processBoardLine "Destination,Sch,Est,By").data
          :: (records.map groupLines).join) ++ [[]]).map String.mk := by
    unfold splitLines
    rw [hdoc, splitOnChar_joinNl _ hnl]
  obtain ⟨svcs, hserv, hskip, htrip⟩ := parse_groups records hgood ⟨[], false, 0⟩
  have hheader : parseStep ⟨[], false, 0⟩
      (String.mk (processBoardLine "Destination,Sch,Est,By").data)
      = ⟨[], false, 0⟩ := by decide
  have hparse : parse_service_data ((((processBoardLine
      "Destination,Sch,Est,By").data :: (records.map groupLines).join)
      ++ [[]]).map String.mk)
      = (svcs.reverse, 0) := by
    simp only [parse_service_data]
    rw [List.map_append, List.map_cons, List.foldl_append, List.foldl_cons,
      hheader]
    rw [show (([[]] : List (List Char)).map String.mk) = [String.mk []]
      from rfl]
    rw [List.foldl_cons, List.foldl_nil, parseStep_nil]
    rw [hserv, hskip]
    rw [List.append_nil]
  rw [boardRoundTrip, hbuild]
  simp only [Option.map_some']
  rw [hsplit, hparse]
  simp only [Option.map_some']
  rw [List.map_reverse, htrip, List.reverse_reverse]

/-- Witness for C2 (amended): three concrete records — platform `"9"` with
calling points (5-field row), no platform (legacy 4-field row), and a
cancelled service (compressed 3-field row) — round-trip to exactly their
destination, scheduled-time and operator triples with zero skipped
lines. -/
theorem board_round_trip_recovers_witness :
    (boardRoundTrip [c2recA, c2recB, c2recC] "" "Woking" "").map
        (fun pr => (pr.1.map
          (fun s => (s.destination, s.scheduled, s.operatorName)), pr.2))
      = some ([("London Waterloo", "17:09", "South Western Railway"),
               ("Epsom", "18:00", "Southern"),
               ("Guildford", "19:05", "Great Western Railway")], 0) := by
  have h := board_round_trip_recovers [c2recA, c2recB, c2recC] "" "Woking" ""
    (by
      intro r hr
      rcases List.mem_cons.mp hr with rfl | hr
      · exact ⟨by decide, by decide, by decide,
          ⟨17, 9, by decide, by decide, by decide⟩, by decide,
          Or.inl ⟨by decide, by decide,
            ⟨17, 12, by decide, by decide, by decide⟩⟩⟩
      rcases List.mem_cons.mp hr with rfl | hr
      · exact ⟨by decide, by decide, by decide,
          ⟨18, 0, by decide, by decide, by decide⟩, by decide,
          Or.inr (Or.inl ⟨by decide,
            ⟨18, 0, by decide, by decide, by decide⟩⟩)⟩
      rcases List.mem_cons.mp hr with rfl | hr
      · exact ⟨by decide, by decide, by decide,
          ⟨19, 5, by decide, by decide, by decide⟩, by decide,
          Or.inr (Or.inr ⟨by decide, by decide⟩)⟩
      · cases hr)
    (by decide)
  rw [h]
  decide

end UKTrains
